import Mathlib

/-! Fusion kernel module: message packets of a fusionee

Shallow embedding of `linux/drivers/char/fusion/fusionee.c`.

* Memory is a function from byte offsets to byte values.  The 16384 byte
  array `Packet.buf` is such a function; only offsets below
  `FUSION_MAX_PACKET_SIZE` are ever written (the capacity assertion of
  `Packet_Write` guards it).
* Intrusive lists and fifos (`FusionFifo`, `direct_list_*`) are Lean lists,
  head of the fifo first; `count` is the length of the list.
* `kmalloc` results, user-memory faults and wake-ups are inputs of the
  functions that consume them.
* A failed `FUSION_ASSERT` ends the modelled execution: the function
  returns `none`.  `D_ASSERT`, `D_MAGIC_ASSERT` (link fields, magic numbers)
  and `FUSION_ASSUME` (a warning) have no counterpart.
-/

namespace Fusion

/-! ## Constants -/

/-- Capacity of a packet buffer, `#define FUSION_MAX_PACKET_SIZE 16384`. -/
def FUSION_MAX_PACKET_SIZE : Nat := 16384

/-- Modelled from the spec: `sizeof(FusionReadMessage)`; the struct is declared in
`linux/fusion.h` (not part of the sources) and the spec gives its wire format as
`{type:int32, id:int32, channel:int32, size:int32}`, sixteen bytes. -/
def sizeof_FusionReadMessage : Nat := 16

/-- Modelled from the spec: the message kind "call" of `FusionMessageType`; the enum is
declared in `linux/fusion.h` (not part of the sources).  No result depends on the
number chosen. -/
def FMT_CALL : Nat := 1

/-- Modelled from the spec: the message kind "pool notification" of `FusionMessageType`,
declared in `linux/fusion.h` (not part of the sources). -/
def FMT_SHMPOOL : Nat := 3

/-- Linux errno `EINTR`. -/
def EINTR : Int := 4
/-- Linux errno `EAGAIN`. -/
def EAGAIN : Int := 11
/-- Linux errno `ENOMEM`. -/
def ENOMEM : Int := 12
/-- Linux errno `EFAULT`. -/
def EFAULT : Int := 14
/-- Linux errno `EINVAL`. -/
def EINVAL : Int := 22
/-- Linux errno `EMSGSIZE`. -/
def EMSGSIZE : Int := 90

/-- Poll event bit `POLLIN`. -/
def POLLIN : Nat := 1
/-- Poll event bit `POLLERR`. -/
def POLLERR : Nat := 8
/-- Poll event bit `POLLRDNORM`. -/
def POLLRDNORM : Nat := 64

/-! ## Bytes and 32-bit words -/

/-- Byte-addressed memory: offset to byte value. -/
abbrev Mem := Nat → Nat

/-- Store of a 32-bit word (little-endian) at offset `off`: `*(int*)(buf + off) = v`. -/
def store32 (buf : Mem) (off v : Nat) : Mem := fun i =>
  if i = off then v % 256
  else if i = off + 1 then v / 256 % 256
  else if i = off + 2 then v / 65536 % 256
  else if i = off + 3 then v / 16777216 % 256
  else buf i

/-- Load of the 32-bit word (little-endian) at offset `off`, as an unsigned number. -/
def load32 (buf : Mem) (off : Nat) : Nat :=
  buf off + 256 * buf (off + 1) + 65536 * buf (off + 2) + 16777216 * buf (off + 3)

/-- The value of a 32-bit pattern read as a C `int`. -/
def toInt32 (v : Nat) : Int :=
  if v < 2147483648 then (v : Int) else (v : Int) - 4294967296

/-- Copy of `n` bytes: `memcpy(buf + dst, src, n)`. -/
def memcpy (buf : Mem) (dst : Nat) (src : Mem) (n : Nat) : Mem := fun i =>
  if dst ≤ i ∧ i < dst + n then src (i - dst) else buf i

/-- A pointer handed to the module: the bytes found behind it and how many of the
leading bytes user-copy routines can access before they fault. -/
structure UserPtr where
  mem : Mem
  accessible : Nat

/-- Model of `copy_from_user(buf + dst, src, n)`: the number of bytes that could not be
copied (0 on success) and the destination memory afterwards. -/
def copy_from_user (buf : Mem) (dst : Nat) (src : UserPtr) (n : Nat) : Nat × Mem :=
  (n - min n src.accessible, memcpy buf dst src.mem (min n src.accessible))

/-! ## Packets -/

/-- Entry of a packet's callback fifo, `MessageCallback`; `func = 0` is the null
function pointer. -/
structure MessageCallback where
  msg_id : Nat
  func : Nat
  ctx : Nat
  param : Nat
deriving DecidableEq

/-- The `Packet` struct: buffer, used length, flush flag, callback fifo. -/
structure Packet where
  buf : Mem
  size : Nat
  flush : Bool
  callbacks : List MessageCallback

/-- The source's `Packet_New`: `alloc` is what `kmalloc` returned, `none` for a null pointer and
otherwise the (uninitialised) contents of the fresh buffer. -/
def Packet_New (alloc : Option Mem) : Option Packet :=
  match alloc with
  | none => none
  | some garbage => some { buf := garbage, size := 0, flush := false, callbacks := [] }

/-- The four header stores of `Packet_Write` (lines 140-143): `msg_type`, `msg_id`,
`msg_channel`, `msg_size` at the offsets 0, 4, 8, 12 of the header. -/
def header_stored (buf : Mem) (header type msg_id channel size : Nat) : Mem :=
  store32 (store32 (store32 (store32 buf header type) (header + 4) msg_id)
    (header + 8) channel) (header + 12) size

/-- Payload copy of `Packet_Write` (lines 145-150): `copy_from_user` or `memcpy`; the
first component is non-zero when the copy faulted. -/
def payload_copied (buf : Mem) (dst : Nat) (msg_data : UserPtr) (msg_size : Nat)
    (from_user : Bool) : Nat × Mem :=
  if from_user then copy_from_user buf dst msg_data msg_size
  else (0, memcpy buf dst msg_data.mem msg_size)

/-- Extra-data copy of `Packet_Write` (lines 152-155), done only for a non-null pointer
and a non-zero size. -/
def extra_copied (buf : Mem) (dst : Nat) (extra_data : Option UserPtr) (extra_size : Nat) :
    Nat × Mem :=
  match extra_data with
  | some extra => if extra_size ≠ 0 then copy_from_user buf dst extra extra_size else (0, buf)
  | none => (0, buf)

/-- Padding loop of `Packet_Write` (lines 157-158): zero bytes at `[lo, hi)`. -/
def zero_padded (buf : Mem) (lo hi : Nat) : Mem := fun i =>
  if lo ≤ i ∧ i < hi then 0 else buf i

/-- The source's `Packet_Write`.  Result `none`: the capacity assertion failed.  Otherwise
the return code (0 or `-EFAULT`) and the packet afterwards. -/
def Packet_Write (packet : Packet) (type msg_id channel : Nat)
    (msg_data : UserPtr) (msg_size : Nat)
    (extra_data : Option UserPtr) (extra_size : Nat) (from_user : Bool) :
    Option (Int × Packet) :=
  let total := sizeof_FusionReadMessage + msg_size + extra_size
  let aligned := (total + 3) / 4 * 4
  let header := packet.size
  if packet.size + aligned ≤ FUSION_MAX_PACKET_SIZE then
    let buf1 := header_stored packet.buf header type msg_id channel (msg_size + extra_size)
    let c1 := payload_copied buf1 (header + sizeof_FusionReadMessage) msg_data msg_size from_user
    if c1.1 ≠ 0 then some (-EFAULT, { packet with buf := c1.2 })
    else
      let c2 := extra_copied c1.2 (header + sizeof_FusionReadMessage + msg_size)
        extra_data extra_size
      if c2.1 ≠ 0 then some (-EFAULT, { packet with buf := c2.2 })
      else
        some (0, { packet with
                   buf := zero_padded c2.2 (packet.size + total) (packet.size + aligned),
                   size := packet.size + aligned })
  else none

/-- The source's `Packet_AddCallback`: `alloc_ok` tells whether `kmalloc` succeeded. -/
def Packet_AddCallback (packet : Packet) (msg_id func ctx param : Nat) (alloc_ok : Bool) :
    Int × Packet :=
  if alloc_ok then
    (0, { packet with callbacks := packet.callbacks ++
            [{ msg_id := msg_id, func := func, ctx := ctx, param := param }] })
  else (-ENOMEM, packet)

/-- The source's `Packet_RunCallbacks`: every entry is taken off the fifo in order; the entries
with a non-null function are invoked, which is recorded by appending them to the
invocation log. -/
def Packet_RunCallbacks (log : List MessageCallback) (packet : Packet) :
    List MessageCallback × Packet :=
  (log ++ packet.callbacks.filter (fun cb => cb.func ≠ 0), { packet with callbacks := [] })

/-- Loop of `Packet_Search`.  `pos` is a `size_t` (64 bit), the stored `msg_size` is an
`int`.  Every iteration over well-formed frames advances `pos` by at least 16, so
`fuel = size` iterations suffice (see `Packet_Search_loop_fuel`). -/
def Packet_Search_loop (buf : Mem) (size msg_type msg_id : Nat) : Nat → Nat → Bool
  | 0, _ => false
  | fuel + 1, pos =>
    if pos < size then
      if load32 buf pos = msg_type ∧ load32 buf (pos + 4) = msg_id then true
      else
        Packet_Search_loop buf size msg_type msg_id fuel
          (Int.toNat (((pos : Int) + (sizeof_FusionReadMessage : Int)
            + (toInt32 (load32 buf (pos + 12)) + 3) / 4 * 4) % 18446744073709551616))
    else false

/-- The source's `Packet_Search`: is there a frame with this type and id? -/
def Packet_Search (packet : Packet) (msg_type msg_id : Nat) : Bool :=
  Packet_Search_loop packet.buf packet.size msg_type msg_id packet.size 0

/-! ## Fifos and the fusionee -/

/-- Modelled from the spec: `fusion_fifo_put` of `fifo.c` (not part of the sources)
links an item at the tail of the fifo. -/
def fusion_fifo_put {α : Type} (fifo : List α) (item : α) : List α := fifo ++ [item]

/-- Modelled from the spec: `fusion_fifo_get` of `fifo.c` (not part of the sources)
unlinks and returns the head of the fifo, null when the fifo is empty. -/
def fusion_fifo_get {α : Type} (fifo : List α) : Option α × List α := (fifo.head?, fifo.tail)

/-- Update, through the pointer that `Fusionee_GetPacket` returned, of the packet at the
tail of the ready fifo. -/
def set_last (fifo : List Packet) (packet : Packet) : List Packet := fifo.dropLast ++ [packet]

/-- The fields of `Fusionee` that the message path uses.  The two `atomic_long`
counters are unbounded naturals. -/
structure Fusionee where
  id : Nat
  pid : Nat
  packets : List Packet
  prev_packets : List Packet
  free_packets : List Packet
  rcv_total : Nat
  snd_total : Nat
  dispatcher_pid : Nat

/-- State of `fusionee_new`'s result: all fields zeroed by `memset` except the pid. -/
def fusionee_new (pid : Nat) : Fusionee :=
  { id := 0, pid := pid, packets := [], prev_packets := [], free_packets := [],
    rcv_total := 0, snd_total := 0, dispatcher_pid := 0 }

/-- Lines 256-260 of `Fusionee_GetPacket`: the tail packet of the ready fifo, if there
is one, is flush-marked. -/
def flush_last (fifo : List Packet) : List Packet :=
  match fifo.getLast? with
  | none => fifo
  | some packet => set_last fifo { packet with flush := true }

/-- Lines 262-268 of `Fusionee_GetPacket`: a packet is taken from the free fifo if that
is not empty, else allocated with `Packet_New`.  The result is the packet (`none`
for a null pointer) and the free fifo afterwards. -/
def acquire_packet (free_packets : List Packet) (alloc : Option Mem) :
    Option Packet × List Packet :=
  if free_packets.length ≠ 0 then fusion_fifo_get free_packets
  else (Packet_New alloc, free_packets)

/-- The source's `Fusionee_GetPacket`.  Outer `none`: the assertion `size <= FUSION_MAX_PACKET_SIZE`
failed.  Otherwise the fusionee afterwards and `*ret_packet`, which is `none` when
the function returns `-ENOMEM`; a returned packet is the tail of the ready fifo.
`alloc` is the result of the `kmalloc` in `Packet_New`, consulted only when the
free fifo is empty. -/
def Fusionee_GetPacket (fusionee : Fusionee) (size : Nat) (alloc : Option Mem) :
    Option (Fusionee × Option Packet) :=
  if size ≤ FUSION_MAX_PACKET_SIZE then
    let last := fusionee.packets.getLast?
    let needs_new : Bool :=
      match last with
      | none => true
      | some packet => decide (packet.size + size > FUSION_MAX_PACKET_SIZE)
    if needs_new then
      let got := acquire_packet fusionee.free_packets alloc
      match got.1 with
      | none =>
        some ({ fusionee with packets := flush_last fusionee.packets, free_packets := got.2 },
              none)
      | some packet =>
        some ({ fusionee with
                  packets := fusion_fifo_put (flush_last fusionee.packets) packet,
                  free_packets := got.2 },
              some packet)
    else some (fusionee, last)
  else none

/-- The source's `Fusionee_PutPacket`: the packet is freed when the free fifo holds more than ten
packets, otherwise reset and put on the free fifo. -/
def Fusionee_PutPacket (fusionee : Fusionee) (packet : Packet) : Fusionee :=
  if fusionee.free_packets.length > 10 then fusionee
  else
    { fusionee with
      free_packets := fusion_fifo_put fusionee.free_packets
        { packet with size := 0, flush := false, callbacks := [] } }

/-- The source's `flush_packets`: every packet of the fifo has its callbacks run and is then
released with `Fusionee_PutPacket`. -/
def flush_packets (fusionee : Fusionee) (log : List MessageCallback) :
    List Packet → Fusionee × List MessageCallback
  | [] => (fusionee, log)
  | packet :: fifo =>
    let r := Packet_RunCallbacks log packet
    flush_packets (Fusionee_PutPacket fusionee r.2) r.1 fifo

/-- The source's `lookup_fusionee`: first fusionee of `dev->fusionee.list` with the given id. -/
def lookup_fusionee (dev : List Fusionee) (id : Nat) : Option Fusionee :=
  dev.find? (fun f => f.id == id)

/-- The source's `lock_fusionee`: lookup, then the fusionee is moved to the front of the list.
The result is the fusionee and the rest of the list behind it. -/
def lock_fusionee (dev : List Fusionee) (id : Nat) : Option (Fusionee × List Fusionee) :=
  match lookup_fusionee dev id with
  | none => none
  | some f => some (f, dev.eraseP (fun g => g.id == id))

/-! ## Sending -/

/-- The message arguments of `fusionee_send_message`.  `serial` is the value of
`call->serial`, the field of the `FusionCallMessage` that `msg_data` points to (its
layout is declared in `linux/fusion.h`, not part of the sources); it is read only
when the type is `FMT_CALL`.  `callback = 0` is a null callback. -/
structure Message where
  msg_type : Nat
  msg_id : Nat
  msg_channel : Nat
  msg_size : Nat
  msg_data : UserPtr
  serial : Nat
  callback : Nat
  callback_ctx : Nat
  callback_param : Nat
  extra_data : Option UserPtr
  extra_size : Nat

/-- Results of the two `kmalloc` calls a send can make. -/
structure Alloc where
  packet : Option Mem
  callback : Bool

/-- The `sender` pointer: null, the receiving fusionee itself, or another fusionee. -/
inductive Sender where
  | null
  | self
  | other (s : Fusionee)

/-- Is the sender pointer non-null? -/
def Sender.present : Sender → Bool
  | .null => false
  | _ => true

/-- One wake-up from `fusion_sleep_on_spinlock`: whether a signal is pending for the
sleeper, and what the other threads did to the state while it slept. -/
structure Wake (σ : Type) where
  signal : Bool
  env : σ → σ

/-- How a call of a send function ends: it returns, it is still asleep on
`wait_process`, or an assertion failed. -/
inductive SendResult where
  | returned (ret : Int) (fusionee : Fusionee) (sender : Sender)
  | sleeping (fusionee : Fusionee) (sender : Sender)
  | assert_failed

/-- The flush decision `msg_type != FMT_CALL || call->serial || !sender`. -/
def send_flushes (sender : Sender) (m : Message) : Bool :=
  m.msg_type != FMT_CALL || m.serial != 0 || !sender.present

/-- The callback entry that `Packet_AddCallback` is asked to add for a message. -/
def Message.entry (m : Message) : MessageCallback :=
  { msg_id := m.msg_id, func := m.callback, ctx := m.callback_ctx, param := m.callback_param }

/-- The sender after `atomic_long_inc(&sender->snd_total)`, for a sender that is another
fusionee; the receiver's own counters are kept in the receiver. -/
def Sender.counted : Sender → Sender
  | .null => .null
  | .self => .self
  | .other s => .other { s with snd_total := s.snd_total + 1 }

/-- Is the sender the receiving fusionee itself? -/
def Sender.is_self : Sender → Bool
  | .self => true
  | _ => false

/-- The part that both send functions share word for word (lines 542-598 and 634-684):
from `Fusionee_GetPacket` to the return, with the receiver locked. -/
def send_locked (sender : Sender) (fusionee : Fusionee) (m : Message) (a : Alloc) : SendResult :=
  match Fusionee_GetPacket fusionee (sizeof_FusionReadMessage + m.msg_size + m.extra_size)
      a.packet with
  | none => .assert_failed
  | some (f1, none) => .returned (-ENOMEM) f1 sender
  | some (f1, some packet) =>
    let size := packet.size
    match Packet_Write packet m.msg_type m.msg_id m.msg_channel m.msg_data m.msg_size
        m.extra_data m.extra_size (m.msg_type != FMT_CALL && m.msg_type != FMT_SHMPOOL) with
    | none => .assert_failed
    | some (ret, p1) =>
      if ret ≠ 0 then .returned ret { f1 with packets := set_last f1.packets p1 } sender
      else
        let r : Int × Packet :=
          if m.callback ≠ 0 then
            Packet_AddCallback p1 m.msg_id m.callback m.callback_ctx m.callback_param a.callback
          else (0, p1)
        if r.1 ≠ 0 then
          .returned r.1 { f1 with packets := set_last f1.packets { r.2 with size := size } } sender
        else
          let p3 : Packet := if send_flushes sender m then { r.2 with flush := true } else r.2
          .returned 0
            { f1 with
              packets := set_last f1.packets p3,
              rcv_total := f1.rcv_total + 1,
              snd_total := f1.snd_total + (if sender.is_self then 1 else 0) }
            sender.counted

/-- The receiving packet after a successful send, in terms of the packet `p1` that
`Packet_Write` left: the callback entry is added if a callback was given, and the
packet is flush-marked if the send flushes. -/
def sent_packet (sender : Sender) (m : Message) (p1 : Packet) : Packet :=
  { p1 with
    callbacks := p1.callbacks ++ (if m.callback ≠ 0 then [m.entry] else []),
    flush := send_flushes sender m || p1.flush }

/-- The source's `fusionee_send_message2`.  `wakes` are the wake-ups the call gets while it sleeps
at the backpressure check, in order; when they are used up the call stays asleep. -/
def fusionee_send_message2 (sender : Sender) (m : Message) (a : Alloc) :
    Fusionee → List (Wake Fusionee) → SendResult
  | fusionee, [] =>
    if fusionee.packets.length > 10 then .sleeping fusionee sender
    else send_locked sender fusionee m a
  | fusionee, w :: ws =>
    if fusionee.packets.length > 10 then
      if w.signal then .returned (-EINTR) (w.env fusionee) sender
      else fusionee_send_message2 sender m a (w.env fusionee) ws
    else send_locked sender fusionee m a

/-- The label `again:` of `fusionee_send_message` and what follows it. -/
def fusionee_send_message_again (sender : Sender) (m : Message) (a : Alloc) :
    Fusionee → List (Wake Fusionee) → SendResult
  | fusionee, [] =>
    if fusionee.packets.length > 10 then .sleeping fusionee sender
    else send_locked sender fusionee m a
  | fusionee, w :: ws =>
    if fusionee.packets.length > 10 then
      if w.signal then .returned (-EINTR) (w.env fusionee) sender
      else fusionee_send_message_again sender m a (w.env fusionee) ws
    else send_locked sender fusionee m a

/-- The source's `fusionee_send_message`: lookup of the recipient in `dev->fusionee.list`, then as
the second variant.  `none`: the lookup failed and the call returned `-EINVAL`. -/
def fusionee_send_message (dev : List Fusionee) (sender : Sender) (recipient : Nat)
    (m : Message) (a : Alloc) (wakes : List (Wake Fusionee)) : Option SendResult :=
  match lookup_fusionee dev recipient with
  | none => none
  | some fusionee => some (fusionee_send_message_again sender m a fusionee wakes)

/-! ## Receiving -/

/-- The state that receiving touches: the fusionee and the log of the callbacks
invoked so far (oldest first). -/
structure World where
  fusionee : Fusionee
  log : List MessageCallback

/-- The bytes `buf[0 .. size)` of a packet, what `copy_to_user` hands over. -/
def Packet.bytes (packet : Packet) : List Nat := (List.range packet.size).map packet.buf

/-- The test `packets.count && packets.items->flush` on the head of the ready fifo. -/
def head_flushed (fusionee : Fusionee) : Bool :=
  match fusionee.packets with
  | [] => false
  | packet :: _ => packet.flush

/-- Second loop of `fusionee_get_messages` (lines 729-763).  The ready fifo is the list
under recursion; `fusionee.packets` is set when the loop is left.  `accessible` is
the number of bytes of the destination that `copy_to_user` can store to, `out` the
bytes stored so far.  The result is the return code when the loop ends the call
(`-EMSGSIZE`, `-EFAULT`), else `written`. -/
def get_messages_copy (accessible : Nat) :
    List Packet → Fusionee → Int → Int → List Nat → (Int × Fusionee × List Nat)
  | [], fusionee, written, _, out => (written, { fusionee with packets := [] }, out)
  | packet :: rest, fusionee, written, buf_size, out =>
    if packet.flush then
      let bytes : Int := packet.size
      if bytes > buf_size then
        if written = 0 then (-EMSGSIZE, { fusionee with packets := packet :: rest }, out)
        else (written, { fusionee with packets := packet :: rest }, out)
      else if out.length + packet.size > accessible then
        (-EFAULT, { fusionee with packets := packet :: rest },
          out ++ packet.bytes.take (accessible - out.length))
      else
        let f1 : Fusionee :=
          if packet.callbacks.length ≠ 0 then
            { fusionee with prev_packets := fusion_fifo_put fusionee.prev_packets packet }
          else Fusionee_PutPacket fusionee packet
        get_messages_copy accessible rest f1 (written + bytes) (buf_size - bytes)
          (out ++ packet.bytes)
    else (written, { fusionee with packets := packet :: rest }, out)

/-- How a call of `fusionee_get_messages` ends: it returns a code, having stored `out`
to the destination, or it is still asleep on `wait_receive`. -/
inductive DrainResult where
  | returned (ret : Int) (out : List Nat) (w : World)
  | sleeping (w : World)

/-- From the second loop of `fusionee_get_messages` to its return: copy, unlock,
`flush_packets` of the local snapshot `prev_packets`. -/
def get_messages_finish (buf_size : Int) (accessible : Nat) (prev_packets : List Packet)
    (w : World) : DrainResult :=
  let c := get_messages_copy accessible w.fusionee.packets w.fusionee 0 buf_size []
  let r := flush_packets c.2.1 w.log prev_packets
  .returned c.1 c.2.2 { fusionee := r.1, log := r.2 }

/-- First loop of `fusionee_get_messages` (lines 709-727) once the local snapshot
`prev_packets` is empty, and the rest of the function. -/
def get_messages_wait (buf_size : Int) (accessible : Nat) (block : Bool) :
    World → List (Wake World) → DrainResult
  | w, [] =>
    if head_flushed w.fusionee then get_messages_finish buf_size accessible [] w
    else if !block then .returned (-EAGAIN) [] w
    else .sleeping w
  | w, k :: ks =>
    if head_flushed w.fusionee then get_messages_finish buf_size accessible [] w
    else if !block then .returned (-EAGAIN) [] w
    else if k.signal then .returned (-EINTR) [] (k.env w)
    else get_messages_wait buf_size accessible block (k.env w) ks

/-- Lines 701-705 of `fusionee_get_messages`: the caller is recorded as dispatcher and
`prev_packets` is detached (the local copy is the old value of the field). -/
def detach_prev (fusionee : Fusionee) (pid : Nat) : Fusionee :=
  { fusionee with dispatcher_pid := pid, prev_packets := [] }

/-- The source's `fusionee_get_messages`.  `pid` is `current->pid`.  When the first loop finds a
non-empty snapshot it flushes it and iterates with the snapshot empty, which is
`get_messages_wait`. -/
def fusionee_get_messages (pid : Nat) (buf_size : Int) (accessible : Nat) (block : Bool)
    (w : World) (wakes : List (Wake World)) : DrainResult :=
  let prev_packets := w.fusionee.prev_packets
  let f0 : Fusionee := detach_prev w.fusionee pid
  if head_flushed f0 then
    get_messages_finish buf_size accessible prev_packets { w with fusionee := f0 }
  else if !block then
    let r := flush_packets f0 w.log prev_packets
    .returned (-EAGAIN) [] { fusionee := r.1, log := r.2 }
  else if prev_packets.length ≠ 0 then
    let r := flush_packets f0 w.log prev_packets
    get_messages_wait buf_size accessible block { fusionee := r.1, log := r.2 } wakes
  else
    get_messages_wait buf_size accessible block { w with fusionee := f0 } wakes

/-! ## The processed barrier and poll -/

/-- How a call of `fusionee_wait_processing` ends; `dev` is `dev->fusionee.list`. -/
inductive WaitResult where
  | returned (ret : Int) (dev : List Fusionee)
  | sleeping (dev : List Fusionee)

/-- The two searches of `fusionee_wait_processing`: the packet at which the scan of
the ready fifo stopped, else the one at which the scan of `prev_packets` stopped. -/
def wait_processing_search (fusionee : Fusionee) (msg_type msg_id : Nat) : Option Packet :=
  match fusionee.packets.find? (fun packet => Packet_Search packet msg_type msg_id) with
  | some packet => some packet
  | none => fusionee.prev_packets.find? (fun packet => Packet_Search packet msg_type msg_id)

/-- The source's `fusionee_wait_processing`. -/
def fusionee_wait_processing (fusion_id msg_type msg_id : Nat) :
    List Fusionee → List (Wake (List Fusionee)) → WaitResult
  | dev, [] =>
    match lock_fusionee dev fusion_id with
    | none => .returned (-EINVAL) dev
    | some (fusionee, rest) =>
      match wait_processing_search fusionee msg_type msg_id with
      | none => .returned 0 (fusionee :: rest)
      | some _ => .sleeping (fusionee :: rest)
  | dev, k :: ks =>
    match lock_fusionee dev fusion_id with
    | none => .returned (-EINVAL) dev
    | some (fusionee, rest) =>
      match wait_processing_search fusionee msg_type msg_id with
      | none => .returned 0 (fusionee :: rest)
      | some _ =>
        if k.signal then .returned (-EINTR) (k.env (fusionee :: rest))
        else fusionee_wait_processing fusion_id msg_type msg_id (k.env (fusionee :: rest)) ks

/-- The source's `fusionee_poll`: returned events, `dev->fusionee.list` and the callback log
afterwards. -/
def fusionee_poll (dev : List Fusionee) (id : Nat) (log : List MessageCallback) :
    Nat × List Fusionee × List MessageCallback :=
  match lock_fusionee dev id with
  | none => (POLLERR, dev, log)
  | some (fusionee, rest) =>
    let prev_msgs := fusionee.prev_packets
    let r := flush_packets { fusionee with prev_packets := [] } log prev_msgs
    match lock_fusionee (r.1 :: rest) id with
    | none => (POLLERR, r.1 :: rest, r.2)
    | some (f2, rest2) =>
      if head_flushed f2 then (POLLIN ||| POLLRDNORM, f2 :: rest2, r.2)
      else (0, f2 :: rest2, r.2)

/-! ## Frames in a buffer -/

/-- The header struct `FusionReadMessage` at the start of every frame. -/
structure FusionReadMessage where
  msg_type : Nat
  msg_id : Nat
  msg_channel : Nat
  msg_size : Nat

/-- Distance from a frame header to the next: the header plus the payload length rounded
up to a multiple of four. -/
def frame_stride (h : FusionReadMessage) : Nat :=
  sizeof_FusionReadMessage + (h.msg_size + 3) / 4 * 4

/-- Total length of a sequence of frames. -/
def layout_size (hs : List FusionReadMessage) : Nat := (hs.map frame_stride).sum

/-- The buffer holds, from offset `pos` on, frames with the headers `hs`, one after the
other. -/
def Layout (buf : Mem) : Nat → List FusionReadMessage → Prop
  | _, [] => True
  | pos, h :: hs =>
    load32 buf pos = h.msg_type ∧ load32 buf (pos + 4) = h.msg_id ∧
    load32 buf (pos + 8) = h.msg_channel ∧ load32 buf (pos + 12) = h.msg_size ∧
    Layout buf (pos + frame_stride h) hs

/-- Arguments of one `Packet_Write` call. -/
structure WriteArgs where
  type : Nat
  msg_id : Nat
  channel : Nat
  msg_data : UserPtr
  msg_size : Nat
  extra_data : Option UserPtr
  extra_size : Nat
  from_user : Bool

/-- The header that a write puts in front of its frame. -/
def WriteArgs.header (a : WriteArgs) : FusionReadMessage :=
  { msg_type := a.type, msg_id := a.msg_id, msg_channel := a.channel,
    msg_size := a.msg_size + a.extra_size }

/-- One `Packet_Write` call with its arguments bundled. -/
def Packet.write (p : Packet) (a : WriteArgs) : Option (Int × Packet) :=
  Packet_Write p a.type a.msg_id a.channel a.msg_data a.msg_size a.extra_data a.extra_size
    a.from_user

/-- A sequence of `Packet_Write` calls on one packet that all return 0; `none` if one
of them does not. -/
def Packet.write_all : Packet → List WriteArgs → Option Packet
  | p, [] => some p
  | p, a :: as =>
    match p.write a with
    | some (ret, p1) => if ret = 0 then Packet.write_all p1 as else none
    | none => none

/-- No copy of this write faults: the sources are accessible over the lengths copied. -/
def WriteArgs.no_fault (a : WriteArgs) : Prop :=
  (a.from_user = true → a.msg_size ≤ a.msg_data.accessible) ∧
  (∀ e, a.extra_data = some e → a.extra_size ≤ e.accessible)

/-- The three header words of the write are 32-bit values. -/
def WriteArgs.words32 (a : WriteArgs) : Prop :=
  a.type < 4294967296 ∧ a.msg_id < 4294967296 ∧ a.channel < 4294967296

/-! ## Example inputs -/

/-- Payload bytes that spell a frame header with type 1 and id 9. -/
def example_payload : Mem := fun i => if i = 0 then 1 else if i = 4 then 9 else 0

/-- An empty packet whose buffer holds stale bytes. -/
def example_packet : Packet := { buf := fun _ => 255, size := 0, flush := false, callbacks := [] }

/-- Two frames: (type 2, id 7) with sixteen payload bytes copied from user memory,
(type 1, id 8) with five payload bytes and two extra bytes. -/
def example_frames : List WriteArgs :=
  [ { type := 2, msg_id := 7, channel := 0,
      msg_data := { mem := example_payload, accessible := 16 },
      msg_size := 16, extra_data := none, extra_size := 0, from_user := true },
    { type := 1, msg_id := 8, channel := 3, msg_data := { mem := fun _ => 170, accessible := 0 },
      msg_size := 5, extra_data := some { mem := fun _ => 187, accessible := 2 },
      extra_size := 2, from_user := false } ]

/-! ## Runs of operations on one fusionee -/

/-- One operation on the fusionee, each taken up to its return or to the point where
it goes to sleep.  `send` is `fusionee_send_message2`, `send_by_id` is
`fusionee_send_message` with the fusionee's own id as recipient, `get_messages_wake`
is a call of `fusionee_get_messages` asleep in its first loop that is woken without a
signal pending. -/
inductive Op where
  | send (sender : Sender) (m : Message) (a : Alloc)
  | send_by_id (sender : Sender) (m : Message) (a : Alloc)
  | get_messages (pid : Nat) (buf_size : Int) (accessible : Nat) (block : Bool)
  | get_messages_wake (buf_size : Int) (accessible : Nat)
  | poll
  | wait_processing (msg_type msg_id : Nat)

/-- What an operation reports to its caller. -/
inductive Event where
  | send_returned (ret : Int)
  | send_sleeping
  | assert_failed
  | get_messages_returned (ret : Int) (out : List Nat)
  | get_messages_sleeping
  | poll_returned (revents : Nat)
  | wait_returned (ret : Int)
  | wait_sleeping
deriving DecidableEq

/-- The world after a send and the event it reports; a failed assertion stops the
modelled execution and leaves the world as it was. -/
def send_outcome (w : World) : SendResult → World × Event
  | .returned ret f _ => ({ w with fusionee := f }, .send_returned ret)
  | .sleeping _ _ => (w, .send_sleeping)
  | .assert_failed => (w, .assert_failed)

/-- The world after a call of `fusionee_get_messages` and the event it reports. -/
def get_messages_outcome : DrainResult → World × Event
  | .returned ret out w => (w, .get_messages_returned ret out)
  | .sleeping w => (w, .get_messages_sleeping)

/-- One operation on a world in which the fusionee is the only one registered with
the device. -/
def step (w : World) : Op → World × Event
  | .send sender m a => send_outcome w (fusionee_send_message2 sender m a w.fusionee [])
  | .send_by_id sender m a =>
    match fusionee_send_message [w.fusionee] sender w.fusionee.id m a [] with
    | some r => send_outcome w r
    | none => (w, .send_returned (-EINVAL))
  | .get_messages pid buf_size accessible block =>
    get_messages_outcome (fusionee_get_messages pid buf_size accessible block w [])
  | .get_messages_wake buf_size accessible =>
    get_messages_outcome (get_messages_wait buf_size accessible true w [])
  | .poll =>
    let r := fusionee_poll [w.fusionee] w.fusionee.id w.log
    match r.2.1 with
    | f :: _ => ({ fusionee := f, log := r.2.2 }, .poll_returned r.1)
    | [] => (w, .poll_returned r.1)
  | .wait_processing msg_type msg_id =>
    match fusionee_wait_processing w.fusionee.id msg_type msg_id [w.fusionee] [] with
    | .returned ret (f :: _) => ({ w with fusionee := f }, .wait_returned ret)
    | .returned ret [] => (w, .wait_returned ret)
    | .sleeping (f :: _) => ({ w with fusionee := f }, .wait_sleeping)
    | .sleeping [] => (w, .wait_sleeping)

/-- A sequence of operations: the world afterwards and the events reported, in order. -/
def run : World → List Op → World × List Event
  | w, [] => (w, [])
  | w, op :: ops => ((run (step w op).1 ops).1, (step w op).2 :: (run (step w op).1 ops).2)

/-- The world of a fusionee just created by `fusionee_new` and given its id by
`fusionee_enter`: all fifos empty, no callback invoked. -/
def initial_world (pid id : Nat) : World :=
  { fusionee := { fusionee_new pid with id := id }, log := [] }

/-- The worlds that sends, receives, polls and waits lead to from an initial one. -/
def Reachable (w : World) : Prop := ∃ pid id ops, (run (initial_world pid id) ops).1 = w

/-- A message that fills a packet: type 0 with 16368 payload bytes, no callback. -/
def full_message : Message :=
  { msg_type := 0, msg_id := 7, msg_channel := 0, msg_size := 16368,
    msg_data := { mem := fun _ => 112, accessible := 16368 }, serial := 0,
    callback := 0, callback_ctx := 0, callback_param := 0, extra_data := none, extra_size := 0 }

/-- A small message: type 0 with four payload bytes, no callback. -/
def small_message : Message :=
  { msg_type := 0, msg_id := 7, msg_channel := 0, msg_size := 4,
    msg_data := { mem := fun _ => 112, accessible := 4 }, serial := 0,
    callback := 0, callback_ctx := 0, callback_param := 0, extra_data := none, extra_size := 0 }

/-- Both allocations succeed; a fresh buffer holds zero bytes. -/
def alloc_ok : Alloc := { packet := some (fun _ => 0), callback := true }

/-! ## Descriptions used in the statements -/

/-- A packet as `Fusionee_PutPacket` leaves it on the free fifo and as `Packet_New`
makes it: used length 0, not flush-marked, no callbacks. -/
def Packet.is_reset (p : Packet) : Prop := p.size = 0 ∧ p.flush = false ∧ p.callbacks = []

/-- Number of packets that the copy loop of `fusionee_get_messages` takes off a ready
fifo for a destination of `c` bytes: the packets of the longest run from the head
that are flush-marked and together fit into `c` bytes. -/
def drain_count : List Packet → Int → Nat
  | [], _ => 0
  | p :: rest, c =>
    if p.flush = true ∧ (p.size : Int) ≤ c then 1 + drain_count rest (c - p.size) else 0

/-- Sum of the used lengths of packets. -/
def total_size (ps : List Packet) : Nat := (ps.map Packet.size).sum

/-- The bytes of packets, one packet after the other. -/
def all_bytes (ps : List Packet) : List Nat := (ps.map Packet.bytes).flatten

/-- The callbacks with a non-null function of packets, in fifo order: what
`flush_packets` invokes. -/
def callbacks_to_run (ps : List Packet) : List MessageCallback :=
  (ps.map (fun p => p.callbacks.filter (fun cb => cb.func ≠ 0))).flatten

/-- All callback entries of packets, in fifo order. -/
def all_callbacks (ps : List Packet) : List MessageCallback := (ps.map Packet.callbacks).flatten

/-- The packet that the copy loop looks at is copied: flush-marked, not larger than the
room left, destination accessible. -/
def copy_goes_on (accessible : Nat) (p : Packet) (buf_size : Int) (out : List Nat) : Prop :=
  p.flush = true ∧ (p.size : Int) ≤ buf_size ∧ out.length + p.size ≤ accessible

/-- The fusionee after the copy loop has copied packet `p`. -/
def after_copy (f : Fusionee) (p : Packet) : Fusionee :=
  if p.callbacks.length ≠ 0 then
    { f with prev_packets := fusion_fifo_put f.prev_packets p }
  else Fusionee_PutPacket f p

/-- A packet whose used part is a sequence of frames, within the capacity, and whose
callback entries have non-null functions. -/
def Packet.well_formed (p : Packet) : Prop :=
  (∃ hs, Layout p.buf 0 hs ∧ p.size = layout_size hs) ∧
  p.size ≤ FUSION_MAX_PACKET_SIZE ∧ ∀ cb ∈ p.callbacks, cb.func ≠ 0

/-- What holds of a fusionee in every reachable world: the packets of the ready fifo and
of `prev_packets` are well formed, a flush-marked packet of the ready fifo is not
empty, the packets of the free fifo are reset. -/
def Fusionee.invariant (f : Fusionee) : Prop :=
  (∀ p ∈ f.packets, p.well_formed) ∧ (∀ p ∈ f.prev_packets, p.well_formed) ∧
  (∀ p ∈ f.packets, p.flush = true → 0 < p.size) ∧
  (∀ p ∈ f.free_packets, p.is_reset)

/-- The header that `Packet_Write` stores for its arguments: the three words are stored
as 32-bit values. -/
def written_header (type msg_id channel size : Nat) : FusionReadMessage :=
  { msg_type := type % 4294967296, msg_id := msg_id % 4294967296,
    msg_channel := channel % 4294967296, msg_size := size }

/-- The packet contains a frame with this type and id: its used part is a sequence of
frames one of which has them in its header. -/
def Packet.has_frame (p : Packet) (msg_type msg_id : Nat) : Prop :=
  ∃ hs, Layout p.buf 0 hs ∧ p.size = layout_size hs ∧
    ∃ h ∈ hs, h.msg_type = msg_type ∧ h.msg_id = msg_id

/-- The arguments with which the send functions call `Packet_Write` for a message. -/
def Message.args (m : Message) : WriteArgs :=
  { type := m.msg_type, msg_id := m.msg_id, channel := m.msg_channel,
    msg_data := m.msg_data, msg_size := m.msg_size,
    extra_data := m.extra_data, extra_size := m.extra_size,
    from_user := (m.msg_type != FMT_CALL && m.msg_type != FMT_SHMPOOL) }

/-- A send that nothing makes fail: the frame fits into a packet, both allocations
succeed, no copy faults. -/
def good_send (m : Message) (a : Alloc) : Prop :=
  sizeof_FusionReadMessage + m.msg_size + m.extra_size ≤ FUSION_MAX_PACKET_SIZE ∧
  a.packet ≠ none ∧ m.args.no_fault ∧ (m.callback = 0 ∨ a.callback = true)

/-- The operation is a send that nothing makes fail. -/
def Op.good_send : Op → Prop
  | .send _ m a => Fusion.good_send m a
  | .send_by_id _ m a => Fusion.good_send m a
  | _ => False

/-- A call without serial: type `FMT_CALL`, id 7, the four payload bytes of "ping", no
callback. -/
def call_message : Message :=
  { msg_type := FMT_CALL, msg_id := 7, msg_channel := 0, msg_size := 4,
    msg_data := { mem := fun i => if i = 0 then 112 else if i = 1 then 105
                           else if i = 2 then 110 else 103,
                  accessible := 0 },
    serial := 0, callback := 0, callback_ctx := 0, callback_param := 0,
    extra_data := none, extra_size := 0 }

/-- Eleven sends that each fill a packet. -/
def eleven_full_sends : List Op := List.replicate 11 (Op.send Sender.null full_message alloc_ok)

/-- The fusionee after eleven sends that each fill a packet: eleven packets are ready. -/
def full_fusionee : Fusionee := (run (initial_world 1 1) eleven_full_sends).1.fusionee

/-- The world after one small flushing send to a fusionee just created. -/
def one_sent_world : World :=
  (run (initial_world 1 1) [Op.send Sender.null small_message alloc_ok]).1

/-! ## Wire format -/

/-- The four bytes of a 32-bit word, least significant first. -/
def le32 (v : Nat) : List Nat := [v % 256, v / 256 % 256, v / 65536 % 256, v / 16777216 % 256]

/-- The extra bytes of a frame: `extra_size` bytes behind the extra pointer, none for a
null pointer. -/
def extra_bytes (extra_data : Option UserPtr) (extra_size : Nat) : List Nat :=
  match extra_data with
  | some extra => (List.range extra_size).map extra.mem
  | none => []

/-- The encoding of a frame as the spec gives it: the four header words type, id,
channel and size, the payload bytes, the extra bytes, and zero bytes up to the next
multiple of four. -/
def WriteArgs.frame_bytes (a : WriteArgs) : List Nat :=
  le32 a.type ++ (le32 a.msg_id ++ (le32 a.channel ++ (le32 (a.msg_size + a.extra_size) ++
  ((List.range a.msg_size).map a.msg_data.mem ++
  (extra_bytes a.extra_data a.extra_size ++
  List.replicate ((sizeof_FusionReadMessage + a.msg_size + a.extra_size + 3) / 4 * 4
    - (sizeof_FusionReadMessage + a.msg_size + a.extra_size)) 0)))))

/-- Extra bytes are announced only with a pointer to them. -/
def WriteArgs.extra_ok (a : WriteArgs) : Prop := a.extra_data = none → a.extra_size = 0

/-! ## What a run sends, delivers and registers -/

/-- The bytes that an operation stored to a receive buffer. -/
def Event.out : Event → List Nat
  | .get_messages_returned _ out => out
  | _ => []

/-- All bytes stored to receive buffers in a run, in call order. -/
def drained_bytes (evs : List Event) : List Nat := (evs.map Event.out).flatten

/-- The message of a send operation. -/
def Op.message : Op → Option Message
  | .send _ m _ => some m
  | .send_by_id _ m _ => some m
  | _ => none

/-- The encoding of the frame that an operation sent: that of its message if the
operation is a send that returned 0. -/
def sent_frame (op : Op) (ev : Event) : List Nat :=
  match op.message with
  | some m => if ev = Event.send_returned 0 then m.args.frame_bytes else []
  | none => []

/-- The encodings of the frames sent in a run, in send order. -/
def sent_bytes : List Op → List Event → List Nat
  | op :: ops, ev :: evs => sent_frame op ev ++ sent_bytes ops evs
  | _, _ => []

/-- The callback entry that an operation registered: that of its message if the
operation is a send with a non-null callback that returned 0. -/
def registered_callback (op : Op) (ev : Event) : List MessageCallback :=
  match op.message with
  | some m => if ev = Event.send_returned 0 ∧ m.callback ≠ 0 then [m.entry] else []
  | none => []

/-- The callback entries registered in a run, in send order. -/
def registered_callbacks : List Op → List Event → List MessageCallback
  | op :: ops, ev :: evs => registered_callback op ev ++ registered_callbacks ops evs
  | _, _ => []

/-- The operation, if a send, announces extra bytes only with a pointer to them. -/
def Op.extra_ok (op : Op) : Prop :=
  match op.message with
  | some m => m.args.extra_ok
  | none => True

/-- The operation is a call of `fusionee_get_messages` or of `fusionee_poll`, which both
start by detaching `prev_packets` and flush what they detached. -/
def Op.flushes_prev : Op → Bool
  | .get_messages _ _ _ _ => true
  | .poll => true
  | _ => false

/-- What one operation does to a world, in the terms of the statements on runs: `k` is
the number of packets it took off the head of the ready fifo, `tail` what it stored
to the receive buffer beyond their bytes (something only when a store faulted).

* the bytes stored are those of the `k` packets, in order, then `tail`;
* the ready fifo holds the bytes and callbacks of its other packets, then what the
  operation sent and registered;
* `prev_packets` holds the callbacks of the `k` packets, behind those it held before
  unless the operation started by detaching it;
* the callbacks invoked are those that `prev_packets` held, if the operation started
  by detaching it, and none otherwise. -/
def step_effect (w : World) (op : Op) (k : Nat) (tail : List Nat) : Prop :=
  (step w op).2.out = all_bytes (w.fusionee.packets.take k) ++ tail ∧
  ((∀ out, (step w op).2 ≠ Event.get_messages_returned (-EFAULT) out) → tail = []) ∧
  (op.extra_ok → all_bytes (step w op).1.fusionee.packets
      = all_bytes (w.fusionee.packets.drop k) ++ sent_frame op (step w op).2) ∧
  all_callbacks (step w op).1.fusionee.packets
    = all_callbacks (w.fusionee.packets.drop k) ++ registered_callback op (step w op).2 ∧
  all_callbacks (step w op).1.fusionee.prev_packets
    = (if op.flushes_prev then [] else all_callbacks w.fusionee.prev_packets)
        ++ all_callbacks (w.fusionee.packets.take k) ∧
  (step w op).1.log
    = w.log ++ (if op.flushes_prev then all_callbacks w.fusionee.prev_packets else [])

/-- A message with a callback: type 0, id 9, four payload bytes, callback function 1
with context 2 and parameter 3. -/
def callback_message : Message :=
  { msg_type := 0, msg_id := 9, msg_channel := 0, msg_size := 4,
    msg_data := { mem := fun _ => 113, accessible := 4 }, serial := 0,
    callback := 1, callback_ctx := 2, callback_param := 3, extra_data := none, extra_size := 0 }

/-- Two sends, a receive into sixty-four bytes, a third send, a second receive, a poll. -/
def example_run : List Op :=
  [Op.send Sender.null small_message alloc_ok,
   Op.send Sender.self callback_message alloc_ok,
   Op.get_messages 5 64 64 false,
   Op.send_by_id Sender.null small_message alloc_ok,
   Op.get_messages 5 64 64 true,
   Op.poll]

/-! ## Lock-held sections of poll -/

/-- First lock-held section of `fusionee_poll` (lines 827-833): with the fusionee locked,
`prev_packets` is copied to the local fifo `prev_msgs` and reset, then the lock is
released.  The result is `dev->fusionee.list` and `prev_msgs`; `none` when
`lock_fusionee` failed. -/
def poll_detach (dev : List Fusionee) (id : Nat) : Option (List Fusionee × List Packet) :=
  match lock_fusionee dev id with
  | none => none
  | some (fusionee, rest) =>
    some ({ fusionee with prev_packets := [] } :: rest, fusionee.prev_packets)

/-- What `fusionee_poll` does after its first lock-held section (lines 835-855):
`flush_packets` on the local fifo `prev_msgs`, without the lock, for the fusionee that
the first section locked (the head of the list), then the second lock-held section
with the test of the head of the ready fifo. -/
def poll_finish (dev : List Fusionee) (id : Nat) (log : List MessageCallback)
    (prev_msgs : List Packet) : Nat × List Fusionee × List MessageCallback :=
  match dev with
  | [] => (POLLERR, dev, log)
  | fusionee :: rest =>
    let r := flush_packets fusionee log prev_msgs
    match lock_fusionee (r.1 :: rest) id with
    | none => (POLLERR, r.1 :: rest, r.2)
    | some (f2, rest2) =>
      if head_flushed f2 then (POLLIN ||| POLLRDNORM, f2 :: rest2, r.2)
      else (0, f2 :: rest2, r.2)

/-! ## Messages and the callbacks registered for them -/

/-- The message whose callback an operation registered: the message of a send with a
non-null callback that returned 0. -/
def registered_message (op : Op) (ev : Event) : List Message :=
  match op.message with
  | some m => if ev = Event.send_returned 0 ∧ m.callback ≠ 0 then [m] else []
  | none => []

/-- The messages whose callbacks were registered in a run, in send order. -/
def registered_messages : List Op → List Event → List Message
  | op :: ops, ev :: evs => registered_message op ev ++ registered_messages ops evs
  | _, _ => []

/-- The packet holds the callback entries of these messages, in this order, and a frame
for each of them, with the type and id that `Packet_Write` stored for the message. -/
def Packet.holds (p : Packet) (ms : List Message) : Prop :=
  p.callbacks = ms.map Message.entry ∧
  ∀ m ∈ ms, p.has_frame (m.msg_type % 4294967296) (m.msg_id % 4294967296)

/-- The packets hold, one after the other, the callback entries of these messages, each
in the packet that has the frame of its message. -/
def tracked : List Packet → List Message → Prop
  | [], ms => ms = []
  | p :: ps, ms => ∃ m1 m2, ms = m1 ++ m2 ∧ p.holds m1 ∧ tracked ps m2

/-- The messages `ms`, whose callbacks were registered in this order, are in the world
as follows: the callbacks of the first ones have been invoked, in order, and the
callbacks of the others are pending on packets of `prev_packets` and of the ready
fifo, each on the packet that has the frame of its message. -/
def World.tracks (w : World) (ms : List Message) : Prop :=
  ∃ invoked pending, ms = invoked ++ pending ∧ invoked.map Message.entry = w.log ∧
    tracked (w.fusionee.prev_packets ++ w.fusionee.packets) pending

/-- A send of the message with a callback, then a receive that delivers it. -/
def callback_delivered : List Op :=
  [Op.send Sender.null callback_message alloc_ok, Op.get_messages 5 64 64 false]

/-- What can be observed of a packet: used length, flush flag, callbacks and the bytes of
the used part. -/
def Packet.view (p : Packet) : Nat × Bool × List MessageCallback × List Nat :=
  (p.size, p.flush, p.callbacks, p.bytes)

/-- A small message whose payload cannot be read: every `copy_from_user` from it faults. -/
def faulting_message : Message :=
  { msg_type := 0, msg_id := 7, msg_channel := 0, msg_size := 4,
    msg_data := { mem := fun _ => 112, accessible := 0 }, serial := 0,
    callback := 0, callback_ctx := 0, callback_param := 0, extra_data := none, extra_size := 0 }

/-- A message that fills a packet and whose payload cannot be read. -/
def full_faulting_message : Message :=
  { msg_type := 0, msg_id := 7, msg_channel := 0, msg_size := 16368,
    msg_data := { mem := fun _ => 112, accessible := 0 }, serial := 0,
    callback := 0, callback_ctx := 0, callback_param := 0, extra_data := none, extra_size := 0 }

/-- The world after one coalesced call: one packet on the ready fifo, not flush-marked. -/
def one_call_world : World :=
  (run (initial_world 1 1) [Op.send Sender.self call_message alloc_ok]).1

/-- The packet allocation succeeds, the callback allocation fails. -/
def alloc_no_callback : Alloc := { packet := some (fun _ => 0), callback := false }

/-- The world after the send of the message with a callback and the receive that
delivers it: the packet is in `prev_packets`, the ready fifo is empty. -/
def callback_delivered_world : World := (run (initial_world 1 1) callback_delivered).1

/-! ## Destruction of a fusionee -/

/-- The source's `Fusionee_PutPacket` with its call of `Packet_Free` made visible: the second
component holds the packet if it was passed to `Packet_Free`, and is empty if the
packet was reset and put on the free fifo. -/
def Fusionee_PutPacket_traced (fusionee : Fusionee) (packet : Packet) :
    Fusionee × List Packet :=
  if fusionee.free_packets.length > 10 then (fusionee, [packet])
  else
    ({ fusionee with
       free_packets := fusion_fifo_put fusionee.free_packets
         { packet with size := 0, flush := false, callbacks := [] } }, [])

/-- The source's `flush_packets` with the calls of `Packet_Free` made visible: `freed` are the
packets passed to `Packet_Free` so far, in call order, as they were at the call. -/
def flush_packets_traced (fusionee : Fusionee) (log : List MessageCallback)
    (freed : List Packet) : List Packet → Fusionee × List MessageCallback × List Packet
  | [] => (fusionee, log, freed)
  | packet :: fifo =>
    let r := Packet_RunCallbacks log packet
    let q := Fusionee_PutPacket_traced fusionee r.2
    flush_packets_traced q.1 r.1 (freed ++ q.2) fifo

/-- The source's `free_packets`: every packet of the fifo is taken off it and passed to
`Packet_Free`.  The result is the fifo afterwards and the packets freed so far. -/
def free_packets : List Packet → List Packet → List Packet × List Packet
  | [], freed => ([], freed)
  | packet :: fifo, freed => free_packets fifo (freed ++ [packet])

/-- What `fusionee_destroy` leaves behind: the list of the device, the callbacks invoked,
the packets passed to `Packet_Free` (in call order, as they were at the call; the
callback entries still on such a packet are freed without being invoked), and the
free fifo of the fusionee. -/
structure Destroyed where
  dev : List Fusionee
  log : List MessageCallback
  freed : List Packet
  free_fifo : List Packet

/-- The source's `fusionee_destroy`.  `refs` is `fusionee->refs`; `none`: the assertion
`fusionee->refs > 0` failed.  The local fifos `prev_packets` and `packets` are copies
of the fields, taken with the fusionee locked; the fusionee is removed from the list of
the device; `flush_packets` runs on the two copies and `free_packets` on the free fifo.
The calls that release what the fusionee holds in other parts of the module
(skirmishes, calls, reactors, properties, references, pools; not part of the sources)
and the final `fusionee_unref` are not modelled. -/
def fusionee_destroy (dev : List Fusionee) (fusionee : Fusionee) (refs : Nat)
    (log : List MessageCallback) : Option Destroyed :=
  if refs > 0 then
    let prev_packets := fusionee.prev_packets
    let packets := fusionee.packets
    let r1 := flush_packets_traced fusionee log [] prev_packets
    let r2 := flush_packets_traced r1.1 r1.2.1 r1.2.2 packets
    let r3 := free_packets r2.1.free_packets r2.2.2
    some { dev := dev.eraseP (fun g => g.id == fusionee.id), log := r2.2.1,
           freed := r3.2, free_fifo := r3.1 }
  else none

/-- Every packet of the fifo other than the tail is flush-marked. -/
def flushed_but_tail (l : List Packet) : Prop :=
  ∀ init q, l = init ++ [q] → ∀ p ∈ init, p.flush = true

/-- The world after a send that fills a packet and a coalesced call, which opens a second
packet: two packets on the ready fifo, the tail not flush-marked. -/
def two_packet_world : World :=
  (run (initial_world 1 1)
    [Op.send Sender.self full_message alloc_ok, Op.send Sender.self call_message alloc_ok]).1

/-- A wake-up without a signal, during which another thread has sent a small message to
the fusionee just created. -/
def wake_after_send : Wake World := { signal := false, env := fun _ => one_sent_world }

/-- The fusionee with which a send passes the backpressure check, if it does: the one it
is called with when that has ten ready packets or fewer, else the one that the
wake-ups without a signal lead to.  `none`: the call returns `-EINTR` or stays
asleep. -/
def send_entry : Fusionee → List (Wake Fusionee) → Option Fusionee
  | fusionee, [] => if fusionee.packets.length > 10 then none else some fusionee
  | fusionee, k :: ks =>
    if fusionee.packets.length > 10 then
      if k.signal then none else send_entry (k.env fusionee) ks
    else some fusionee

/-- A wake-up without a signal after which the ready fifo is empty, as after a receive
that took all packets. -/
def wake_drained : Wake Fusionee := { signal := false, env := fun f => { f with packets := [] } }

/-! # Theorems -/

/-! ## Memory lemmas -/

theorem store32_outside (buf : Mem) (off v i : Nat) (h : i < off ∨ off + 4 ≤ i) :
    store32 buf off v i = buf i := by
  unfold store32
  have h1 : i ≠ off := by omega
  have h2 : i ≠ off + 1 := by omega
  have h3 : i ≠ off + 2 := by omega
  have h4 : i ≠ off + 3 := by omega
  simp [h1, h2, h3, h4]

theorem memcpy_outside (buf : Mem) (dst : Nat) (src : Mem) (n i : Nat)
    (h : i < dst ∨ dst + n ≤ i) : memcpy buf dst src n i = buf i := by
  unfold memcpy
  have : ¬ (dst ≤ i ∧ i < dst + n) := by omega
  simp [this]

theorem memcpy_inside (buf : Mem) (dst : Nat) (src : Mem) (n i : Nat)
    (h1 : dst ≤ i) (h2 : i < dst + n) : memcpy buf dst src n i = src (i - dst) := by
  unfold memcpy
  simp [h1, h2]

theorem header_stored_below (buf : Mem) (off t mid ch sz i : Nat) (h : i < off) :
    header_stored buf off t mid ch sz i = buf i := by
  unfold header_stored
  rw [store32_outside _ _ _ _ (by omega), store32_outside _ _ _ _ (by omega),
    store32_outside _ _ _ _ (by omega), store32_outside _ _ _ _ (by omega)]

theorem payload_copied_outside (buf : Mem) (dst : Nat) (d : UserPtr) (n : Nat) (fu : Bool)
    (i : Nat) (h : i < dst ∨ dst + n ≤ i) : (payload_copied buf dst d n fu).2 i = buf i := by
  unfold payload_copied copy_from_user
  split
  · exact memcpy_outside _ _ _ _ _ (by omega)
  · exact memcpy_outside _ _ _ _ _ h

theorem extra_copied_outside (buf : Mem) (dst : Nat) (e : Option UserPtr) (n : Nat)
    (i : Nat) (h : i < dst ∨ dst + n ≤ i) : (extra_copied buf dst e n).2 i = buf i := by
  unfold extra_copied copy_from_user
  split
  · split
    · exact memcpy_outside _ _ _ _ _ (by omega)
    · rfl
  · rfl

theorem zero_padded_outside (buf : Mem) (lo hi i : Nat) (h : i < lo ∨ hi ≤ i) :
    zero_padded buf lo hi i = buf i := by
  unfold zero_padded
  have : ¬ (lo ≤ i ∧ i < hi) := by omega
  simp [this]

/-- Whatever `Packet_Write` returns, it leaves flag and callbacks alone and
changes the buffer only at and above the old used length. -/
theorem Packet_Write_frame {p p1 : Packet} {t mid ch n m : Nat} {d : UserPtr}
    {e : Option UserPtr} {fu : Bool} {ret : Int}
    (h : Packet_Write p t mid ch d n e m fu = some (ret, p1)) :
    p1.flush = p.flush ∧ p1.callbacks = p.callbacks ∧
    (∀ i, i < p.size + 16 → p1.buf i = header_stored p.buf p.size t mid ch (n + m) i) ∧
    (ret = 0 ∨ ret = -EFAULT) ∧ (ret ≠ 0 → p1.size = p.size) ∧
    (ret = 0 → p1.size = p.size + (sizeof_FusionReadMessage + n + m + 3) / 4 * 4) ∧
    p.size + (sizeof_FusionReadMessage + n + m + 3) / 4 * 4 ≤ FUSION_MAX_PACKET_SIZE := by
  unfold Packet_Write at h
  simp only [sizeof_FusionReadMessage] at h ⊢
  split at h
  · rename_i hcap
    split at h
    · simp only [Option.some.injEq, Prod.mk.injEq] at h
      obtain ⟨h1, h2⟩ := h
      subst h2
      refine ⟨rfl, rfl, ?_, Or.inr h1.symm, fun _ => rfl, ?_, hcap⟩
      · intro i hi
        exact payload_copied_outside _ _ _ _ _ _ (Or.inl hi)
      · intro h0; rw [h0] at h1; simp [EFAULT] at h1
    · split at h
      · simp only [Option.some.injEq, Prod.mk.injEq] at h
        obtain ⟨h1, h2⟩ := h
        subst h2
        refine ⟨rfl, rfl, ?_, Or.inr h1.symm, fun _ => rfl, ?_, hcap⟩
        · intro i hi
          show (extra_copied _ _ _ _).2 i = _
          rw [extra_copied_outside _ _ _ _ _ (Or.inl (by omega))]
          exact payload_copied_outside _ _ _ _ _ _ (Or.inl hi)
        · intro h0; rw [h0] at h1; simp [EFAULT] at h1
      · simp only [Option.some.injEq, Prod.mk.injEq] at h
        obtain ⟨h1, h2⟩ := h
        subst h2
        refine ⟨rfl, rfl, ?_, Or.inl h1.symm, fun hne => absurd h1.symm hne, fun _ => rfl, hcap⟩
        intro i hi
        show zero_padded _ _ _ i = _
        rw [zero_padded_outside _ _ _ _ (Or.inl (by omega)),
          extra_copied_outside _ _ _ _ _ (Or.inl (by omega))]
        exact payload_copied_outside _ _ _ _ _ _ (Or.inl hi)
  · simp at h

theorem load32_store32 (buf : Mem) (off v : Nat) (hv : v < 4294967296) :
    load32 (store32 buf off v) off = v := by
  simp [load32, store32]
  omega

theorem load32_congr {buf buf2 : Mem} {off : Nat}
    (h : ∀ i, off ≤ i → i < off + 4 → buf i = buf2 i) : load32 buf off = load32 buf2 off := by
  unfold load32
  rw [h off (by omega) (by omega), h (off + 1) (by omega) (by omega),
    h (off + 2) (by omega) (by omega), h (off + 3) (by omega) (by omega)]

theorem load32_store32_other (buf : Mem) (off off2 v : Nat) (h : off + 4 ≤ off2 ∨ off2 + 4 ≤ off) :
    load32 (store32 buf off2 v) off = load32 buf off :=
  load32_congr (fun i h1 h2 => store32_outside _ _ _ _ (by omega))

theorem load32_header_stored (buf : Mem) (off t mid ch sz : Nat)
    (ht : t < 4294967296) (hmid : mid < 4294967296) (hch : ch < 4294967296)
    (hsz : sz < 4294967296) :
    load32 (header_stored buf off t mid ch sz) off = t ∧
    load32 (header_stored buf off t mid ch sz) (off + 4) = mid ∧
    load32 (header_stored buf off t mid ch sz) (off + 8) = ch ∧
    load32 (header_stored buf off t mid ch sz) (off + 12) = sz := by
  unfold header_stored
  refine ⟨?_, ?_, ?_, ?_⟩
  · rw [load32_store32_other _ _ _ _ (by omega), load32_store32_other _ _ _ _ (by omega),
      load32_store32_other _ _ _ _ (by omega), load32_store32 _ _ _ ht]
  · rw [load32_store32_other _ _ _ _ (by omega), load32_store32_other _ _ _ _ (by omega),
      load32_store32 _ _ _ hmid]
  · rw [load32_store32_other _ _ _ _ (by omega), load32_store32 _ _ _ hch]
  · rw [load32_store32 _ _ _ hsz]

/-- Fuel beyond the distance to the end of the used part does not change the result of
the search loop when the strides are positive; here for the exit case. -/
theorem Packet_Search_loop_done (buf : Mem) (size t mid fuel pos : Nat) (h : size ≤ pos) :
    Packet_Search_loop buf size t mid fuel pos = false := by
  cases fuel with
  | zero => rfl
  | succ k =>
    unfold Packet_Search_loop
    have : ¬ pos < size := by omega
    simp [this]

theorem layout_size_cons (x : FusionReadMessage) (xs : List FusionReadMessage) :
    layout_size (x :: xs) = frame_stride x + layout_size xs := by
  simp [layout_size]

theorem frame_stride_ge (x : FusionReadMessage) : 16 + x.msg_size ≤ frame_stride x := by
  unfold frame_stride sizeof_FusionReadMessage; omega

theorem search_step_pos (pos sz : Nat) (h1 : sz < 2147483648) (h2 : pos < 2147483648) :
    Int.toNat (((pos : Int) + (sizeof_FusionReadMessage : Int)
            + (toInt32 sz + 3) / 4 * 4) % 18446744073709551616)
      = pos + (sizeof_FusionReadMessage + (sz + 3) / 4 * 4) := by
  unfold toInt32 sizeof_FusionReadMessage
  simp only [h1, if_true]
  omega

theorem Packet_Search_loop_layout (buf : Mem) (size t mid : Nat)
    (hsize : size ≤ FUSION_MAX_PACKET_SIZE) (hs : List FusionReadMessage) :
    ∀ pos fuel, Layout buf pos hs → pos + layout_size hs = size → hs.length ≤ fuel →
      Packet_Search_loop buf size t mid fuel pos
        = hs.any (fun h => decide (h.msg_type = t ∧ h.msg_id = mid)) := by
  induction hs with
  | nil =>
    intro pos fuel _ hend _
    simp only [layout_size, List.map_nil, List.sum_nil, Nat.add_zero] at hend
    rw [Packet_Search_loop_done _ _ _ _ _ _ (by omega)]
    rfl
  | cons x xs ih =>
    intro pos fuel hl hend hfuel
    obtain ⟨h1, h2, _, h4, h5⟩ := hl
    rw [layout_size_cons] at hend
    have hst := frame_stride_ge x
    unfold FUSION_MAX_PACKET_SIZE at hsize
    cases fuel with
    | zero => simp at hfuel
    | succ k =>
      unfold Packet_Search_loop
      have hlt : pos < size := by omega
      simp only [hlt, if_true, h1, h2, h4, List.any_cons]
      by_cases hm : x.msg_type = t ∧ x.msg_id = mid
      · simp [hm]
      · rw [if_neg hm, search_step_pos _ _ (by omega) (by omega)]
        have hi := ih (pos + frame_stride x) k h5 (by omega) (by simpa using hfuel)
        unfold frame_stride at hi
        rw [hi]
        simp [hm]

theorem Layout_congr {buf buf2 : Mem} (hs : List FusionReadMessage) (pos : Nat)
    (h : ∀ i, pos ≤ i → i < pos + layout_size hs → buf i = buf2 i)
    (hl : Layout buf pos hs) : Layout buf2 pos hs := by
  induction hs generalizing pos with
  | nil => trivial
  | cons x xs ih =>
    obtain ⟨h1, h2, h3, h4, h5⟩ := hl
    have hsz : layout_size (x :: xs) = frame_stride x + layout_size xs := by
      simp [layout_size]
    have hst : 16 ≤ frame_stride x := by unfold frame_stride sizeof_FusionReadMessage; omega
    rw [hsz] at h
    refine ⟨?_, ?_, ?_, ?_, ?_⟩
    · rw [← h1]; exact (load32_congr (fun i a b => h i (by omega) (by omega))).symm
    · rw [← h2]; exact (load32_congr (fun i a b => h i (by omega) (by omega))).symm
    · rw [← h3]; exact (load32_congr (fun i a b => h i (by omega) (by omega))).symm
    · rw [← h4]; exact (load32_congr (fun i a b => h i (by omega) (by omega))).symm
    · exact ih _ (fun i a b => h i (by omega) (by omega)) h5

theorem Layout_append {buf : Mem} (hs : List FusionReadMessage) (pos : Nat) (x : FusionReadMessage)
    (hl : Layout buf pos hs) (hx : Layout buf (pos + layout_size hs) [x]) :
    Layout buf pos (hs ++ [x]) := by
  induction hs generalizing pos with
  | nil => simpa [layout_size] using hx
  | cons y ys ih =>
    obtain ⟨h1, h2, h3, h4, h5⟩ := hl
    refine ⟨h1, h2, h3, h4, ih _ h5 ?_⟩
    have hsz : layout_size (y :: ys) = frame_stride y + layout_size ys := by
      simp [layout_size]
    rw [hsz, ← Nat.add_assoc] at hx
    exact hx

theorem layout_size_append (hs : List FusionReadMessage) (x : FusionReadMessage) :
    layout_size (hs ++ [x]) = layout_size hs + frame_stride x := by
  simp [layout_size]

theorem Packet_write_ok (p : Packet) (a : WriteArgs)
    (hcap : p.size + frame_stride a.header ≤ FUSION_MAX_PACKET_SIZE) (hnf : a.no_fault) :
    ∃ p1, p.write a = some (0, p1) := by
  obtain ⟨hn1, hn2⟩ := hnf
  have hcap2 : p.size + (sizeof_FusionReadMessage + a.msg_size + a.extra_size + 3) / 4 * 4
      ≤ FUSION_MAX_PACKET_SIZE := by
    unfold frame_stride WriteArgs.header at hcap
    simp only [sizeof_FusionReadMessage] at hcap ⊢
    omega
  have h1 : (payload_copied
      (header_stored p.buf p.size a.type a.msg_id a.channel (a.msg_size + a.extra_size))
      (p.size + sizeof_FusionReadMessage) a.msg_data a.msg_size a.from_user).1 = 0 := by
    unfold payload_copied copy_from_user
    split
    · rename_i hfu
      have := hn1 hfu
      simp only []
      omega
    · rfl
  have h2 : ∀ buf, (extra_copied buf (p.size + sizeof_FusionReadMessage + a.msg_size)
      a.extra_data a.extra_size).1 = 0 := by
    intro buf
    unfold extra_copied copy_from_user
    split
    · rename_i e he
      have := hn2 e he
      split
      · simp only []
        omega
      · rfl
    · rfl
  unfold Packet.write Packet_Write
  simp only [if_pos hcap2, h1, h2, ne_eq, not_true_eq_false, if_false]
  exact ⟨_, rfl⟩

theorem Packet_write_layout {p p1 : Packet} {a : WriteArgs} (hs : List FusionReadMessage)
    (h : p.write a = some (0, p1)) (hw : a.words32)
    (hl : Layout p.buf 0 hs) (hsz : p.size = layout_size hs) :
    Layout p1.buf 0 (hs ++ [a.header]) ∧ p1.size = layout_size (hs ++ [a.header]) := by
  obtain ⟨_, _, hbuf, _, _, hsize, hcap⟩ := Packet_Write_frame h
  have hsize := hsize rfl
  obtain ⟨hw1, hw2, hw3⟩ := hw
  have hw4 : a.msg_size + a.extra_size < 4294967296 := by
    unfold FUSION_MAX_PACKET_SIZE sizeof_FusionReadMessage at hcap; omega
  obtain ⟨l1, l2, l3, l4⟩ :=
    load32_header_stored p.buf p.size a.type a.msg_id a.channel (a.msg_size + a.extra_size)
      hw1 hw2 hw3 hw4
  constructor
  · apply Layout_append
    · apply Layout_congr hs 0 _ hl
      intro i _ hi
      rw [hbuf i (by omega), header_stored_below _ _ _ _ _ _ _ (by omega)]
    · simp only [Nat.zero_add, ← hsz]
      refine ⟨?_, ?_, ?_, ?_, trivial⟩
      · exact (load32_congr (fun i _ _ => hbuf i (by omega))).trans l1
      · exact (load32_congr (fun i _ _ => hbuf i (by omega))).trans l2
      · exact (load32_congr (fun i _ _ => hbuf i (by omega))).trans l3
      · exact (load32_congr (fun i _ _ => hbuf i (by omega))).trans l4
  · rw [layout_size_append, hsize, hsz]
    unfold frame_stride WriteArgs.header
    simp only [sizeof_FusionReadMessage]
    omega

theorem Packet_write_all_layout (frames : List WriteArgs) :
    ∀ (p : Packet) (hs : List FusionReadMessage), Layout p.buf 0 hs → p.size = layout_size hs →
      p.size + layout_size (frames.map WriteArgs.header) ≤ FUSION_MAX_PACKET_SIZE →
      (∀ a ∈ frames, a.no_fault) → (∀ a ∈ frames, a.words32) →
      ∃ p1, p.write_all frames = some p1 ∧
        Layout p1.buf 0 (hs ++ frames.map WriteArgs.header) ∧
        p1.size = layout_size (hs ++ frames.map WriteArgs.header) := by
  induction frames with
  | nil =>
    intro p hs hl hsz _ _ _
    exact ⟨p, rfl, by simpa using hl, by simpa using hsz⟩
  | cons a as ih =>
    intro p hs hl hsz hcap hnf hw
    rw [List.map_cons, layout_size_cons] at hcap
    obtain ⟨p1, hp1⟩ := Packet_write_ok p a (by omega) (hnf a (List.mem_cons_self _ _))
    obtain ⟨hl1, hsz1⟩ := Packet_write_layout hs hp1 (hw a (List.mem_cons_self _ _)) hl hsz
    have hcap1 : p1.size + layout_size (as.map WriteArgs.header) ≤ FUSION_MAX_PACKET_SIZE := by
      rw [hsz1, layout_size_append, ← hsz]; omega
    obtain ⟨p2, hp2, hl2, hsz2⟩ := ih p1 (hs ++ [a.header]) hl1 hsz1 hcap1
      (fun b hb => hnf b (List.mem_cons_of_mem _ hb)) (fun b hb => hw b (List.mem_cons_of_mem _ hb))
    refine ⟨p2, ?_, ?_, ?_⟩
    · simp only [Packet.write_all, hp1, if_true]
      exact hp2
    · simpa using hl2
    · simpa using hsz2

theorem length_le_layout_size (hs : List FusionReadMessage) : hs.length ≤ layout_size hs := by
  induction hs with
  | nil => simp
  | cons x xs ih =>
    rw [layout_size_cons, List.length_cons]
    have := frame_stride_ge x
    omega

theorem Packet_Search_of_layout (p : Packet) (hs : List FusionReadMessage)
    (hl : Layout p.buf 0 hs) (hsz : p.size = layout_size hs)
    (hcap : p.size ≤ FUSION_MAX_PACKET_SIZE) (t mid : Nat) :
    Packet_Search p t mid = hs.any (fun h => decide (h.msg_type = t ∧ h.msg_id = mid)) := by
  unfold Packet_Search
  exact Packet_Search_loop_layout p.buf p.size t mid hcap hs 0 p.size hl (by omega)
    (by rw [hsz]; exact length_le_layout_size hs)

/-- C1: frames appended by `Packet_Write` to an empty packet, of cumulative padded size at
most 16384, are all written, lie one after the other from offset 0 at the stride
16 + roundup4(msg_size), and `Packet_Search` returns true for (type, id) exactly when
one of the appended frames has that type and id. -/
theorem Packet_Search_iff_written (packet : Packet) (hempty : packet.size = 0)
    (frames : List WriteArgs)
    (hcap : layout_size (frames.map WriteArgs.header) ≤ FUSION_MAX_PACKET_SIZE)
    (hnf : ∀ a ∈ frames, a.no_fault) (hw : ∀ a ∈ frames, a.words32) :
    ∃ p, packet.write_all frames = some p ∧
      p.size = layout_size (frames.map WriteArgs.header) ∧
      Layout p.buf 0 (frames.map WriteArgs.header) ∧
      ∀ msg_type msg_id, Packet_Search p msg_type msg_id = true ↔
        ∃ a ∈ frames, a.type = msg_type ∧ a.msg_id = msg_id := by
  obtain ⟨p, hp, hl, hsz⟩ := Packet_write_all_layout frames packet [] trivial
    (by simp [hempty, layout_size]) (by rw [hempty]; simpa using hcap) hnf hw
  simp only [List.nil_append] at hl hsz
  refine ⟨p, hp, hsz, hl, ?_⟩
  intro t mid
  rw [Packet_Search_of_layout p _ hl hsz (by rw [hsz]; exact hcap)]
  simp [WriteArgs.header]

theorem Packet_Search_iff_written_witness :
    example_packet.size = 0 ∧
    layout_size (example_frames.map WriteArgs.header) ≤ FUSION_MAX_PACKET_SIZE ∧
    (∀ a ∈ example_frames, a.no_fault) ∧ (∀ a ∈ example_frames, a.words32) ∧
    ∃ p, example_packet.write_all example_frames = some p ∧
      p.size = layout_size (example_frames.map WriteArgs.header) ∧
      Layout p.buf 0 (example_frames.map WriteArgs.header) ∧
      ∀ msg_type msg_id, Packet_Search p msg_type msg_id = true ↔
        ∃ a ∈ example_frames, a.type = msg_type ∧ a.msg_id = msg_id :=
  ⟨rfl, by decide, by simp [example_frames, WriteArgs.no_fault],
    by simp [example_frames, WriteArgs.words32],
    Packet_Search_iff_written example_packet rfl example_frames (by decide)
      (by simp [example_frames, WriteArgs.no_fault])
      (by simp [example_frames, WriteArgs.words32])⟩

/-- The first example frame carries payload bytes that spell the header (type 1, id 9);
the search does not take them for a frame, and finds the two frames written. -/
theorem example_payload_is_not_a_frame :
    (example_packet.write_all example_frames).map
      (fun p => (Packet_Search p 1 9, Packet_Search p 2 7, Packet_Search p 1 8))
      = some (false, true, true) := by
  decide

theorem set_last_snoc (init : List Packet) (q x : Packet) :
    set_last (init ++ [q]) x = init ++ [x] := by
  simp [set_last]

theorem flush_last_nil : flush_last [] = [] := rfl

theorem flush_last_snoc (init : List Packet) (q : Packet) :
    flush_last (init ++ [q]) = init ++ [{ q with flush := true }] := by
  simp [flush_last, set_last]

/-- What `acquire_packet` hands out: the head of the free fifo, or a fresh empty packet
when the free fifo is empty. -/
theorem acquire_packet_some {free : List Packet} {alloc : Option Mem} {p : Packet}
    (h : (acquire_packet free alloc).1 = some p) :
    (free = p :: (acquire_packet free alloc).2) ∨
    (free = [] ∧ (acquire_packet free alloc).2 = [] ∧
      p.size = 0 ∧ p.flush = false ∧ p.callbacks = []) := by
  unfold acquire_packet at h ⊢
  cases free with
  | nil =>
    right
    simp only [List.length_nil, ne_eq, not_true_eq_false, if_false] at h ⊢
    cases alloc with
    | none => simp [Packet_New] at h
    | some g =>
      simp only [Packet_New, Option.some.injEq] at h
      subst h
      simp
  | cons x xs =>
    left
    simp [fusion_fifo_get] at h ⊢
    exact h

theorem acquire_packet_none {free : List Packet} {alloc : Option Mem}
    (h : (acquire_packet free alloc).1 = none) :
    free = [] ∧ alloc = none ∧ (acquire_packet free alloc).2 = [] := by
  unfold acquire_packet at h ⊢
  cases free with
  | nil =>
    cases alloc with
    | none => simp
    | some g => simp [Packet_New] at h
  | cons x xs => simp [fusion_fifo_get] at h

/-- The two ways `Fusionee_GetPacket` ends without a failed assertion: the tail packet has
room and is returned, or the tail (if any) is flush-marked and a packet is acquired
and put at the tail. -/
theorem Fusionee_GetPacket_spec {f f1 : Fusionee} {size : Nat} {alloc : Option Mem}
    {r : Option Packet} (h : Fusionee_GetPacket f size alloc = some (f1, r)) :
    size ≤ FUSION_MAX_PACKET_SIZE ∧
    ((∃ init q, f.packets = init ++ [q] ∧ q.size + size ≤ FUSION_MAX_PACKET_SIZE ∧
        f1 = f ∧ r = some q) ∨
     ((f.packets = [] ∨ ∃ init q, f.packets = init ++ [q] ∧
          q.size + size > FUSION_MAX_PACKET_SIZE) ∧
        r = (acquire_packet f.free_packets alloc).1 ∧
        f1 = { f with packets := flush_last f.packets ++ r.toList,
                      free_packets := (acquire_packet f.free_packets alloc).2 })) := by
  unfold Fusionee_GetPacket at h
  split at h
  · rename_i hsz
    refine ⟨hsz, ?_⟩
    rcases List.eq_nil_or_concat f.packets with hnil | ⟨init, q, hq⟩
    · right
      simp only [hnil, List.getLast?_nil, if_true] at h
      split at h
      · rename_i hnone
        simp only [Option.some.injEq, Prod.mk.injEq] at h
        obtain ⟨h1, h2⟩ := h
        refine ⟨Or.inl hnil, by rw [hnone, h2], ?_⟩
        rw [← h1, ← h2, hnil]; simp [flush_last]
      · rename_i p hp
        simp only [Option.some.injEq, Prod.mk.injEq] at h
        obtain ⟨h1, h2⟩ := h
        refine ⟨Or.inl hnil, by rw [hp, h2], ?_⟩
        rw [← h1, ← h2, hnil]; simp [flush_last, fusion_fifo_put]
    · rw [List.concat_eq_append] at hq
      have hlast : (init ++ [q]).getLast? = some q := by simp
      simp only [hq, hlast] at h
      by_cases hroom : q.size + size > FUSION_MAX_PACKET_SIZE
      · right
        simp only [hroom, decide_True, if_true] at h
        split at h
        · rename_i hnone
          simp only [Option.some.injEq, Prod.mk.injEq] at h
          obtain ⟨h1, h2⟩ := h
          refine ⟨Or.inr ⟨init, q, hq, hroom⟩, by rw [hnone, h2], ?_⟩
          rw [← h1, ← h2, hq]; simp
        · rename_i p hp
          simp only [Option.some.injEq, Prod.mk.injEq] at h
          obtain ⟨h1, h2⟩ := h
          refine ⟨Or.inr ⟨init, q, hq, hroom⟩, by rw [hp, h2], ?_⟩
          rw [← h1, ← h2, hq]; simp [fusion_fifo_put]
      · left
        simp only [hroom, decide_False, Bool.false_eq_true, if_false, Option.some.injEq,
          Prod.mk.injEq] at h
        exact ⟨init, q, hq, by omega, h.1.symm, h.2.symm⟩
  · simp at h

theorem Fusionee_GetPacket_tail {f f1 : Fusionee} {size : Nat} {alloc : Option Mem}
    {packet : Packet} (h : Fusionee_GetPacket f size alloc = some (f1, some packet)) :
    f1.packets = f1.packets.dropLast ++ [packet] := by
  obtain ⟨_, h1 | h2⟩ := Fusionee_GetPacket_spec h
  · obtain ⟨init, q, hq, _, hf, hr⟩ := h1
    simp only [Option.some.injEq] at hr
    subst hf
    rw [hq, hr]; simp
  · obtain ⟨_, _, hf⟩ := h2
    rw [hf]; simp

/-- The ways `send_locked` returns, step by step. -/
theorem send_locked_returned {sender : Sender} {f : Fusionee} {m : Message} {a : Alloc}
    {ret : Int} {f' : Fusionee} {s' : Sender}
    (h : send_locked sender f m a = .returned ret f' s') :
    ∃ f1 r, Fusionee_GetPacket f (sizeof_FusionReadMessage + m.msg_size + m.extra_size)
        a.packet = some (f1, r) ∧
      ((r = none ∧ ret = -ENOMEM ∧ f' = f1 ∧ s' = sender) ∨
       ∃ packet ret1 p1, r = some packet ∧
         Packet_Write packet m.msg_type m.msg_id m.msg_channel m.msg_data m.msg_size
           m.extra_data m.extra_size (m.msg_type != FMT_CALL && m.msg_type != FMT_SHMPOOL)
           = some (ret1, p1) ∧
         ((ret1 ≠ 0 ∧ ret = ret1 ∧ s' = sender ∧
            f' = { f1 with packets := f1.packets.dropLast ++ [p1] }) ∨
          (ret1 = 0 ∧ m.callback ≠ 0 ∧ a.callback = false ∧ ret = -ENOMEM ∧ s' = sender ∧
            f' = { f1 with packets := f1.packets.dropLast ++ [{ p1 with size := packet.size }] }) ∨
          (ret1 = 0 ∧ (m.callback = 0 ∨ a.callback = true) ∧ ret = 0 ∧ s' = sender.counted ∧
            f' = { f1 with
                   packets := f1.packets.dropLast ++ [sent_packet sender m p1],
                   rcv_total := f1.rcv_total + 1,
                   snd_total := f1.snd_total + (if sender.is_self then 1 else 0) }))) := by
  unfold send_locked at h
  cases hg : Fusionee_GetPacket f (sizeof_FusionReadMessage + m.msg_size + m.extra_size)
      a.packet with
  | none => rw [hg] at h; simp at h
  | some x =>
    obtain ⟨f1, r⟩ := x
    refine ⟨f1, r, rfl, ?_⟩
    cases r with
    | none =>
      rw [hg] at h
      simp only [SendResult.returned.injEq] at h
      exact Or.inl ⟨rfl, h.1.symm, h.2.1.symm, h.2.2.symm⟩
    | some packet =>
      right
      rw [hg] at h
      simp only [] at h
      cases hw : Packet_Write packet m.msg_type m.msg_id m.msg_channel m.msg_data m.msg_size
           m.extra_data m.extra_size (m.msg_type != FMT_CALL && m.msg_type != FMT_SHMPOOL) with
      | none => rw [hw] at h; simp at h
      | some y =>
        obtain ⟨ret1, p1⟩ := y
        refine ⟨packet, ret1, p1, rfl, hw, ?_⟩
        rw [hw] at h
        simp only [] at h
        by_cases hret : ret1 ≠ 0
        · rw [if_pos hret] at h
          simp only [SendResult.returned.injEq] at h
          exact Or.inl ⟨hret, h.1.symm, h.2.2.symm, by rw [← h.2.1]; rfl⟩
        · rw [if_neg hret] at h
          have hret0 : ret1 = 0 := by simpa using hret
          right
          by_cases hcb : m.callback ≠ 0
          · by_cases hal : a.callback = true
            · right
              simp only [hcb, if_true, Packet_AddCallback, hal, ne_eq, not_true_eq_false,
                if_false, not_false_eq_true, SendResult.returned.injEq] at h
              refine ⟨hret0, Or.inr hal, h.1.symm, h.2.2.symm, ?_⟩
              rw [← h.2.1]
              simp only [set_last, sent_packet, hcb, if_true, ne_eq, not_false_eq_true]
              cases hfl : send_flushes sender m <;> simp [Message.entry]
            · left
              have hal' : a.callback = false := by simpa using hal
              simp only [hcb, if_true, Packet_AddCallback, hal', ne_eq, not_false_eq_true,
                Bool.false_eq_true, if_false, SendResult.returned.injEq] at h
              have hne : ¬ (ENOMEM = 0) := by simp [ENOMEM]
              simp only [neg_eq_zero, hne, not_false_eq_true, if_true] at h
              simp only [SendResult.returned.injEq] at h
              exact ⟨hret0, hcb, hal', h.1.symm, h.2.2.symm, by rw [← h.2.1]; rfl⟩
          · right
            have hcb0 : m.callback = 0 := by simpa using hcb
            simp only [hcb, if_false, ne_eq, not_true_eq_false,
              SendResult.returned.injEq] at h
            refine ⟨hret0, Or.inl hcb0, h.1.symm, h.2.2.symm, ?_⟩
            rw [← h.2.1]
            simp only [set_last, sent_packet, hcb, if_false, ne_eq]
            cases hfl : send_flushes sender m <;> simp

theorem ite_not_sleeping (c : Prop) [Decidable c] (x y : SendResult)
    (hx : ∀ f s, x ≠ .sleeping f s) (hy : ∀ f s, y ≠ .sleeping f s) :
    ∀ f s, (if c then x else y) ≠ .sleeping f s := by
  intro f s
  split
  · exact hx f s
  · exact hy f s

theorem send_locked_not_sleeping (sender : Sender) (f : Fusionee) (m : Message) (a : Alloc) :
    ∀ f' s', send_locked sender f m a ≠ .sleeping f' s' := by
  unfold send_locked
  cases Fusionee_GetPacket f (sizeof_FusionReadMessage + m.msg_size + m.extra_size)
      a.packet with
  | none => intro f' s'; simp
  | some x =>
    obtain ⟨f1, r⟩ := x
    cases r with
    | none => intro f' s'; simp
    | some packet =>
      simp only []
      cases Packet_Write packet m.msg_type m.msg_id m.msg_channel m.msg_data m.msg_size
           m.extra_data m.extra_size (m.msg_type != FMT_CALL && m.msg_type != FMT_SHMPOOL) with
      | none => intro f' s'; simp
      | some y =>
        obtain ⟨ret1, p1⟩ := y
        simp only []
        apply ite_not_sleeping
        · intro f' s'; simp
        · apply ite_not_sleeping
          · intro f' s'; simp
          · intro f' s'; simp

/-- Both send functions run the same code from the label `again:` on. -/
theorem fusionee_send_message_again_eq (sender : Sender) (m : Message) (a : Alloc)
    (wakes : List (Wake Fusionee)) : ∀ f,
    fusionee_send_message_again sender m a f wakes = fusionee_send_message2 sender m a f wakes := by
  induction wakes with
  | nil => intro f; rfl
  | cons k ks ih =>
    intro f
    unfold fusionee_send_message_again fusionee_send_message2
    rw [ih]

/-- A send that returns 0 ran the locked part in the state in which it passed the
backpressure check, with at most ten packets in the ready fifo. -/
theorem fusionee_send_message2_success {sender : Sender} {m : Message} {a : Alloc}
    (wakes : List (Wake Fusionee)) : ∀ {f f' : Fusionee} {s' : Sender},
    fusionee_send_message2 sender m a f wakes = .returned 0 f' s' →
    ∃ f0, f0.packets.length ≤ 10 ∧ send_locked sender f0 m a = .returned 0 f' s' := by
  induction wakes with
  | nil =>
    intro f f' s' h
    unfold fusionee_send_message2 at h
    split at h
    · simp at h
    · exact ⟨f, by omega, h⟩
  | cons k ks ih =>
    intro f f' s' h
    unfold fusionee_send_message2 at h
    split at h
    · split at h
      · simp [EINTR] at h
      · exact ih h
    · exact ⟨f, by omega, h⟩

/-- C5: for both send functions, a send to a fusionee whose ready fifo holds more than ten
packets goes to sleep on `wait_process` with nothing changed and nothing returned; a
wake-up with a signal pending makes it return `-EINTR` having changed nothing itself
(the state is what the other threads left), a wake-up without one makes it run the
check again; with ten or fewer packets the call does not sleep. -/
theorem send_sleeps_iff_more_than_ten (sender : Sender) (m : Message) (a : Alloc)
    (fusionee : Fusionee) (dev : List Fusionee) (recipient : Nat)
    (hreg : lookup_fusionee dev recipient = some fusionee) :
    (fusionee.packets.length > 10 →
      fusionee_send_message2 sender m a fusionee [] = .sleeping fusionee sender ∧
      fusionee_send_message dev sender recipient m a [] = some (.sleeping fusionee sender) ∧
      ∀ (k : Wake Fusionee) (ks : List (Wake Fusionee)),
        fusionee_send_message2 sender m a fusionee (k :: ks) =
          (if k.signal then .returned (-EINTR) (k.env fusionee) sender
           else fusionee_send_message2 sender m a (k.env fusionee) ks) ∧
        fusionee_send_message dev sender recipient m a (k :: ks) =
          some (if k.signal then .returned (-EINTR) (k.env fusionee) sender
                else fusionee_send_message_again sender m a (k.env fusionee) ks)) ∧
    (fusionee.packets.length ≤ 10 → ∀ (ks : List (Wake Fusionee)),
      fusionee_send_message2 sender m a fusionee ks = send_locked sender fusionee m a ∧
      fusionee_send_message dev sender recipient m a ks
        = some (send_locked sender fusionee m a) ∧
      ∀ f' s', send_locked sender fusionee m a ≠ .sleeping f' s') := by
  constructor
  · intro hgt
    refine ⟨?_, ?_, ?_⟩
    · unfold fusionee_send_message2; simp [hgt]
    · unfold fusionee_send_message; rw [hreg]
      unfold fusionee_send_message_again; simp [hgt]
    · intro k ks
      constructor
      · rw [fusionee_send_message2]; simp only [hgt, if_true]
      · simp only [fusionee_send_message, hreg, fusionee_send_message_again, hgt, if_true]
  · intro hle ks
    have hn : ¬ fusionee.packets.length > 10 := by omega
    refine ⟨?_, ?_, send_locked_not_sleeping sender fusionee m a⟩
    · cases ks with
      | nil => unfold fusionee_send_message2; simp [hn]
      | cons k ks => rw [fusionee_send_message2]; simp only [hn, if_false]
    · unfold fusionee_send_message; rw [hreg]
      cases ks with
      | nil => unfold fusionee_send_message_again; simp [hn]
      | cons k ks => simp only [fusionee_send_message_again, hn, if_false]

theorem Fusionee_PutPacket_fields (f : Fusionee) (p : Packet) :
    (Fusionee_PutPacket f p).packets = f.packets ∧
    (Fusionee_PutPacket f p).prev_packets = f.prev_packets ∧
    (Fusionee_PutPacket f p).rcv_total = f.rcv_total ∧
    (Fusionee_PutPacket f p).snd_total = f.snd_total ∧
    (Fusionee_PutPacket f p).id = f.id ∧
    (Fusionee_PutPacket f p).pid = f.pid ∧
    (Fusionee_PutPacket f p).dispatcher_pid = f.dispatcher_pid := by
  unfold Fusionee_PutPacket
  split <;> simp

theorem Fusionee_PutPacket_free (f : Fusionee) (p : Packet) :
    ∀ q ∈ (Fusionee_PutPacket f p).free_packets, q ∈ f.free_packets ∨ q.is_reset := by
  unfold Fusionee_PutPacket
  split
  · intro q hq; exact Or.inl hq
  · intro q hq
    simp only [fusion_fifo_put, List.mem_append, List.mem_singleton] at hq
    rcases hq with hq | hq
    · exact Or.inl hq
    · right; subst hq; exact ⟨rfl, rfl, rfl⟩

theorem flush_packets_fields (fifo : List Packet) : ∀ (f : Fusionee) (log : List MessageCallback),
    (flush_packets f log fifo).1.packets = f.packets ∧
    (flush_packets f log fifo).1.prev_packets = f.prev_packets ∧
    (flush_packets f log fifo).1.rcv_total = f.rcv_total ∧
    (flush_packets f log fifo).1.snd_total = f.snd_total ∧
    (flush_packets f log fifo).1.id = f.id ∧
    (flush_packets f log fifo).1.pid = f.pid ∧
    (flush_packets f log fifo).1.dispatcher_pid = f.dispatcher_pid ∧
    (flush_packets f log fifo).2 = log ++ callbacks_to_run fifo ∧
    ∀ q ∈ (flush_packets f log fifo).1.free_packets, q ∈ f.free_packets ∨ q.is_reset := by
  induction fifo with
  | nil =>
    intro f log
    refine ⟨rfl, rfl, rfl, rfl, rfl, rfl, rfl, ?_, fun q hq => Or.inl hq⟩
    simp [flush_packets, callbacks_to_run]
  | cons p ps ih =>
    intro f log
    unfold flush_packets
    simp only []
    obtain ⟨h1, h2, h3, h4, h5, h6, h7, h8, h9⟩ :=
      ih (Fusionee_PutPacket f (Packet_RunCallbacks log p).2) (Packet_RunCallbacks log p).1
    obtain ⟨g1, g2, g3, g4, g5, g6, g7⟩ :=
      Fusionee_PutPacket_fields f (Packet_RunCallbacks log p).2
    refine ⟨h1.trans g1, h2.trans g2, h3.trans g3, h4.trans g4, h5.trans g5, h6.trans g6,
      h7.trans g7, ?_, ?_⟩
    · rw [h8]; simp [Packet_RunCallbacks, callbacks_to_run]
    · intro q hq
      rcases h9 q hq with h | h
      · exact Fusionee_PutPacket_free f _ q h
      · exact Or.inr h

theorem get_messages_copy_stop (accessible : Nat) (p : Packet) (ps : List Packet)
    (f : Fusionee) (written buf_size : Int) (out : List Nat)
    (h : ¬ copy_goes_on accessible p buf_size out) :
    (get_messages_copy accessible (p :: ps) f written buf_size out).2.1
      = { f with packets := p :: ps } := by
  unfold copy_goes_on at h
  unfold get_messages_copy
  by_cases hfl : p.flush = true
  · simp only [hfl, if_true]
    by_cases hbig : (p.size : Int) > buf_size
    · simp only [hbig, if_true]
      split <;> rfl
    · simp only [hbig, if_false]
      have hfault : out.length + p.size > accessible := by
        by_contra hc
        exact h ⟨hfl, by omega, by omega⟩
      simp only [hfault, if_true]
  · simp only [hfl, Bool.false_eq_true, if_false]

theorem get_messages_copy_step (accessible : Nat) (p : Packet) (ps : List Packet)
    (f : Fusionee) (written buf_size : Int) (out : List Nat)
    (h : copy_goes_on accessible p buf_size out) :
    get_messages_copy accessible (p :: ps) f written buf_size out
      = get_messages_copy accessible ps (after_copy f p) (written + p.size)
          (buf_size - p.size) (out ++ p.bytes) := by
  obtain ⟨h1, h2, h3⟩ := h
  rw [get_messages_copy]
  have hbig : ¬ (p.size : Int) > buf_size := by omega
  have hfault : ¬ out.length + p.size > accessible := by omega
  simp only [h1, if_true, hbig, if_false, hfault, after_copy]

theorem after_copy_fields (f : Fusionee) (p : Packet) :
    (after_copy f p).packets = f.packets ∧
    (after_copy f p).prev_packets
      = f.prev_packets ++ [p].filter (fun p => p.callbacks.length ≠ 0) ∧
    (after_copy f p).rcv_total = f.rcv_total ∧
    (after_copy f p).snd_total = f.snd_total ∧
    (after_copy f p).id = f.id ∧
    (after_copy f p).pid = f.pid ∧
    (after_copy f p).dispatcher_pid = f.dispatcher_pid ∧
    ∀ q ∈ (after_copy f p).free_packets, q ∈ f.free_packets ∨ q.is_reset := by
  unfold after_copy
  by_cases hcb : p.callbacks.length ≠ 0
  · rw [if_pos hcb]
    have hcb1 : ¬ p.callbacks = [] := by simpa using hcb
    refine ⟨rfl, ?_, rfl, rfl, rfl, rfl, rfl, fun q hq => Or.inl hq⟩
    simp [fusion_fifo_put, List.filter_cons, hcb1]
  · rw [if_neg hcb]
    have hcb0 : p.callbacks = [] := by simpa using hcb
    obtain ⟨g1, g2, g3, g4, g5, g6, g7⟩ := Fusionee_PutPacket_fields f p
    refine ⟨g1, ?_, g3, g4, g5, g6, g7, Fusionee_PutPacket_free f p⟩
    rw [g2]; simp [List.filter_cons, hcb0]

/-- What the copy loop does to the fusionee: it takes some packets off the head of
the ready fifo, all flush-marked; those with callbacks go to `prev_packets` in order,
the others are released. -/
theorem get_messages_copy_fields (accessible : Nat) (packets : List Packet) :
    ∀ (f : Fusionee) (written buf_size : Int) (out : List Nat),
    ∃ k, k ≤ packets.length ∧
      (get_messages_copy accessible packets f written buf_size out).2.1.packets
        = packets.drop k ∧
      (∀ p ∈ packets.take k, p.flush = true) ∧
      (get_messages_copy accessible packets f written buf_size out).2.1.prev_packets
        = f.prev_packets ++ (packets.take k).filter (fun p => p.callbacks.length ≠ 0) ∧
      (get_messages_copy accessible packets f written buf_size out).2.1.rcv_total = f.rcv_total ∧
      (get_messages_copy accessible packets f written buf_size out).2.1.snd_total = f.snd_total ∧
      (get_messages_copy accessible packets f written buf_size out).2.1.id = f.id ∧
      (get_messages_copy accessible packets f written buf_size out).2.1.pid = f.pid ∧
      (get_messages_copy accessible packets f written buf_size out).2.1.dispatcher_pid
        = f.dispatcher_pid ∧
      ∀ q ∈ (get_messages_copy accessible packets f written buf_size out).2.1.free_packets,
        q ∈ f.free_packets ∨ q.is_reset := by
  induction packets with
  | nil =>
    intro f written buf_size out
    refine ⟨0, Nat.le_refl _, rfl, by simp, ?_, rfl, rfl, rfl, rfl, rfl, fun q hq => Or.inl hq⟩
    simp [get_messages_copy]
  | cons p ps ih =>
    intro f written buf_size out
    by_cases hgo : copy_goes_on accessible p buf_size out
    · rw [get_messages_copy_step _ _ _ _ _ _ _ hgo]
      obtain ⟨k, hk, h1, h2, h3, h4, h5, h6, h7, h8, h9⟩ :=
        ih (after_copy f p) (written + p.size) (buf_size - p.size) (out ++ p.bytes)
      obtain ⟨_, g2, g3, g4, g5, g6, g7, g8⟩ := after_copy_fields f p
      refine ⟨k + 1, by simpa using hk, h1, ?_, ?_, h4.trans g3, h5.trans g4, h6.trans g5,
        h7.trans g6, h8.trans g7, ?_⟩
      · intro q hq
        simp only [List.take_succ_cons, List.mem_cons] at hq
        rcases hq with hq | hq
        · rw [hq]; exact hgo.1
        · exact h2 q hq
      · rw [h3, g2, List.take_succ_cons, List.append_assoc, ← List.filter_append]
        rfl
      · intro q hq
        rcases h9 q hq with h | h
        · exact g8 q h
        · exact Or.inr h
    · rw [get_messages_copy_stop _ _ _ _ _ _ _ hgo]
      refine ⟨0, Nat.zero_le _, rfl, by simp, by simp, rfl, rfl, rfl, rfl, rfl,
        fun q hq => Or.inl hq⟩

theorem total_size_cons (p : Packet) (ps : List Packet) :
    total_size (p :: ps) = p.size + total_size ps := by
  simp [total_size]

theorem all_bytes_cons (p : Packet) (ps : List Packet) :
    all_bytes (p :: ps) = p.bytes ++ all_bytes ps := by
  simp [all_bytes]

theorem Packet_bytes_length (p : Packet) : p.bytes.length = p.size := by
  simp [Packet.bytes]

/-- The number `drain_count` is that of the longest run of packets from the head that
are flush-marked and fit together. -/
theorem drain_count_spec (ps : List Packet) : ∀ (c : Int),
    drain_count ps c ≤ ps.length ∧
    (∀ p ∈ ps.take (drain_count ps c), p.flush = true) ∧
    (0 ≤ c → (total_size (ps.take (drain_count ps c)) : Int) ≤ c) ∧
    (∀ j, drain_count ps c < j → j ≤ ps.length →
      ¬ ((∀ p ∈ ps.take j, p.flush = true) ∧ (total_size (ps.take j) : Int) ≤ c)) := by
  induction ps with
  | nil =>
    intro c
    refine ⟨by simp [drain_count], by simp [drain_count], by simp [drain_count, total_size], ?_⟩
    intro j hj hjl
    simp [drain_count] at hj hjl
    omega
  | cons p ps ih =>
    intro c
    unfold drain_count
    by_cases h : p.flush = true ∧ (p.size : Int) ≤ c
    · rw [if_pos h]
      obtain ⟨h1, h2, h3, h4⟩ := ih (c - p.size)
      have e : 1 + drain_count ps (c - ↑p.size) = drain_count ps (c - ↑p.size) + 1 := by omega
      rw [e]
      refine ⟨by simpa using h1, ?_, ?_, ?_⟩
      · intro q hq
        simp only [List.take_succ_cons, List.mem_cons] at hq
        rcases hq with hq | hq
        · rw [hq]; exact h.1
        · exact h2 q hq
      · intro _
        rw [List.take_succ_cons, total_size_cons]
        have := h3 (by omega)
        push_cast
        omega
      · intro j hj hjl
        cases j with
        | zero => omega
        | succ i =>
          rw [List.take_succ_cons, total_size_cons]
          intro hcon
          apply h4 i (by omega) (by simpa using hjl)
          refine ⟨fun q hq => hcon.1 q (List.mem_cons_of_mem _ hq), ?_⟩
          have := hcon.2
          push_cast at this
          omega
    · rw [if_neg h]
      refine ⟨Nat.zero_le _, by simp, by simp [total_size], ?_⟩
      intro j hj hjl
      cases j with
      | zero => omega
      | succ i =>
        rw [List.take_succ_cons, total_size_cons]
        intro hcon
        apply h
        refine ⟨hcon.1 p (List.mem_cons_self _ _), ?_⟩
        have := hcon.2
        push_cast at this
        omega

/-- Result of the copy loop when the destination is accessible over its whole length
and flush-marked packets are not empty: once something has been written, or when the
head fits, the loop copies exactly the packets counted by `drain_count`. -/
theorem get_messages_copy_result (accessible : Nat) (packets : List Packet) :
    ∀ (f : Fusionee) (written buf_size : Int) (out : List Nat),
    (∀ p ∈ packets, p.flush = true → 0 < p.size) →
    (out.length : Int) + buf_size ≤ accessible → 0 ≤ written →
    (written ≠ 0 ∨ ∀ p rest, packets = p :: rest → p.flush = true → (p.size : Int) ≤ buf_size) →
    (get_messages_copy accessible packets f written buf_size out).1
      = written + total_size (packets.take (drain_count packets buf_size)) ∧
    (get_messages_copy accessible packets f written buf_size out).2.2
      = out ++ all_bytes (packets.take (drain_count packets buf_size)) ∧
    (get_messages_copy accessible packets f written buf_size out).2.1.packets
      = packets.drop (drain_count packets buf_size) := by
  induction packets with
  | nil =>
    intro f written buf_size out _ _ _ _
    simp [get_messages_copy, drain_count, total_size, all_bytes]
  | cons p ps ih =>
    intro f written buf_size out hpos hacc hw hnz
    by_cases h : p.flush = true ∧ (p.size : Int) ≤ buf_size
    · have hgo : copy_goes_on accessible p buf_size out := ⟨h.1, h.2, by omega⟩
      rw [get_messages_copy_step _ _ _ _ _ _ _ hgo]
      have hp := hpos p (List.mem_cons_self _ _) h.1
      obtain ⟨h1, h2, h3⟩ := ih (after_copy f p) (written + p.size) (buf_size - p.size)
        (out ++ p.bytes) (fun q hq => hpos q (List.mem_cons_of_mem _ hq))
        (by rw [List.length_append, Packet_bytes_length]; push_cast; omega) (by omega)
        (Or.inl (by omega))
      have e : drain_count (p :: ps) buf_size = drain_count ps (buf_size - p.size) + 1 := by
        rw [drain_count, if_pos h]; omega
      rw [e, List.take_succ_cons, List.drop_succ_cons, total_size_cons, all_bytes_cons]
      refine ⟨?_, ?_, h3⟩
      · rw [h1]; push_cast; omega
      · rw [h2]; simp
    · have e : drain_count (p :: ps) buf_size = 0 := by
        rw [drain_count, if_neg h]
      rw [e]
      simp only [List.take_zero, List.drop_zero, total_size, all_bytes, List.map_nil,
        List.sum_nil, List.flatten_nil, List.append_nil, Nat.cast_zero, add_zero]
      unfold get_messages_copy
      by_cases hfl : p.flush = true
      · have hbig : (p.size : Int) > buf_size := by
          by_contra hc; exact h ⟨hfl, by omega⟩
        have hwn : written ≠ 0 := by
          rcases hnz with hnz | hnz
          · exact hnz
          · have := hnz p ps rfl hfl; omega
        simp only [hfl, if_true, hbig, hwn, if_false, and_self]
      · simp only [hfl, Bool.false_eq_true, if_false, and_self]

/-- The copy loop on a flush-marked head that is larger than the destination. -/
theorem get_messages_copy_too_large (accessible : Nat) (p : Packet) (ps : List Packet)
    (f : Fusionee) (buf_size : Int) (out : List Nat)
    (hfl : p.flush = true) (hbig : (p.size : Int) > buf_size) :
    get_messages_copy accessible (p :: ps) f 0 buf_size out
      = (-EMSGSIZE, { f with packets := p :: ps }, out) := by
  unfold get_messages_copy
  simp only [hfl, if_true, hbig]

theorem load32_store32_mod (buf : Mem) (off v : Nat) :
    load32 (store32 buf off v) off = v % 4294967296 := by
  simp [load32, store32]
  omega

theorem load32_header_stored_mod (buf : Mem) (off t mid ch sz : Nat) :
    load32 (header_stored buf off t mid ch sz) off = t % 4294967296 ∧
    load32 (header_stored buf off t mid ch sz) (off + 4) = mid % 4294967296 ∧
    load32 (header_stored buf off t mid ch sz) (off + 8) = ch % 4294967296 ∧
    load32 (header_stored buf off t mid ch sz) (off + 12) = sz % 4294967296 := by
  unfold header_stored
  refine ⟨?_, ?_, ?_, ?_⟩
  · rw [load32_store32_other _ _ _ _ (by omega), load32_store32_other _ _ _ _ (by omega),
      load32_store32_other _ _ _ _ (by omega), load32_store32_mod]
  · rw [load32_store32_other _ _ _ _ (by omega), load32_store32_other _ _ _ _ (by omega),
      load32_store32_mod]
  · rw [load32_store32_other _ _ _ _ (by omega), load32_store32_mod]
  · rw [load32_store32_mod]

theorem Packet_Write_below {p p1 : Packet} {t mid ch n m : Nat} {d : UserPtr}
    {e : Option UserPtr} {fu : Bool} {ret : Int}
    (h : Packet_Write p t mid ch d n e m fu = some (ret, p1)) :
    ∀ i, i < p.size → p1.buf i = p.buf i := by
  intro i hi
  obtain ⟨_, _, hbuf, _⟩ := Packet_Write_frame h
  rw [hbuf i (by omega), header_stored_below _ _ _ _ _ _ _ hi]

/-- A successful write on a packet made of frames appends one frame; its header holds
the arguments as 32-bit words. -/
theorem Packet_Write_layout {p p1 : Packet} {t mid ch n m : Nat} {d : UserPtr}
    {e : Option UserPtr} {fu : Bool} (hs : List FusionReadMessage)
    (h : Packet_Write p t mid ch d n e m fu = some (0, p1))
    (hl : Layout p.buf 0 hs) (hsz : p.size = layout_size hs) :
    Layout p1.buf 0 (hs ++ [written_header t mid ch (n + m)]) ∧
    p1.size = layout_size (hs ++ [written_header t mid ch (n + m)]) := by
  obtain ⟨_, _, hbuf, _, _, hsize, hcap⟩ := Packet_Write_frame h
  have hsize := hsize rfl
  have hw4 : (n + m) % 4294967296 = n + m := by
    unfold FUSION_MAX_PACKET_SIZE sizeof_FusionReadMessage at hcap; omega
  obtain ⟨l1, l2, l3, l4⟩ := load32_header_stored_mod p.buf p.size t mid ch (n + m)
  rw [hw4] at l4
  constructor
  · apply Layout_append
    · apply Layout_congr hs 0 _ hl
      intro i _ hi
      rw [Packet_Write_below h i (by omega)]
    · simp only [Nat.zero_add, ← hsz]
      refine ⟨?_, ?_, ?_, ?_, trivial⟩
      · exact (load32_congr (fun i _ _ => hbuf i (by omega))).trans l1
      · exact (load32_congr (fun i _ _ => hbuf i (by omega))).trans l2
      · exact (load32_congr (fun i _ _ => hbuf i (by omega))).trans l3
      · exact (load32_congr (fun i _ _ => hbuf i (by omega))).trans l4
  · rw [layout_size_append, hsize, hsz]
    unfold frame_stride written_header
    simp only [sizeof_FusionReadMessage]
    omega

/-- Every outcome of `Packet_Write` on a well-formed packet leaves a well-formed packet,
also after the used length is put back to what it was. -/
theorem Packet_Write_well_formed {p p1 : Packet} {t mid ch n m : Nat} {d : UserPtr}
    {e : Option UserPtr} {fu : Bool} {ret : Int}
    (h : Packet_Write p t mid ch d n e m fu = some (ret, p1)) (hp : p.well_formed) :
    p1.well_formed ∧ ({ p1 with size := p.size } : Packet).well_formed ∧
    (ret = 0 → 0 < p1.size) ∧ (ret ≠ 0 → p1.size = p.size) ∧
    p1.flush = p.flush ∧ p1.callbacks = p.callbacks := by
  obtain ⟨hfl, hcb, hbuf, hret, hsame, hsize, hcap⟩ := Packet_Write_frame h
  obtain ⟨⟨hs, hl, hsz⟩, hle, hfn⟩ := hp
  have hback : ({ p1 with size := p.size } : Packet).well_formed := by
    refine ⟨⟨hs, ?_, hsz⟩, hle, by rw [hcb]; exact hfn⟩
    apply Layout_congr hs 0 _ hl
    intro i _ hi
    exact (Packet_Write_below h i (by omega)).symm
  refine ⟨?_, hback, ?_, hsame, hfl, hcb⟩
  · rcases hret with h0 | h1
    · subst h0
      obtain ⟨hl1, hsz1⟩ := Packet_Write_layout hs h hl hsz
      refine ⟨⟨_, hl1, hsz1⟩, ?_, by rw [hcb]; exact hfn⟩
      rw [hsize rfl]; exact hcap
    · have hne : ret ≠ 0 := by rw [h1]; simp [EFAULT]
      have hs1 := hsame hne
      obtain ⟨⟨hs', hl', hsz'⟩, hle', hfn'⟩ := hback
      exact ⟨⟨hs', hl', by rw [hs1]; exact hsz'⟩, by rw [hs1]; exact hle', hfn'⟩
  · intro h0
    rw [hsize h0]
    unfold sizeof_FusionReadMessage
    omega

theorem Packet.is_reset.well_formed {p : Packet} (h : p.is_reset) : p.well_formed := by
  obtain ⟨h1, _, h3⟩ := h
  refine ⟨⟨[], trivial, by simp [h1, layout_size]⟩, by rw [h1]; exact Nat.zero_le _, ?_⟩
  rw [h3]; simp

theorem Fusionee_GetPacket_invariant {f f1 : Fusionee} {size : Nat} {alloc : Option Mem}
    {r : Option Packet} (hinv : f.invariant)
    (h : Fusionee_GetPacket f size alloc = some (f1, r)) : f1.invariant := by
  obtain ⟨i1, i2, i3, i4⟩ := hinv
  obtain ⟨hsz, h1 | h2⟩ := Fusionee_GetPacket_spec h
  · obtain ⟨_, _, _, _, hf, _⟩ := h1
    rw [hf]; exact ⟨i1, i2, i3, i4⟩
  · obtain ⟨hshape, hr, hf⟩ := h2
    have hfree : ∀ p ∈ (acquire_packet f.free_packets alloc).2, p.is_reset := by
      intro p hp
      cases hacq : (acquire_packet f.free_packets alloc).1 with
      | none =>
        rw [(acquire_packet_none hacq).2.2] at hp
        simp at hp
      | some q =>
        rcases acquire_packet_some hacq with hq | hq
        · exact i4 p (by rw [hq]; exact List.mem_cons_of_mem _ hp)
        · rw [hq.2.1] at hp; simp at hp
    have hnew : ∀ p, r = some p → p.is_reset := by
      intro p hp
      rw [hp] at hr
      rcases acquire_packet_some hr.symm with hq | hq
      · exact i4 p (by rw [hq]; exact List.mem_cons_self _ _)
      · exact hq.2.2
    have hold : (∀ p ∈ flush_last f.packets, p.well_formed) ∧
        (∀ p ∈ flush_last f.packets, p.flush = true → 0 < p.size) := by
      rcases hshape with hnil | ⟨init, q, hq, hroom⟩
      · rw [hnil]; simp [flush_last]
      · rw [hq, flush_last_snoc]
        rw [hq] at i1 i3
        constructor
        · intro p hp
          simp only [List.mem_append, List.mem_singleton] at hp
          rcases hp with hp | hp
          · exact i1 p (by simp [hp])
          · have := i1 q (by simp)
            rw [hp]; exact this
        · intro p hp hfl
          simp only [List.mem_append, List.mem_singleton] at hp
          rcases hp with hp | hp
          · exact i3 p (by simp [hp]) hfl
          · rw [hp]; show 0 < q.size
            unfold FUSION_MAX_PACKET_SIZE at hroom hsz
            omega
    rw [hf]
    refine ⟨?_, i2, ?_, hfree⟩
    · intro p hp
      simp only [List.mem_append, Option.mem_toList, Option.mem_def] at hp
      rcases hp with hp | hp
      · exact hold.1 p hp
      · exact (hnew p hp).well_formed
    · intro p hp hfl
      simp only [List.mem_append, Option.mem_toList, Option.mem_def] at hp
      rcases hp with hp | hp
      · exact hold.2 p hp hfl
      · have := (hnew p hp).2.1
        rw [this] at hfl; simp at hfl

/-- Replacing the tail packet of the ready fifo by a well-formed packet that is not both
flush-marked and empty keeps the invariant. -/
theorem invariant_set_tail {f1 f' : Fusionee} {q : Packet} (hinv : f1.invariant)
    (hp : f'.packets = f1.packets.dropLast ++ [q])
    (hprev : f'.prev_packets = f1.prev_packets) (hfree : f'.free_packets = f1.free_packets)
    (hwf : q.well_formed) (hfl : q.flush = true → 0 < q.size) : f'.invariant := by
  obtain ⟨i1, i2, i3, i4⟩ := hinv
  refine ⟨?_, by rw [hprev]; exact i2, ?_, by rw [hfree]; exact i4⟩
  · intro p hmem
    rw [hp] at hmem
    simp only [List.mem_append, List.mem_singleton] at hmem
    rcases hmem with hmem | hmem
    · exact i1 p (List.mem_of_mem_dropLast hmem)
    · rw [hmem]; exact hwf
  · intro p hmem
    rw [hp] at hmem
    simp only [List.mem_append, List.mem_singleton] at hmem
    rcases hmem with hmem | hmem
    · exact i3 p (List.mem_of_mem_dropLast hmem)
    · rw [hmem]; exact hfl

theorem send_locked_invariant {sender : Sender} {f : Fusionee} {m : Message} {a : Alloc}
    {ret : Int} {f' : Fusionee} {s' : Sender} (hinv : f.invariant)
    (h : send_locked sender f m a = .returned ret f' s') : f'.invariant := by
  obtain ⟨f1, r, hg, hcase⟩ := send_locked_returned h
  have hinv1 := Fusionee_GetPacket_invariant hinv hg
  rcases hcase with ⟨_, _, hf, _⟩ | ⟨packet, ret1, p1, hr, hw, hcase⟩
  · rw [hf]; exact hinv1
  · subst hr
    have htail := Fusionee_GetPacket_tail hg
    have hmem : packet ∈ f1.packets := by rw [htail]; simp
    have hpwf := hinv1.1 packet hmem
    have hpfl := hinv1.2.2.1 packet hmem
    obtain ⟨w1, w2, w3, w4, w5, w6⟩ := Packet_Write_well_formed hw hpwf
    rcases hcase with ⟨hne, _, _, hf⟩ | ⟨_, _, _, _, _, hf⟩ | ⟨h0, hcb, _, _, hf⟩
    · apply invariant_set_tail hinv1 (q := p1) (by rw [hf]) (by rw [hf]) (by rw [hf]) w1
      intro hfl
      rw [w4 hne]; exact hpfl (by rw [← w5]; exact hfl)
    · apply invariant_set_tail hinv1 (q := { p1 with size := packet.size })
        (by rw [hf]) (by rw [hf]) (by rw [hf]) w2
      intro hfl
      exact hpfl (by rw [← w5]; exact hfl)
    · apply invariant_set_tail hinv1 (q := sent_packet sender m p1)
        (by rw [hf]) (by rw [hf]) (by rw [hf])
      · obtain ⟨x1, x2, x3⟩ := w1
        refine ⟨x1, x2, ?_⟩
        intro cb hcbm
        simp only [sent_packet, List.mem_append] at hcbm
        rcases hcbm with hcbm | hcbm
        · exact x3 cb hcbm
        · split at hcbm
          · rename_i hne
            simp only [List.mem_singleton] at hcbm
            rw [hcbm]; exact hne
          · simp at hcbm
      · intro _
        exact w3 h0

theorem flush_packets_invariant (fifo : List Packet) (f : Fusionee) (log : List MessageCallback)
    (hinv : f.invariant) : (flush_packets f log fifo).1.invariant := by
  obtain ⟨i1, i2, i3, i4⟩ := hinv
  obtain ⟨h1, h2, _, _, _, _, _, _, h9⟩ := flush_packets_fields fifo f log
  refine ⟨by rw [h1]; exact i1, by rw [h2]; exact i2, by rw [h1]; exact i3, ?_⟩
  intro q hq
  rcases h9 q hq with h | h
  · exact i4 q h
  · exact h

theorem get_messages_copy_invariant (accessible : Nat) (f : Fusionee) (written buf_size : Int)
    (out : List Nat) (hinv : f.invariant) :
    (get_messages_copy accessible f.packets f written buf_size out).2.1.invariant := by
  obtain ⟨i1, i2, i3, i4⟩ := hinv
  obtain ⟨k, _, h1, _, h3, _, _, _, _, _, h9⟩ :=
    get_messages_copy_fields accessible f.packets f written buf_size out
  refine ⟨?_, ?_, ?_, ?_⟩
  · intro p hp; rw [h1] at hp; exact i1 p (List.mem_of_mem_drop hp)
  · intro p hp
    rw [h3] at hp
    simp only [List.mem_append, List.mem_filter] at hp
    rcases hp with hp | hp
    · exact i2 p hp
    · exact i1 p (List.mem_of_mem_take hp.1)
  · intro p hp; rw [h1] at hp; exact i3 p (List.mem_of_mem_drop hp)
  · intro q hq
    rcases h9 q hq with h | h
    · exact i4 q h
    · exact h

theorem get_messages_finish_invariant (buf_size : Int) (accessible : Nat)
    (prev_packets : List Packet) (w : World) (hinv : w.fusionee.invariant) :
    (get_messages_outcome (get_messages_finish buf_size accessible prev_packets w)).1.fusionee.invariant := by
  unfold get_messages_finish get_messages_outcome
  simp only []
  exact flush_packets_invariant _ _ _ (get_messages_copy_invariant _ _ _ _ _ hinv)

theorem get_messages_wait_invariant (buf_size : Int) (accessible : Nat) (block : Bool)
    (w : World) (hinv : w.fusionee.invariant) :
    (get_messages_outcome (get_messages_wait buf_size accessible block w [])).1.fusionee.invariant := by
  unfold get_messages_wait
  split
  · exact get_messages_finish_invariant _ _ _ _ hinv
  · split
    · exact hinv
    · exact hinv

theorem invariant_reset_prev {f : Fusionee} (pid : Nat) (hinv : f.invariant) :
    (detach_prev f pid).invariant := by
  obtain ⟨i1, _, i3, i4⟩ := hinv
  exact ⟨i1, fun p hp => by simp [detach_prev] at hp, i3, i4⟩

theorem fusionee_get_messages_invariant (pid : Nat) (buf_size : Int) (accessible : Nat)
    (block : Bool) (w : World) (hinv : w.fusionee.invariant) :
    (get_messages_outcome
      (fusionee_get_messages pid buf_size accessible block w [])).1.fusionee.invariant := by
  have h0 := invariant_reset_prev pid hinv
  unfold fusionee_get_messages
  simp only []
  split
  · exact get_messages_finish_invariant _ _ _ _ h0
  · split
    · exact flush_packets_invariant _ _ _ h0
    · split
      · exact get_messages_wait_invariant _ _ _ _ (flush_packets_invariant _ _ _ h0)
      · exact get_messages_wait_invariant _ _ _ _ h0

theorem lock_fusionee_head (f : Fusionee) (rest : List Fusionee) :
    lock_fusionee (f :: rest) f.id = some (f, rest) := by
  simp [lock_fusionee, lookup_fusionee, List.find?, List.eraseP]

theorem lookup_fusionee_head (f : Fusionee) (rest : List Fusionee) :
    lookup_fusionee (f :: rest) f.id = some f := by
  simp [lookup_fusionee, List.find?]

/-- Poll on a registered fusionee, spelled out: the packets of `prev_packets` are
flushed, then the head of the ready fifo is tested. -/
theorem fusionee_poll_eq (f : Fusionee) (rest : List Fusionee) (log : List MessageCallback) :
    fusionee_poll (f :: rest) f.id log =
      (if head_flushed (flush_packets { f with prev_packets := [] } log f.prev_packets).1
        then POLLIN ||| POLLRDNORM else 0,
       (flush_packets { f with prev_packets := [] } log f.prev_packets).1 :: rest,
       (flush_packets { f with prev_packets := [] } log f.prev_packets).2) := by
  unfold fusionee_poll
  rw [lock_fusionee_head]
  simp only []
  have hid : (flush_packets { f with prev_packets := [] } log f.prev_packets).1.id = f.id :=
    (flush_packets_fields f.prev_packets { f with prev_packets := [] } log).2.2.2.2.1
  have := lock_fusionee_head (flush_packets { f with prev_packets := [] } log f.prev_packets).1 rest
  rw [hid] at this
  rw [this]
  simp only []
  split <;> rfl

/-- The barrier on a registered fusionee with no wake-up at hand: it returns 0 when
neither search finds a packet, else it sleeps; the fusionee is not changed. -/
theorem fusionee_wait_processing_eq (f : Fusionee) (rest : List Fusionee) (t mid : Nat) :
    fusionee_wait_processing f.id t mid (f :: rest) [] =
      (match wait_processing_search f t mid with
       | none => .returned 0 (f :: rest)
       | some _ => .sleeping (f :: rest)) := by
  unfold fusionee_wait_processing
  simp only [lock_fusionee_head]

theorem step_invariant (w : World) (op : Op) (hinv : w.fusionee.invariant) :
    (step w op).1.fusionee.invariant := by
  cases op with
  | send sender m a =>
    simp only [step]
    cases hres : fusionee_send_message2 sender m a w.fusionee [] with
    | returned ret f s =>
      simp only [send_outcome]
      unfold fusionee_send_message2 at hres
      split at hres
      · simp at hres
      · exact send_locked_invariant hinv hres
    | sleeping f s => exact hinv
    | assert_failed => exact hinv
  | send_by_id sender m a =>
    simp only [step, fusionee_send_message, lookup_fusionee_head]
    rw [fusionee_send_message_again_eq]
    cases hres : fusionee_send_message2 sender m a w.fusionee [] with
    | returned ret f s =>
      simp only [send_outcome]
      unfold fusionee_send_message2 at hres
      split at hres
      · simp at hres
      · exact send_locked_invariant hinv hres
    | sleeping f s => exact hinv
    | assert_failed => exact hinv
  | get_messages pid buf_size accessible block =>
    exact fusionee_get_messages_invariant _ _ _ _ _ hinv
  | get_messages_wake buf_size accessible =>
    exact get_messages_wait_invariant _ _ _ _ hinv
  | poll =>
    simp only [step, fusionee_poll_eq]
    exact flush_packets_invariant _ _ _ (invariant_reset_prev w.fusionee.dispatcher_pid hinv)
  | wait_processing t mid =>
    simp only [step, fusionee_wait_processing_eq]
    cases wait_processing_search w.fusionee t mid <;> exact hinv

theorem run_invariant (ops : List Op) : ∀ (w : World), w.fusionee.invariant →
    (run w ops).1.fusionee.invariant := by
  induction ops with
  | nil => intro w h; exact h
  | cons op ops ih =>
    intro w h
    exact ih _ (step_invariant w op h)

/-- The invariant holds in every reachable world. -/
theorem Reachable.invariant {w : World} (h : Reachable w) : w.fusionee.invariant := by
  obtain ⟨pid, id, ops, hrun⟩ := h
  rw [← hrun]
  apply run_invariant
  refine ⟨?_, ?_, ?_, ?_⟩ <;> simp [initial_world, fusionee_new]

theorem head_flushed_cons (f : Fusionee) (p : Packet) (rest : List Packet)
    (h : f.packets = p :: rest) : head_flushed f = p.flush := by
  simp [head_flushed, h]

theorem fusionee_get_messages_flushed (pid : Nat) (buf_size : Int) (accessible : Nat)
    (block : Bool) (w : World) (wakes : List (Wake World))
    (h : head_flushed w.fusionee = true) :
    fusionee_get_messages pid buf_size accessible block w wakes =
      get_messages_finish buf_size accessible w.fusionee.prev_packets
        { w with fusionee := (detach_prev w.fusionee pid) } := by
  unfold fusionee_get_messages
  have h' : head_flushed (detach_prev w.fusionee pid) = true := h
  simp only [h', if_true]

/-- C8: a call of `fusionee_get_messages` in a reachable world that finds the head of the
ready fifo flush-marked, with a destination of `c` bytes that can be stored to.  If the
head is larger than `c` the call returns `-EMSGSIZE`, nothing copied, ready fifo
unchanged.  Otherwise it takes `k ≥ 1` packets off the head of the ready fifo, returns
the sum of their sizes, which is at most `c`, and has copied their bytes in order; these
`k` packets are the longest run from the head of flush-marked packets that fit into `c`
bytes together. -/
theorem get_messages_of_flushed_head (w : World) (hr : Reachable w) (pid : Nat) (c : Int)
    (accessible : Nat) (hacc : c ≤ accessible) (block : Bool) (wakes : List (Wake World))
    (head : Packet) (rest : List Packet)
    (hready : w.fusionee.packets = head :: rest) (hflush : head.flush = true) :
    ((head.size : Int) > c →
      ∃ w', fusionee_get_messages pid c accessible block w wakes
              = .returned (-EMSGSIZE) [] w' ∧
        w'.fusionee.packets = w.fusionee.packets) ∧
    ((head.size : Int) ≤ c →
      ∃ w' k, fusionee_get_messages pid c accessible block w wakes
              = .returned (total_size (w.fusionee.packets.take k))
                  (all_bytes (w.fusionee.packets.take k)) w' ∧
        w'.fusionee.packets = w.fusionee.packets.drop k ∧
        0 < k ∧ k ≤ w.fusionee.packets.length ∧
        (∀ p ∈ w.fusionee.packets.take k, p.flush = true) ∧
        (total_size (w.fusionee.packets.take k) : Int) ≤ c ∧
        ∀ j, k < j → j ≤ w.fusionee.packets.length →
          ¬ ((∀ p ∈ w.fusionee.packets.take j, p.flush = true) ∧
             (total_size (w.fusionee.packets.take j) : Int) ≤ c)) := by
  have hinv := hr.invariant
  have hhead : head_flushed w.fusionee = true := by
    rw [head_flushed_cons _ _ _ hready]; exact hflush
  rw [fusionee_get_messages_flushed _ _ _ _ _ _ hhead]
  unfold get_messages_finish
  simp only []
  have hp0 : (detach_prev w.fusionee pid).packets = w.fusionee.packets := rfl
  rw [hp0]
  generalize hf0 : ((detach_prev w.fusionee pid) : Fusionee)
    = f0
  constructor
  · intro hbig
    have e : get_messages_copy accessible w.fusionee.packets f0 0 c []
        = (-EMSGSIZE, { f0 with packets := head :: rest }, []) := by
      rw [hready]; exact get_messages_copy_too_large _ _ _ _ _ _ hflush hbig
    rw [e]
    refine ⟨_, rfl, ?_⟩
    simp only []
    rw [(flush_packets_fields _ _ _).1, hready]
  · intro hfit
    have hc0 : 0 ≤ c := by omega
    obtain ⟨h1, h2, h3⟩ := get_messages_copy_result accessible w.fusionee.packets
      f0 0 c [] hinv.2.2.1 (by simpa using hacc) (le_refl _)
      (Or.inr (by
        intro p rest' hp _
        rw [hready] at hp
        simp only [List.cons.injEq] at hp
        rw [← hp.1]; exact hfit))
    obtain ⟨s1, s2, s3, s4⟩ := drain_count_spec w.fusionee.packets c
    rw [h1, h2]
    refine ⟨_, drain_count w.fusionee.packets c, by simp; rfl, ?_, ?_, s1, s2, s3 hc0, s4⟩
    · simp only []
      rw [(flush_packets_fields _ _ _).1]; exact h3
    · rw [hready, drain_count, if_pos ⟨hflush, hfit⟩]; omega

/-- The copy loop ends with a byte count, `-EMSGSIZE` or `-EFAULT`. -/
theorem get_messages_copy_code (accessible : Nat) (packets : List Packet) :
    ∀ (f : Fusionee) (written buf_size : Int) (out : List Nat), 0 ≤ written →
    0 ≤ (get_messages_copy accessible packets f written buf_size out).1 ∨
    (get_messages_copy accessible packets f written buf_size out).1 = -EMSGSIZE ∨
    (get_messages_copy accessible packets f written buf_size out).1 = -EFAULT := by
  induction packets with
  | nil => intro f written buf_size out hw; exact Or.inl hw
  | cons p ps ih =>
    intro f written buf_size out hw
    by_cases hgo : copy_goes_on accessible p buf_size out
    · rw [get_messages_copy_step _ _ _ _ _ _ _ hgo]
      exact ih _ _ _ _ (by omega)
    · rw [get_messages_copy]
      by_cases hfl : p.flush = true
      · rw [if_pos hfl]
        simp only []
        by_cases hbig : (p.size : Int) > buf_size
        · rw [if_pos hbig]
          by_cases hw0 : written = 0
          · rw [if_pos hw0]; exact Or.inr (Or.inl rfl)
          · rw [if_neg hw0]; exact Or.inl hw
        · rw [if_neg hbig]
          have hfault : out.length + p.size > accessible := by
            by_contra hc
            exact hgo ⟨hfl, by omega, by omega⟩
          rw [if_pos hfault]; exact Or.inr (Or.inr rfl)
      · rw [if_neg hfl]; exact Or.inl hw

theorem callbacks_to_run_eq_all (ps : List Packet)
    (h : ∀ p ∈ ps, ∀ cb ∈ p.callbacks, cb.func ≠ 0) :
    callbacks_to_run ps = all_callbacks ps := by
  induction ps with
  | nil => rfl
  | cons p ps ih =>
    simp only [callbacks_to_run, all_callbacks, List.map_cons, List.flatten_cons]
    have e : p.callbacks.filter (fun cb => cb.func ≠ 0) = p.callbacks := by
      rw [List.filter_eq_self]
      intro cb hcb
      simpa using h p (List.mem_cons_self _ _) cb hcb
    rw [e]
    have := ih (fun q hq => h q (List.mem_cons_of_mem _ hq))
    simp only [callbacks_to_run, all_callbacks] at this
    rw [this]

theorem head_flushed_false_iff (f : Fusionee) :
    head_flushed f = false ↔
      (f.packets = [] ∨ ∃ p rest, f.packets = p :: rest ∧ p.flush = false) := by
  unfold head_flushed
  cases h : f.packets with
  | nil => simp
  | cons p rest => simp

/-- C9: a non-blocking call of `fusionee_get_messages` in a reachable world returns
`-EAGAIN` if and only if the ready fifo is empty or its head is not flush-marked.  It
then has copied nothing and left the ready fifo and the two counters as they were;
`prev_packets` is empty and the callbacks of the packets that were in `prev_packets`
have all been invoked, in order. -/
theorem get_messages_nonblocking (w : World) (hr : Reachable w) (pid : Nat) (c : Int)
    (accessible : Nat) (wakes : List (Wake World)) :
    ((∃ out w', fusionee_get_messages pid c accessible false w wakes
          = .returned (-EAGAIN) out w') ↔
      (w.fusionee.packets = [] ∨
        ∃ p rest, w.fusionee.packets = p :: rest ∧ p.flush = false)) ∧
    ((w.fusionee.packets = [] ∨ ∃ p rest, w.fusionee.packets = p :: rest ∧ p.flush = false) →
      ∃ w', fusionee_get_messages pid c accessible false w wakes = .returned (-EAGAIN) [] w' ∧
        w'.fusionee.packets = w.fusionee.packets ∧
        w'.fusionee.rcv_total = w.fusionee.rcv_total ∧
        w'.fusionee.snd_total = w.fusionee.snd_total ∧
        w'.fusionee.prev_packets = [] ∧
        w'.log = w.log ++ all_callbacks w.fusionee.prev_packets) := by
  have hinv := hr.invariant
  have hcbs : callbacks_to_run w.fusionee.prev_packets = all_callbacks w.fusionee.prev_packets :=
    callbacks_to_run_eq_all _ (fun p hp => (hinv.2.1 p hp).2.2)
  have hempty : (w.fusionee.packets = [] ∨
      ∃ p rest, w.fusionee.packets = p :: rest ∧ p.flush = false) →
      ∃ w', fusionee_get_messages pid c accessible false w wakes = .returned (-EAGAIN) [] w' ∧
        w'.fusionee.packets = w.fusionee.packets ∧
        w'.fusionee.rcv_total = w.fusionee.rcv_total ∧
        w'.fusionee.snd_total = w.fusionee.snd_total ∧
        w'.fusionee.prev_packets = [] ∧
        w'.log = w.log ++ all_callbacks w.fusionee.prev_packets := by
    intro h
    have hh : head_flushed w.fusionee = false := (head_flushed_false_iff _).2 h
    have hh' : head_flushed (detach_prev w.fusionee pid)
        = false := hh
    unfold fusionee_get_messages
    simp only [hh', Bool.false_eq_true, if_false, Bool.not_false, if_true]
    obtain ⟨f1, f2, f3, f4, _, _, _, f8, _⟩ := flush_packets_fields w.fusionee.prev_packets
      (detach_prev w.fusionee pid) w.log
    exact ⟨_, rfl, f1, f3, f4, f2, by rw [← hcbs]; exact f8⟩
  refine ⟨⟨?_, ?_⟩, hempty⟩
  · rintro ⟨out, w', h⟩
    rw [← head_flushed_false_iff]
    by_contra hne
    have hh : head_flushed w.fusionee = true := by simpa using hne
    rw [fusionee_get_messages_flushed _ _ _ _ _ _ hh] at h
    unfold get_messages_finish at h
    simp only [DrainResult.returned.injEq] at h
    have := get_messages_copy_code accessible (detach_prev w.fusionee pid).packets
      (detach_prev w.fusionee pid) 0 c [] (le_refl _)
    rw [h.1] at this
    simp [EAGAIN, EMSGSIZE, EFAULT] at this
  · intro h
    obtain ⟨w', hw, _⟩ := hempty h
    exact ⟨[], w', hw⟩

theorem Packet_Search_iff_has_frame (p : Packet) (hwf : p.well_formed) (t mid : Nat) :
    Packet_Search p t mid = true ↔ p.has_frame t mid := by
  obtain ⟨⟨hs, hl, hsz⟩, hle, _⟩ := hwf
  constructor
  · intro h
    rw [Packet_Search_of_layout p hs hl hsz hle] at h
    simp only [List.any_eq_true, decide_eq_true_eq] at h
    obtain ⟨x, hx, hx2⟩ := h
    exact ⟨hs, hl, hsz, x, hx, hx2⟩
  · rintro ⟨hs', hl', hsz', x, hx, hx2⟩
    rw [Packet_Search_of_layout p hs' hl' hsz' hle]
    simp only [List.any_eq_true, decide_eq_true_eq]
    exact ⟨x, hx, hx2⟩

theorem wait_processing_search_none (f : Fusionee) (t mid : Nat) :
    wait_processing_search f t mid = none ↔
      ∀ p ∈ f.packets ++ f.prev_packets, Packet_Search p t mid = false := by
  unfold wait_processing_search
  cases h1 : f.packets.find? (fun packet => Packet_Search packet t mid) with
  | some q =>
    simp only [false_iff, reduceCtorEq]
    intro hall
    have hq := List.find?_some h1
    have hm := List.mem_of_find?_eq_some h1
    have := hall q (List.mem_append_left _ hm)
    simp only [] at hq
    rw [this] at hq
    simp at hq
  | none =>
    simp only [List.find?_eq_none] at h1 ⊢
    constructor
    · intro h2 p hp
      rcases List.mem_append.1 hp with hp | hp
      · simpa using h1 p hp
      · simpa using h2 p hp
    · intro hall p hp
      simpa using hall p (List.mem_append_right _ hp)

theorem lock_fusionee_id {dev : List Fusionee} {id : Nat} {f : Fusionee} {rest : List Fusionee}
    (h : lock_fusionee dev id = some (f, rest)) : f.id = id := by
  unfold lock_fusionee lookup_fusionee at h
  cases hf : dev.find? (fun g => g.id == id) with
  | none => rw [hf] at h; simp at h
  | some g =>
    rw [hf] at h
    simp only [Option.some.injEq, Prod.mk.injEq] at h
    have := List.find?_some hf
    rw [← h.1]
    simpa using this

theorem fusionee_wait_processing_none {dev : List Fusionee} {id : Nat} {f : Fusionee}
    {rest : List Fusionee} {t mid : Nat} (wakes : List (Wake (List Fusionee)))
    (h : lock_fusionee dev id = some (f, rest))
    (hs : wait_processing_search f t mid = none) :
    fusionee_wait_processing id t mid dev wakes = .returned 0 (f :: rest) := by
  cases wakes with
  | nil => unfold fusionee_wait_processing; simp only [h, hs]
  | cons k ks => rw [fusionee_wait_processing]; simp only [h, hs]

theorem fusionee_wait_processing_some_nil {dev : List Fusionee} {id : Nat} {f : Fusionee}
    {rest : List Fusionee} {t mid : Nat} {q : Packet}
    (h : lock_fusionee dev id = some (f, rest))
    (hs : wait_processing_search f t mid = some q) :
    fusionee_wait_processing id t mid dev [] = .sleeping (f :: rest) := by
  unfold fusionee_wait_processing; simp only [h, hs]

theorem fusionee_wait_processing_some_cons {dev : List Fusionee} {id : Nat} {f : Fusionee}
    {rest : List Fusionee} {t mid : Nat} {q : Packet} (k : Wake (List Fusionee))
    (ks : List (Wake (List Fusionee))) (h : lock_fusionee dev id = some (f, rest))
    (hs : wait_processing_search f t mid = some q) :
    fusionee_wait_processing id t mid dev (k :: ks) =
      (if k.signal then .returned (-EINTR) (k.env (f :: rest))
       else fusionee_wait_processing id t mid (k.env (f :: rest)) ks) := by
  rw [fusionee_wait_processing]; simp only [h, hs]

/-- C10: `fusionee_wait_processing` on a registered fusionee in a reachable state.  With
no wake-up at hand it returns 0 if and only if no packet of the ready fifo and of
`prev_packets` contains a frame with the type and id; it then returns 0 whatever the
wake-ups, the fusionee is unchanged (it is now at the front of the device list), and a
repeated call returns 0 again.  If a packet contains such a frame the call sleeps:
a wake-up with a signal pending makes it return `-EINTR`, one without makes it search
again. -/
theorem wait_processing_returns_iff_no_frame (w : World) (hr : Reachable w)
    (dev rest : List Fusionee) (fusion_id msg_type msg_id : Nat)
    (hlock : lock_fusionee dev fusion_id = some (w.fusionee, rest)) :
    ((∃ dev', fusionee_wait_processing fusion_id msg_type msg_id dev [] = .returned 0 dev') ↔
      ∀ p ∈ w.fusionee.packets ++ w.fusionee.prev_packets, ¬ p.has_frame msg_type msg_id) ∧
    ((∀ p ∈ w.fusionee.packets ++ w.fusionee.prev_packets, ¬ p.has_frame msg_type msg_id) →
      ∀ wakes wakes2,
        fusionee_wait_processing fusion_id msg_type msg_id dev wakes
          = .returned 0 (w.fusionee :: rest) ∧
        fusionee_wait_processing fusion_id msg_type msg_id (w.fusionee :: rest) wakes2
          = .returned 0 (w.fusionee :: rest)) ∧
    ((∃ p ∈ w.fusionee.packets ++ w.fusionee.prev_packets, p.has_frame msg_type msg_id) →
      fusionee_wait_processing fusion_id msg_type msg_id dev []
        = .sleeping (w.fusionee :: rest) ∧
      ∀ k ks, fusionee_wait_processing fusion_id msg_type msg_id dev (k :: ks) =
        (if k.signal then .returned (-EINTR) (k.env (w.fusionee :: rest))
         else fusionee_wait_processing fusion_id msg_type msg_id
                (k.env (w.fusionee :: rest)) ks)) := by
  have hinv := hr.invariant
  have hwf : ∀ p ∈ w.fusionee.packets ++ w.fusionee.prev_packets, p.well_formed := by
    intro p hp
    rcases List.mem_append.1 hp with hp | hp
    · exact hinv.1 p hp
    · exact hinv.2.1 p hp
  have hnone : wait_processing_search w.fusionee msg_type msg_id = none ↔
      ∀ p ∈ w.fusionee.packets ++ w.fusionee.prev_packets, ¬ p.has_frame msg_type msg_id := by
    rw [wait_processing_search_none]
    constructor
    · intro h p hp hf
      have := (Packet_Search_iff_has_frame p (hwf p hp) msg_type msg_id).2 hf
      rw [h p hp] at this
      simp at this
    · intro h p hp
      cases hs : Packet_Search p msg_type msg_id with
      | false => rfl
      | true => exact absurd ((Packet_Search_iff_has_frame p (hwf p hp) _ _).1 hs) (h p hp)
  have hid := lock_fusionee_id hlock
  have hlock2 : lock_fusionee (w.fusionee :: rest) fusion_id = some (w.fusionee, rest) := by
    rw [← hid]; exact lock_fusionee_head _ _
  refine ⟨?_, ?_, ?_⟩
  · rw [← hnone]
    cases hs : wait_processing_search w.fusionee msg_type msg_id with
    | none =>
      rw [fusionee_wait_processing_none [] hlock hs]
      simp
    | some q =>
      rw [fusionee_wait_processing_some_nil hlock hs]
      simp
  · intro h wakes wakes2
    have hs := hnone.2 h
    exact ⟨fusionee_wait_processing_none wakes hlock hs,
      fusionee_wait_processing_none wakes2 hlock2 hs⟩
  · rintro ⟨p, hp, hf⟩
    have hs : wait_processing_search w.fusionee msg_type msg_id ≠ none := by
      intro hn
      exact (hnone.1 hn) p hp hf
    cases hq : wait_processing_search w.fusionee msg_type msg_id with
    | none => exact absurd hq hs
    | some q =>
      exact ⟨fusionee_wait_processing_some_nil hlock hq,
        fun k ks => fusionee_wait_processing_some_cons k ks hlock hq⟩

theorem frame_stride_mod4 (h : FusionReadMessage) : frame_stride h % 4 = 0 := by
  unfold frame_stride sizeof_FusionReadMessage; omega

theorem layout_size_mod4 (hs : List FusionReadMessage) : layout_size hs % 4 = 0 := by
  induction hs with
  | nil => rfl
  | cons x xs ih =>
    rw [layout_size_cons]
    have := frame_stride_mod4 x
    omega

theorem Packet.well_formed.size_mod4 {p : Packet} (h : p.well_formed) : p.size % 4 = 0 := by
  obtain ⟨⟨hs, _, hsz⟩, _, _⟩ := h
  rw [hsz]; exact layout_size_mod4 hs

/-- With the invariant, `Fusionee_GetPacket` for a size within the capacity passes its
assertion and, unless an allocation fails, returns a packet with room for the frame
rounded up to a multiple of four. -/
theorem Fusionee_GetPacket_ok {f : Fusionee} {size : Nat} {alloc : Option Mem}
    (hinv : f.invariant) (hsize : size ≤ FUSION_MAX_PACKET_SIZE) (halloc : alloc ≠ none) :
    ∃ f1 packet, Fusionee_GetPacket f size alloc = some (f1, some packet) ∧
      packet.size + (size + 3) / 4 * 4 ≤ FUSION_MAX_PACKET_SIZE := by
  cases hg : Fusionee_GetPacket f size alloc with
  | none =>
    unfold Fusionee_GetPacket at hg
    rw [if_pos hsize] at hg
    simp only [] at hg
    split at hg
    · split at hg <;> simp at hg
    · simp at hg
  | some x =>
    obtain ⟨f1, r⟩ := x
    have hinv1 := Fusionee_GetPacket_invariant hinv hg
    obtain ⟨_, h1 | h2⟩ := Fusionee_GetPacket_spec hg
    · obtain ⟨init, q, hq, hroom, hf, hr⟩ := h1
      refine ⟨f1, q, by rw [hr], ?_⟩
      have := (hinv.1 q (by rw [hq]; simp)).size_mod4
      unfold FUSION_MAX_PACKET_SIZE at hroom ⊢
      omega
    · obtain ⟨_, hr, hf⟩ := h2
      cases hacq : (acquire_packet f.free_packets alloc).1 with
      | none => exact absurd (acquire_packet_none hacq).2.1 halloc
      | some q =>
        rw [hacq] at hr
        refine ⟨f1, q, by rw [hr], ?_⟩
        have hreset : q.is_reset := by
          rcases acquire_packet_some hacq with hq | hq
          · exact hinv.2.2.2 q (by rw [hq]; exact List.mem_cons_self _ _)
          · exact hq.2.2
        rw [hreset.1]
        unfold FUSION_MAX_PACKET_SIZE at hsize ⊢
        omega

/-- A send that nothing makes fail returns 0 when it runs the locked part in a state
that satisfies the invariant. -/
theorem send_locked_ok (sender : Sender) {f : Fusionee} {m : Message} {a : Alloc}
    (hinv : f.invariant) (hgood : good_send m a) :
    ∃ f', send_locked sender f m a = .returned 0 f' sender.counted := by
  obtain ⟨hsize, halloc, hnf, hcb⟩ := hgood
  obtain ⟨f1, packet, hg, hroom⟩ := Fusionee_GetPacket_ok hinv hsize halloc
  obtain ⟨p1, hw⟩ := Packet_write_ok packet m.args (by
    unfold frame_stride WriteArgs.header Message.args
    simp only [sizeof_FusionReadMessage] at hroom ⊢
    omega) hnf
  have hw' : Packet_Write packet m.msg_type m.msg_id m.msg_channel m.msg_data m.msg_size
      m.extra_data m.extra_size (m.msg_type != FMT_CALL && m.msg_type != FMT_SHMPOOL)
      = some (0, p1) := hw
  unfold send_locked
  simp only [hg, hw', ne_eq, not_true_eq_false, if_false]
  rcases hcb with hcb | hcb
  · simp only [hcb, not_true_eq_false, if_false]
    exact ⟨_, rfl⟩
  · by_cases hc0 : m.callback = 0
    · simp only [hc0, not_true_eq_false, if_false]
      exact ⟨_, rfl⟩
    · simp only [hc0, not_false_eq_true, if_true, Packet_AddCallback, hcb, if_false,
        not_true_eq_false]
      exact ⟨_, rfl⟩

/-- The flush decision of a send is positive unless the message is a call without a
serial from a present sender. -/
theorem send_flushes_iff (sender : Sender) (m : Message) :
    send_flushes sender m = true ↔
      ¬ (m.msg_type = FMT_CALL ∧ m.serial = 0 ∧ sender.present = true) := by
  unfold send_flushes
  cases hp : sender.present
  · simp
  · simp; tauto

theorem fusionee_send_message_success {dev : List Fusionee} {sender : Sender} {recipient : Nat}
    {m : Message} {a : Alloc} {wakes : List (Wake Fusionee)} {f' : Fusionee} {s' : Sender}
    (h : fusionee_send_message dev sender recipient m a wakes = some (.returned 0 f' s')) :
    ∃ f0, f0.packets.length ≤ 10 ∧ send_locked sender f0 m a = .returned 0 f' s' := by
  unfold fusionee_send_message at h
  cases hl : lookup_fusionee dev recipient with
  | none => rw [hl] at h; simp at h
  | some f =>
    rw [hl] at h
    simp only [Option.some.injEq] at h
    rw [fusionee_send_message_again_eq] at h
    exact fusionee_send_message2_success wakes h

theorem send_entry_of_le (f : Fusionee) (wakes : List (Wake Fusionee))
    (h : f.packets.length ≤ 10) : send_entry f wakes = some f := by
  cases wakes with
  | nil => unfold send_entry; rw [if_neg (by omega)]
  | cons k ks => unfold send_entry; rw [if_neg (by omega)]

/-- A send that returns 0 passed the backpressure check, and ran the locked part with the
fusionee it passed the check with. -/
theorem fusionee_send_message2_entry {sender : Sender} {m : Message} {a : Alloc}
    (wakes : List (Wake Fusionee)) : ∀ {f f' : Fusionee} {s' : Sender},
    fusionee_send_message2 sender m a f wakes = .returned 0 f' s' →
    ∃ f0, send_entry f wakes = some f0 ∧ f0.packets.length ≤ 10 ∧
      send_locked sender f0 m a = .returned 0 f' s' := by
  induction wakes with
  | nil =>
    intro f f' s' h
    unfold fusionee_send_message2 at h
    split at h
    · simp at h
    · rename_i hle
      exact ⟨f, send_entry_of_le f [] (by omega), by omega, h⟩
  | cons k ks ih =>
    intro f f' s' h
    unfold fusionee_send_message2 at h
    split at h
    · rename_i hgt
      split at h
      · simp [EINTR] at h
      · rename_i hsig
        obtain ⟨f0, h1, h2, h3⟩ := ih h
        refine ⟨f0, ?_, h2, h3⟩
        unfold send_entry
        rw [if_pos hgt, if_neg hsig]
        exact h1
    · rename_i hle
      exact ⟨f, send_entry_of_le f _ (by omega), by omega, h⟩

/-- C6: a send that returns 0, by either send function, to the fusionee `f`.  It passed
the backpressure check with the fusionee `f0` (which is `f` when `f` has ten ready
packets or fewer, and else what the wake-ups led to); `Fusionee_GetPacket` on `f0` gave
it the packet `packet`, the tail of the ready fifo; `Packet_Write` put the frame into
it and left its flag alone.  Afterwards the tail of the ready fifo is that packet with
the frame, the other packets being as `Fusionee_GetPacket` left them, and its flush
flag is set if it is not the case that the type is `FMT_CALL`, the serial is 0 and a
sender is present, and is what it was before the frame was written if that is the
case.  So a packet that was not flush-marked is flush-marked afterwards exactly when
the exception does not apply. -/
theorem send_flush_mark (sender : Sender) (m : Message) (a : Alloc) (f f' : Fusionee)
    (s' : Sender) (wakes : List (Wake Fusionee)) (dev : List Fusionee) (recipient : Nat)
    (hreg : lookup_fusionee dev recipient = some f)
    (h : fusionee_send_message2 sender m a f wakes = .returned 0 f' s' ∨
         fusionee_send_message dev sender recipient m a wakes = some (.returned 0 f' s')) :
    ∃ f0 f1 packet p1 received,
      send_entry f wakes = some f0 ∧ (f.packets.length ≤ 10 → f0 = f) ∧
      Fusionee_GetPacket f0 (sizeof_FusionReadMessage + m.msg_size + m.extra_size) a.packet
        = some (f1, some packet) ∧
      Packet_Write packet m.msg_type m.msg_id m.msg_channel m.msg_data m.msg_size
        m.extra_data m.extra_size (m.msg_type != FMT_CALL && m.msg_type != FMT_SHMPOOL)
        = some (0, p1) ∧
      p1.flush = packet.flush ∧
      f1.packets = f1.packets.dropLast ++ [packet] ∧
      f'.packets = f1.packets.dropLast ++ [received] ∧
      received.buf = p1.buf ∧ received.size = p1.size ∧
      (¬ (m.msg_type = FMT_CALL ∧ m.serial = 0 ∧ sender.present = true) →
        received.flush = true) ∧
      ((m.msg_type = FMT_CALL ∧ m.serial = 0 ∧ sender.present = true) →
        received.flush = packet.flush) ∧
      (packet.flush = false →
        (received.flush = true ↔
          ¬ (m.msg_type = FMT_CALL ∧ m.serial = 0 ∧ sender.present = true))) := by
  have h2 : fusionee_send_message2 sender m a f wakes = .returned 0 f' s' := by
    rcases h with h | h
    · exact h
    · simp only [fusionee_send_message, hreg, fusionee_send_message_again_eq,
        Option.some.injEq] at h
      exact h
  obtain ⟨f0, he, hlen, hs⟩ := fusionee_send_message2_entry wakes h2
  have hsame : f.packets.length ≤ 10 → f0 = f := by
    intro hle
    rw [send_entry_of_le f wakes hle] at he
    exact (Option.some.inj he).symm
  obtain ⟨f1, r, hg, hcase⟩ := send_locked_returned hs
  have hE : (-ENOMEM : Int) ≠ 0 := by simp [ENOMEM]
  rcases hcase with ⟨_, hret, _, _⟩ | ⟨packet, ret1, p1, hr, hw, hcase⟩
  · exact absurd hret.symm hE
  · subst hr
    rcases hcase with ⟨hne, hret, _, _⟩ | ⟨_, _, _, hret, _, _⟩ | ⟨h0, _, _, _, hf⟩
    · exact absurd hret.symm hne
    · exact absurd hret.symm hE
    · subst h0
      obtain ⟨hfl, _⟩ := Packet_Write_frame hw
      have hiff := send_flushes_iff sender m
      have hyes : ¬ (m.msg_type = FMT_CALL ∧ m.serial = 0 ∧ sender.present = true) →
          (sent_packet sender m p1).flush = true := by
        intro hx
        simp [sent_packet, hiff.2 hx]
      have hno : (m.msg_type = FMT_CALL ∧ m.serial = 0 ∧ sender.present = true) →
          (sent_packet sender m p1).flush = packet.flush := by
        intro hx
        have hsf : send_flushes sender m = false := by
          cases hc : send_flushes sender m with
          | false => rfl
          | true => exact absurd hx (hiff.1 hc)
        simp [sent_packet, hsf, hfl]
      refine ⟨f0, f1, packet, p1, sent_packet sender m p1, he, hsame, hg, hw, hfl,
        Fusionee_GetPacket_tail hg, by rw [hf], rfl, rfl, hyes, hno, fun hpf => ?_⟩
      constructor
      · intro hfl1 hx
        rw [hno hx, hpf] at hfl1
        exact Bool.noConfusion hfl1
      · exact hyes

theorem head_flushed_congr {f g : Fusionee} (h : f.packets = g.packets) :
    head_flushed f = head_flushed g := by
  unfold head_flushed; rw [h]

theorem flush_last_length (l : List Packet) : (flush_last l).length = l.length := by
  rcases List.eq_nil_or_concat l with h | ⟨init, q, h⟩
  · rw [h]; rfl
  · rw [List.concat_eq_append] at h
    rw [h, flush_last_snoc]; simp

theorem Fusionee_GetPacket_length {f f1 : Fusionee} {size : Nat} {alloc : Option Mem}
    {r : Option Packet} (h : Fusionee_GetPacket f size alloc = some (f1, r)) :
    f.packets.length ≤ f1.packets.length ∧ f1.packets.length ≤ f.packets.length + 1 := by
  obtain ⟨_, h1 | h2⟩ := Fusionee_GetPacket_spec h
  · obtain ⟨_, _, _, _, hf, _⟩ := h1
    rw [hf]; omega
  · obtain ⟨_, _, hf⟩ := h2
    rw [hf]
    simp only [List.length_append, flush_last_length]
    cases r <;> simp

/-- A send adds at most one packet to the ready fifo and removes none. -/
theorem send_locked_length {sender : Sender} {f : Fusionee} {m : Message} {a : Alloc}
    {ret : Int} {f' : Fusionee} {s' : Sender}
    (h : send_locked sender f m a = .returned ret f' s') :
    f.packets.length ≤ f'.packets.length ∧ f'.packets.length ≤ f.packets.length + 1 := by
  obtain ⟨f1, r, hg, hcase⟩ := send_locked_returned h
  have hlen := Fusionee_GetPacket_length hg
  rcases hcase with ⟨_, _, hf, _⟩ | ⟨packet, ret1, p1, hr, hw, hcase⟩
  · rw [hf]; exact hlen
  · subst hr
    have htail := Fusionee_GetPacket_tail hg
    have e : ∀ x : Packet, (f1.packets.dropLast ++ [x]).length = f1.packets.length := by
      intro x
      conv => rhs; rw [htail]
      simp
    rcases hcase with ⟨_, _, _, hf⟩ | ⟨_, _, _, _, _, hf⟩ | ⟨_, _, _, _, hf⟩ <;>
      (rw [hf]; simp only [e]; exact hlen)

theorem step_good_send (w : World) (op : Op) (hinv : w.fusionee.invariant)
    (hgood : op.good_send) (hlen : w.fusionee.packets.length ≤ 10) :
    (step w op).2 = .send_returned 0 ∧
    (step w op).1.fusionee.packets.length ≤ w.fusionee.packets.length + 1 := by
  have hn : ¬ w.fusionee.packets.length > 10 := by omega
  have key : ∀ sender m a, good_send m a →
      ∃ f', fusionee_send_message2 sender m a w.fusionee [] = .returned 0 f' sender.counted ∧
        f'.packets.length ≤ w.fusionee.packets.length + 1 := by
    intro sender m a hg
    obtain ⟨f', hs⟩ := send_locked_ok sender hinv hg
    refine ⟨f', ?_, (send_locked_length hs).2⟩
    unfold fusionee_send_message2
    rw [if_neg hn]; exact hs
  cases op with
  | send sender m a =>
    obtain ⟨f', h1, h2⟩ := key sender m a hgood
    have e : step w (.send sender m a) = send_outcome w (.returned 0 f' sender.counted) := by
      simp only [step, h1]
    rw [e]
    exact ⟨rfl, h2⟩
  | send_by_id sender m a =>
    obtain ⟨f', h1, h2⟩ := key sender m a hgood
    have e : step w (.send_by_id sender m a)
        = send_outcome w (.returned 0 f' sender.counted) := by
      simp only [step, fusionee_send_message, lookup_fusionee_head,
        fusionee_send_message_again_eq, h1]
    rw [e]
    exact ⟨rfl, h2⟩
  | get_messages pid buf_size accessible block => exact absurd hgood (by simp [Op.good_send])
  | get_messages_wake buf_size accessible => exact absurd hgood (by simp [Op.good_send])
  | poll => exact absurd hgood (by simp [Op.good_send])
  | wait_processing t mid => exact absurd hgood (by simp [Op.good_send])

theorem run_good_sends (ops : List Op) : ∀ (w : World), w.fusionee.invariant →
    (∀ op ∈ ops, op.good_send) → w.fusionee.packets.length + ops.length ≤ 11 →
    (run w ops).2 = List.replicate ops.length (Event.send_returned 0) ∧
    (run w ops).1.fusionee.packets.length ≤ w.fusionee.packets.length + ops.length := by
  induction ops with
  | nil => intro w _ _ _; exact ⟨rfl, Nat.le_refl _⟩
  | cons op ops ih =>
    intro w hinv hgood hlen
    simp only [List.length_cons] at hlen
    obtain ⟨h1, h2⟩ := step_good_send w op hinv (hgood op (List.mem_cons_self _ _)) (by omega)
    obtain ⟨h3, h4⟩ := ih (step w op).1 (step_invariant w op hinv)
      (fun o ho => hgood o (List.mem_cons_of_mem _ ho)) (by omega)
    simp only [run, List.length_cons, List.replicate_succ]
    refine ⟨by rw [h1, h3], by omega⟩

/-- Counterexample to C4 as stated: eleven sends of messages that each fill a whole packet,
to a fusionee just created.  Every send opens a packet of its own, the ready fifo holds
ten packets before the eleventh send, and the eleventh send returns 0 as the ten
before it: it does not sleep. -/
theorem eleventh_send_does_not_block :
    (run (initial_world 1 1) (List.replicate 11 (Op.send Sender.null full_message alloc_ok))).2
      = List.replicate 11 (Event.send_returned 0) ∧
    (run (initial_world 1 1)
      (List.replicate 11 (Op.send Sender.null full_message alloc_ok))).2.getLast?
      ≠ some Event.send_sleeping ∧
    (run (initial_world 1 1)
      (List.replicate 10 (Op.send Sender.null full_message alloc_ok))).1.fusionee.packets.length
      = 10 := by
  decide

/-- C4, amended: eleven consecutive sends that nothing makes fail, to a fusionee just
created and with no other operation in between, all return 0, none sleeps, and the
ready fifo then holds at most eleven packets.  If it holds eleven, a further send
sleeps at the backpressure check with nothing changed; and after a call of
`fusionee_get_messages` that returns having taken at least one packet off the ready
fifo, that send does not sleep. -/
theorem eleven_sends_then_backpressure (pid id : Nat) (ops : List Op)
    (hlen : ops.length = 11) (hgood : ∀ op ∈ ops, op.good_send) :
    (run (initial_world pid id) ops).2 = List.replicate 11 (Event.send_returned 0) ∧
    (run (initial_world pid id) ops).1.fusionee.packets.length ≤ 11 ∧
    ∀ (sender : Sender) (m : Message) (a : Alloc),
      ((run (initial_world pid id) ops).1.fusionee.packets.length = 11 →
        fusionee_send_message2 sender m a (run (initial_world pid id) ops).1.fusionee []
          = .sleeping (run (initial_world pid id) ops).1.fusionee sender) ∧
      ∀ (pid2 : Nat) (c : Int) (accessible : Nat) (block : Bool) (wakes : List (Wake World))
        (ret : Int) (out : List Nat) (w' : World),
        fusionee_get_messages pid2 c accessible block (run (initial_world pid id) ops).1 wakes
          = .returned ret out w' →
        w'.fusionee.packets.length < (run (initial_world pid id) ops).1.fusionee.packets.length →
        ∀ ks, fusionee_send_message2 sender m a w'.fusionee ks
                = send_locked sender w'.fusionee m a ∧
              ∀ f s, send_locked sender w'.fusionee m a ≠ .sleeping f s := by
  have hinv0 : (initial_world pid id).fusionee.invariant := by
    refine ⟨?_, ?_, ?_, ?_⟩ <;> simp [initial_world, fusionee_new]
  obtain ⟨h1, h2⟩ := run_good_sends ops (initial_world pid id) hinv0 hgood
    (by rw [hlen]; simp [initial_world, fusionee_new])
  rw [hlen] at h1
  have h2' : (run (initial_world pid id) ops).1.fusionee.packets.length ≤ 11 := by
    rw [hlen] at h2
    simpa [initial_world, fusionee_new] using h2
  refine ⟨h1, h2', ?_⟩
  intro sender m a
  constructor
  · intro h11
    unfold fusionee_send_message2
    simp [h11]
  · intro pid2 c accessible block wakes ret out w' _ hless ks
    have hle : ¬ w'.fusionee.packets.length > 10 := by omega
    refine ⟨?_, send_locked_not_sleeping sender w'.fusionee m a⟩
    cases ks with
    | nil => unfold fusionee_send_message2; rw [if_neg hle]
    | cons k ks => rw [fusionee_send_message2]; rw [if_neg hle]

theorem good_send_full : good_send full_message alloc_ok :=
  ⟨by decide, by simp [alloc_ok], ⟨fun _ => Nat.le_refl _, fun e h => by simp [Message.args, full_message] at h⟩,
    Or.inl rfl⟩

theorem good_send_small : good_send small_message alloc_ok :=
  ⟨by decide, by simp [alloc_ok], ⟨fun _ => Nat.le_refl _, fun e h => by simp [Message.args, small_message] at h⟩,
    Or.inl rfl⟩

theorem eleven_full_sends_good : ∀ op ∈ eleven_full_sends, op.good_send := by
  intro op hop
  rw [List.eq_of_mem_replicate hop]
  exact good_send_full

theorem one_sent_world_reachable : Reachable one_sent_world :=
  ⟨1, 1, [Op.send Sender.null small_message alloc_ok], rfl⟩

theorem eleven_sends_then_backpressure_witness :
    eleven_full_sends.length = 11 ∧ (∀ op ∈ eleven_full_sends, op.good_send) ∧
    (run (initial_world 1 1) eleven_full_sends).2 = List.replicate 11 (Event.send_returned 0) ∧
    fusionee_send_message2 Sender.null small_message alloc_ok full_fusionee []
      = .sleeping full_fusionee Sender.null :=
  ⟨rfl, eleven_full_sends_good,
    (eleven_sends_then_backpressure 1 1 eleven_full_sends rfl eleven_full_sends_good).1,
    ((eleven_sends_then_backpressure 1 1 eleven_full_sends rfl eleven_full_sends_good).2.2
      Sender.null small_message alloc_ok).1 (by decide)⟩

theorem send_sleeps_iff_more_than_ten_witness :
    lookup_fusionee [full_fusionee] 1 = some full_fusionee ∧
    full_fusionee.packets.length > 10 ∧
    fusionee_send_message2 Sender.self call_message alloc_ok full_fusionee []
      = .sleeping full_fusionee Sender.self ∧
    fusionee_send_message [full_fusionee] Sender.self 1 call_message alloc_ok []
      = some (.sleeping full_fusionee Sender.self) :=
  ⟨rfl, by decide,
    ((send_sleeps_iff_more_than_ten Sender.self call_message alloc_ok full_fusionee
      [full_fusionee] 1 rfl).1 (by decide)).1,
    ((send_sleeps_iff_more_than_ten Sender.self call_message alloc_ok full_fusionee
      [full_fusionee] 1 rfl).1 (by decide)).2.1⟩

/-- Two sends at concrete inputs.  A small message of type 0 without sender to a
fusionee just created: the exception does not apply and the packet that received the
frame is flush-marked.  A call without serial from a present sender to the fusionee
that has this packet, flush-marked, as its tail: the exception applies, the frame is
written behind the first and the flag of the packet is what it was. -/
theorem send_flush_mark_witness :
    lookup_fusionee [(initial_world 1 1).fusionee] 1 = some (initial_world 1 1).fusionee ∧
    fusionee_send_message2 Sender.null small_message alloc_ok (initial_world 1 1).fusionee []
      = .returned 0 one_sent_world.fusionee Sender.null ∧
    ¬ (small_message.msg_type = FMT_CALL ∧ small_message.serial = 0 ∧
        Sender.null.present = true) ∧
    (∃ f0 f1 packet received,
      send_entry (initial_world 1 1).fusionee [] = some f0 ∧
      f0 = (initial_world 1 1).fusionee ∧
      Fusionee_GetPacket f0
        (sizeof_FusionReadMessage + small_message.msg_size + small_message.extra_size)
        alloc_ok.packet = some (f1, some packet) ∧
      one_sent_world.fusionee.packets = f1.packets.dropLast ++ [received] ∧
      received.flush = true) ∧
    lookup_fusionee [one_sent_world.fusionee] 1 = some one_sent_world.fusionee ∧
    fusionee_send_message [one_sent_world.fusionee] Sender.self 1 call_message alloc_ok []
      = some (.returned 0
          (step one_sent_world (Op.send Sender.self call_message alloc_ok)).1.fusionee
          Sender.self) ∧
    (call_message.msg_type = FMT_CALL ∧ call_message.serial = 0 ∧
      Sender.self.present = true) ∧
    (∃ f0 f1 packet received,
      send_entry one_sent_world.fusionee [] = some f0 ∧
      f0 = one_sent_world.fusionee ∧
      Fusionee_GetPacket f0
        (sizeof_FusionReadMessage + call_message.msg_size + call_message.extra_size)
        alloc_ok.packet = some (f1, some packet) ∧
      (step one_sent_world (Op.send Sender.self call_message alloc_ok)).1.fusionee.packets
        = f1.packets.dropLast ++ [received] ∧
      received.flush = packet.flush) ∧
    one_sent_world.fusionee.packets.map (fun p => (p.size, p.flush)) = [(20, true)] ∧
    (step one_sent_world (Op.send Sender.self call_message
      alloc_ok)).1.fusionee.packets.map (fun p => (p.size, p.flush)) = [(40, true)] ∧
    one_call_world.fusionee.packets.map (fun p => (p.size, p.flush)) = [(20, false)] := by
  have hx1 : ¬ (small_message.msg_type = FMT_CALL ∧ small_message.serial = 0 ∧
      Sender.null.present = true) := by decide
  have hx2 : call_message.msg_type = FMT_CALL ∧ call_message.serial = 0 ∧
      Sender.self.present = true := by decide
  obtain ⟨a0, a1, ap, _, ar, a2, a3, a4, _, _, _, a5, _, _, a6, _, _⟩ :=
    send_flush_mark Sender.null small_message alloc_ok (initial_world 1 1).fusionee
      one_sent_world.fusionee Sender.null [] [(initial_world 1 1).fusionee] 1 rfl (Or.inl rfl)
  obtain ⟨b0, b1, bp, _, br, b2, b3, b4, _, _, _, b5, _, _, _, b6, _⟩ :=
    send_flush_mark Sender.self call_message alloc_ok one_sent_world.fusionee
      (step one_sent_world (Op.send Sender.self call_message alloc_ok)).1.fusionee
      Sender.self [] [one_sent_world.fusionee] 1 rfl (Or.inr rfl)
  exact ⟨rfl, rfl, hx1, ⟨a0, a1, ap, ar, a2, a3 (by decide), a4, a5, a6 hx1⟩,
    rfl, rfl, hx2, ⟨b0, b1, bp, br, b2, b3 (by decide), b4, b5, b6 hx2⟩,
    by decide, by decide, by decide⟩

/-- A send that sleeps at the backpressure check and is woken after the ready fifo was
emptied runs with the fusionee it finds then, not with the one it was called with. -/
theorem example_send_entry :
    (send_entry full_fusionee []).isNone = true ∧
    ((send_entry full_fusionee [wake_drained]).map (fun f => f.packets.length)) = some 0 ∧
    ((send_entry (initial_world 1 1).fusionee [wake_drained]).map
      (fun f => f.packets.length)) = some 0 ∧
    ((send_entry one_sent_world.fusionee [wake_drained]).map
      (fun f => f.packets.length)) = some 1 := by
  decide

theorem get_messages_of_flushed_head_witness :
    Reachable one_sent_world ∧ ((100 : Int) ≤ ((100 : Nat) : Int)) ∧
    one_sent_world.fusionee.packets
      = one_sent_world.fusionee.packets.headD example_packet :: [] ∧
    (one_sent_world.fusionee.packets.headD example_packet).flush = true ∧
    ∃ w' k, fusionee_get_messages 5 100 100 false one_sent_world []
              = .returned (total_size (one_sent_world.fusionee.packets.take k))
                  (all_bytes (one_sent_world.fusionee.packets.take k)) w' ∧
        w'.fusionee.packets = one_sent_world.fusionee.packets.drop k ∧ 0 < k :=
  ⟨one_sent_world_reachable, by decide, rfl, rfl,
    match (get_messages_of_flushed_head one_sent_world one_sent_world_reachable 5 100 100
      (by decide) false [] (one_sent_world.fusionee.packets.headD example_packet) []
      rfl rfl).2 (by decide) with
    | ⟨w', k, h1, h2, h3, _⟩ => ⟨w', k, h1, h2, h3⟩⟩

theorem get_messages_nonblocking_witness :
    Reachable (initial_world 1 1) ∧
    ∃ w', fusionee_get_messages 5 100 100 false (initial_world 1 1) []
        = .returned (-EAGAIN) [] w' ∧
      w'.fusionee.packets = (initial_world 1 1).fusionee.packets :=
  ⟨⟨1, 1, [], rfl⟩,
    match (get_messages_nonblocking (initial_world 1 1) ⟨1, 1, [], rfl⟩ 5 100 100 []).2
      (Or.inl rfl) with
    | ⟨w', h1, h2, _⟩ => ⟨w', h1, h2⟩⟩

theorem wait_processing_returns_iff_no_frame_witness :
    Reachable one_sent_world ∧
    lock_fusionee [one_sent_world.fusionee] 1 = some (one_sent_world.fusionee, []) ∧
    ((∃ dev', fusionee_wait_processing 1 0 7 [one_sent_world.fusionee] [] = .returned 0 dev') ↔
      ∀ p ∈ one_sent_world.fusionee.packets ++ one_sent_world.fusionee.prev_packets,
        ¬ p.has_frame 0 7) :=
  ⟨one_sent_world_reachable, rfl,
    (wait_processing_returns_iff_no_frame one_sent_world one_sent_world_reachable
      [one_sent_world.fusionee] [] 1 0 7 rfl).1⟩

/-- On the example world the barrier finds the frame (type 0, id 7) that was sent and
finds no frame (type 0, id 8). -/
theorem example_barrier_search :
    (wait_processing_search one_sent_world.fusionee 0 7).isSome = true ∧
    (wait_processing_search one_sent_world.fusionee 0 8).isSome = false := by
  decide

theorem map_range_add {α : Type} (f : Nat → α) (a b : Nat) :
    (List.range (a + b)).map f = (List.range a).map f ++ (List.range b).map (fun i => f (a + i)) := by
  rw [List.range_add, List.map_append, List.map_map]
  rfl

theorem store32_bytes (buf : Mem) (off v : Nat) :
    (List.range 4).map (fun i => store32 buf off v (off + i)) = le32 v := by
  have h0 : store32 buf off v (off + 0) = v % 256 := by simp [store32]
  have h1 : store32 buf off v (off + 1) = v / 256 % 256 := by simp [store32]
  have h2 : store32 buf off v (off + 2) = v / 65536 % 256 := by simp [store32]
  have h3 : store32 buf off v (off + 3) = v / 16777216 % 256 := by simp [store32]
  have hr : List.range 4 = [0, 1, 2, 3] := by decide
  rw [hr]
  simp only [List.map_cons, List.map_nil, h0, h1, h2, h3, le32]

theorem header_stored_bytes (buf : Mem) (off t mid ch sz : Nat) :
    (List.range 16).map (fun i => header_stored buf off t mid ch sz (off + i))
      = le32 t ++ (le32 mid ++ (le32 ch ++ le32 sz)) := by
  have e : (16 : Nat) = 4 + (4 + (4 + 4)) := rfl
  rw [e, map_range_add, map_range_add, map_range_add]
  unfold header_stored
  congr 1
  · rw [← store32_bytes buf off t]
    apply List.map_congr_left
    intro i hi
    have hi := List.mem_range.1 hi
    rw [store32_outside _ _ _ _ (by omega), store32_outside _ _ _ _ (by omega),
      store32_outside _ _ _ _ (by omega)]
  · congr 1
    · rw [← store32_bytes (store32 buf off t) (off + 4) mid]
      apply List.map_congr_left
      intro i hi
      have hi := List.mem_range.1 hi
      rw [store32_outside _ _ _ _ (by omega), store32_outside _ _ _ _ (by omega)]
      congr 1
      omega
    · congr 1
      · rw [← store32_bytes (store32 (store32 buf off t) (off + 4) mid) (off + 8) ch]
        apply List.map_congr_left
        intro i hi
        have hi := List.mem_range.1 hi
        rw [store32_outside _ _ _ _ (by omega)]
        congr 1
        omega
      · rw [← store32_bytes (store32 (store32 (store32 buf off t) (off + 4) mid) (off + 8) ch)
          (off + 12) sz]
        apply List.map_congr_left
        intro i hi
        congr 1
        omega

/-- The bytes that a successful `Packet_Write` leaves at and above the old used length. -/
theorem Packet_Write_bytes {p p1 : Packet} {t mid ch n m : Nat} {d : UserPtr}
    {e : Option UserPtr} {fu : Bool}
    (h : Packet_Write p t mid ch d n e m fu = some (0, p1)) :
    (∀ i, i < 16 → p1.buf (p.size + i) = header_stored p.buf p.size t mid ch (n + m) (p.size + i)) ∧
    (∀ i, i < n → p1.buf (p.size + (16 + i)) = d.mem i) ∧
    (∀ ex, e = some ex → ∀ i, i < m → p1.buf (p.size + (16 + (n + i))) = ex.mem i) ∧
    (∀ i, i < (16 + n + m + 3) / 4 * 4 - (16 + n + m) →
      p1.buf (p.size + (16 + (n + (m + i)))) = 0) := by
  obtain ⟨_, _, hbuf, _⟩ := Packet_Write_frame h
  unfold Packet_Write at h
  simp only [sizeof_FusionReadMessage] at h
  split at h
  · split at h
    · simp [EFAULT] at h
    · rename_i hc1
      split at h
      · simp [EFAULT] at h
      · rename_i hc2
        simp only [Option.some.injEq, Prod.mk.injEq, true_and] at h
        subst h
        simp only []
        have hc1' : (payload_copied (header_stored p.buf p.size t mid ch (n + m))
            (p.size + 16) d n fu).1 = 0 := by simpa using hc1
        have hc2' : (extra_copied (payload_copied (header_stored p.buf p.size t mid ch (n + m))
            (p.size + 16) d n fu).2 (p.size + 16 + n) e m).1 = 0 := by simpa using hc2
        have hpay : ∀ i, i < n → (payload_copied (header_stored p.buf p.size t mid ch (n + m))
            (p.size + 16) d n fu).2 (p.size + (16 + i)) = d.mem i := by
          intro i hi
          unfold payload_copied copy_from_user at hc1' ⊢
          split
          · rename_i hfu
            simp only [hfu, if_true] at hc1'
            have hmin : min n d.accessible = n := by omega
            simp only [hmin]
            rw [memcpy_inside _ _ _ _ _ (by omega) (by omega)]
            congr 1; omega
          · simp only []
            rw [memcpy_inside _ _ _ _ _ (by omega) (by omega)]
            congr 1; omega
        have hext : ∀ ex, e = some ex → ∀ i, i < m →
            (extra_copied (payload_copied (header_stored p.buf p.size t mid ch (n + m))
              (p.size + 16) d n fu).2 (p.size + 16 + n) e m).2 (p.size + (16 + (n + i)))
              = ex.mem i := by
          intro ex hex i hi
          subst hex
          unfold extra_copied copy_from_user at hc2' ⊢
          have hm0 : m ≠ 0 := by omega
          simp only [hm0, ne_eq, not_false_eq_true, if_true] at hc2' ⊢
          have hmin : min m ex.accessible = m := by omega
          simp only [hmin]
          rw [memcpy_inside _ _ _ _ _ (by omega) (by omega)]
          congr 1; omega
        refine ⟨fun i hi => hbuf _ (by omega), ?_, ?_, ?_⟩
        · intro i hi
          rw [zero_padded_outside _ _ _ _ (Or.inl (by omega)),
            extra_copied_outside _ _ _ _ _ (Or.inl (by omega))]
          exact hpay i hi
        · intro ex hex i hi
          rw [zero_padded_outside _ _ _ _ (Or.inl (by omega))]
          exact hext ex hex i hi
        · intro i hi
          unfold zero_padded
          have : p.size + (16 + n + m) ≤ p.size + (16 + (n + (m + i))) ∧
              p.size + (16 + (n + (m + i))) < p.size + (16 + n + m + 3) / 4 * 4 := by
            omega
          simp only [this, and_self, if_true]
  · simp at h

/-- A successful `Packet_Write` appends the encoding of the frame to the bytes of the
packet. -/
theorem Packet_write_appends {p p1 : Packet} {a : WriteArgs} (h : p.write a = some (0, p1))
    (hextra : a.extra_ok) : p1.bytes = p.bytes ++ a.frame_bytes := by
  have hw : Packet_Write p a.type a.msg_id a.channel a.msg_data a.msg_size a.extra_data
      a.extra_size a.from_user = some (0, p1) := h
  obtain ⟨_, _, _, _, _, hsize, _⟩ := Packet_Write_frame hw
  have hsize := hsize rfl
  obtain ⟨b1, b2, b3, b4⟩ := Packet_Write_bytes hw
  have hbelow := Packet_Write_below hw
  simp only [sizeof_FusionReadMessage] at hsize
  have hal : (16 + a.msg_size + a.extra_size + 3) / 4 * 4
      = 16 + (a.msg_size + (a.extra_size +
          ((16 + a.msg_size + a.extra_size + 3) / 4 * 4 - (16 + a.msg_size + a.extra_size)))) := by
    omega
  unfold Packet.bytes
  rw [hsize, map_range_add]
  congr 1
  · exact List.map_congr_left (fun i hi => hbelow i (List.mem_range.1 hi))
  · rw [hal, map_range_add, map_range_add, map_range_add]
    unfold WriteArgs.frame_bytes
    simp only [sizeof_FusionReadMessage]
    have e1 : (List.range 16).map (fun i => p1.buf (p.size + i))
        = le32 a.type ++ (le32 a.msg_id ++ (le32 a.channel ++ le32 (a.msg_size + a.extra_size))) := by
      rw [← header_stored_bytes p.buf p.size]
      exact List.map_congr_left (fun i hi => b1 i (List.mem_range.1 hi))
    have e2 : (List.range a.msg_size).map (fun i => p1.buf (p.size + (16 + i)))
        = (List.range a.msg_size).map a.msg_data.mem :=
      List.map_congr_left (fun i hi => b2 i (List.mem_range.1 hi))
    have e3 : (List.range a.extra_size).map (fun i => p1.buf (p.size + (16 + (a.msg_size + i))))
        = extra_bytes a.extra_data a.extra_size := by
      cases hex : a.extra_data with
      | none =>
        have := hextra hex
        simp [this, extra_bytes]
      | some ex =>
        exact List.map_congr_left (fun i hi => b3 ex hex i (List.mem_range.1 hi))
    have e4 : (List.range ((16 + a.msg_size + a.extra_size + 3) / 4 * 4
          - (16 + a.msg_size + a.extra_size))).map
          (fun i => p1.buf (p.size + (16 + (a.msg_size + (a.extra_size + i)))))
        = List.replicate ((16 + a.msg_size + a.extra_size + 3) / 4 * 4
          - (16 + a.msg_size + a.extra_size)) 0 := by
      rw [List.eq_replicate_iff]
      refine ⟨by simp, ?_⟩
      intro b hb
      simp only [List.mem_map, List.mem_range] at hb
      obtain ⟨i, hi, hb⟩ := hb
      rw [← hb]; exact b4 i hi
    rw [e1, e2, e3, e4]
    all_goals rfl

theorem all_bytes_append (l1 l2 : List Packet) :
    all_bytes (l1 ++ l2) = all_bytes l1 ++ all_bytes l2 := by
  simp [all_bytes]

theorem all_callbacks_append (l1 l2 : List Packet) :
    all_callbacks (l1 ++ l2) = all_callbacks l1 ++ all_callbacks l2 := by
  simp [all_callbacks]

theorem all_bytes_singleton (p : Packet) : all_bytes [p] = p.bytes := by
  simp [all_bytes]

theorem all_callbacks_singleton (p : Packet) : all_callbacks [p] = p.callbacks := by
  simp [all_callbacks]

theorem flush_last_bytes (l : List Packet) :
    all_bytes (flush_last l) = all_bytes l ∧ all_callbacks (flush_last l) = all_callbacks l := by
  rcases List.eq_nil_or_concat l with h | ⟨init, q, h⟩
  · rw [h]; exact ⟨rfl, rfl⟩
  · rw [List.concat_eq_append] at h
    rw [h, flush_last_snoc]
    constructor
    · rw [all_bytes_append, all_bytes_append, all_bytes_singleton, all_bytes_singleton]
      rfl
    · rw [all_callbacks_append, all_callbacks_append, all_callbacks_singleton,
        all_callbacks_singleton]

theorem Packet.is_reset.bytes {p : Packet} (h : p.is_reset) :
    p.bytes = [] ∧ p.callbacks = [] := by
  obtain ⟨h1, _, h3⟩ := h
  exact ⟨by simp [Packet.bytes, h1], h3⟩

/-- With the invariant, `Fusionee_GetPacket` changes neither the bytes nor the callbacks
held in the ready fifo, and leaves `prev_packets` alone. -/
theorem Fusionee_GetPacket_content {f f1 : Fusionee} {size : Nat} {alloc : Option Mem}
    {r : Option Packet} (hinv : f.invariant)
    (h : Fusionee_GetPacket f size alloc = some (f1, r)) :
    all_bytes f1.packets = all_bytes f.packets ∧
    all_callbacks f1.packets = all_callbacks f.packets ∧
    f1.prev_packets = f.prev_packets := by
  obtain ⟨_, h1 | h2⟩ := Fusionee_GetPacket_spec h
  · obtain ⟨_, _, _, _, hf, _⟩ := h1
    rw [hf]; exact ⟨rfl, rfl, rfl⟩
  · obtain ⟨_, hr, hf⟩ := h2
    have hnew : all_bytes r.toList = [] ∧ all_callbacks r.toList = [] := by
      cases hr' : r with
      | none => exact ⟨rfl, rfl⟩
      | some q =>
        rw [hr'] at hr
        have hreset : q.is_reset := by
          rcases acquire_packet_some hr.symm with hq | hq
          · exact hinv.2.2.2 q (by rw [hq]; exact List.mem_cons_self _ _)
          · exact hq.2.2
        simp only [Option.toList, all_bytes_singleton, all_callbacks_singleton]
        exact hreset.bytes
    rw [hf]
    refine ⟨?_, ?_, rfl⟩
    · show all_bytes (flush_last f.packets ++ r.toList) = _
      rw [all_bytes_append, hnew.1, List.append_nil]
      exact (flush_last_bytes _).1
    · show all_callbacks (flush_last f.packets ++ r.toList) = _
      rw [all_callbacks_append, hnew.2, List.append_nil]
      exact (flush_last_bytes _).2

theorem Packet_bytes_congr {p q : Packet} (hs : q.size = p.size)
    (hb : ∀ i, i < p.size → q.buf i = p.buf i) : q.bytes = p.bytes := by
  unfold Packet.bytes
  rw [hs]
  exact List.map_congr_left (fun i hi => hb i (List.mem_range.1 hi))

/-- What a returning send does to the content of the fifos: a send that returns 0 appends
the encoding of its frame to the bytes of the ready fifo and its callback entry, if
it has a callback, to the callbacks of the ready fifo; a send that returns an error
changes neither. -/
theorem send_locked_content {sender : Sender} {f : Fusionee} {m : Message} {a : Alloc}
    {ret : Int} {f' : Fusionee} {s' : Sender} (hinv : f.invariant)
    (h : send_locked sender f m a = .returned ret f' s') :
    f'.prev_packets = f.prev_packets ∧
    (ret = 0 → (m.args.extra_ok →
        all_bytes f'.packets = all_bytes f.packets ++ m.args.frame_bytes) ∧
      all_callbacks f'.packets
        = all_callbacks f.packets ++ (if m.callback ≠ 0 then [m.entry] else [])) ∧
    (ret ≠ 0 → all_bytes f'.packets = all_bytes f.packets ∧
      all_callbacks f'.packets = all_callbacks f.packets) := by
  obtain ⟨f1, r, hg, hcase⟩ := send_locked_returned h
  obtain ⟨c1, c2, c3⟩ := Fusionee_GetPacket_content hinv hg
  have hE : (-ENOMEM : Int) ≠ 0 := by simp [ENOMEM]
  rcases hcase with ⟨_, hret, hf, _⟩ | ⟨packet, ret1, p1, hr, hw, hcase⟩
  · rw [hf, hret]
    exact ⟨c3, fun h0 => absurd h0 hE, fun _ => ⟨c1, c2⟩⟩
  · subst hr
    have htail := Fusionee_GetPacket_tail hg
    have hb1 : all_bytes f1.packets = all_bytes f1.packets.dropLast ++ packet.bytes := by
      conv => lhs; rw [htail]
      rw [all_bytes_append, all_bytes_singleton]
    have hc1 : all_callbacks f1.packets
        = all_callbacks f1.packets.dropLast ++ packet.callbacks := by
      conv => lhs; rw [htail]
      rw [all_callbacks_append, all_callbacks_singleton]
    obtain ⟨_, hcbs, _, _, hsame, _, _⟩ := Packet_Write_frame hw
    have hbelow := Packet_Write_below hw
    rcases hcase with ⟨hne, hret, _, hf⟩ | ⟨_, _, _, hret, _, hf⟩ | ⟨h0, _, hret, _, hf⟩
    · rw [hf, hret]
      refine ⟨c3, fun h0 => absurd h0 hne, fun _ => ?_⟩
      simp only [all_bytes_append, all_callbacks_append, all_bytes_singleton,
        all_callbacks_singleton]
      rw [Packet_bytes_congr (hsame hne) hbelow, hcbs, ← hb1, ← hc1]
      exact ⟨c1, c2⟩
    · rw [hf, hret]
      refine ⟨c3, fun h0 => absurd h0 hE, fun _ => ?_⟩
      simp only [all_bytes_append, all_callbacks_append, all_bytes_singleton,
        all_callbacks_singleton]
      have e : ({ p1 with size := packet.size } : Packet).bytes = packet.bytes :=
        Packet_bytes_congr rfl hbelow
      rw [e, hcbs, ← hb1, ← hc1]
      exact ⟨c1, c2⟩
    · rw [hf, hret]
      subst h0
      refine ⟨c3, fun _ => ⟨?_, ?_⟩, fun hne => absurd rfl hne⟩
      · intro hextra
        simp only [all_bytes_append, all_bytes_singleton]
        have e0 : packet.write m.args = some (0, p1) := hw
        have e : (sent_packet sender m p1).bytes = packet.bytes ++ m.args.frame_bytes :=
          (Packet_bytes_congr (p := p1) rfl (fun _ _ => rfl)).trans
            (Packet_write_appends e0 hextra)
        rw [e, ← List.append_assoc, ← hb1, c1]
      · simp only [all_callbacks_append, all_callbacks_singleton]
        have e : (sent_packet sender m p1).callbacks
            = packet.callbacks ++ (if m.callback ≠ 0 then [m.entry] else []) := by
          simp only [sent_packet, hcbs]
        rw [e, ← List.append_assoc, ← hc1, c2]

theorem all_callbacks_cons (p : Packet) (ps : List Packet) :
    all_callbacks (p :: ps) = p.callbacks ++ all_callbacks ps := by
  simp [all_callbacks]

theorem all_callbacks_filter (ps : List Packet) :
    all_callbacks (ps.filter (fun p => p.callbacks.length ≠ 0)) = all_callbacks ps := by
  induction ps with
  | nil => rfl
  | cons p ps ih =>
    rw [List.filter_cons]
    by_cases h : p.callbacks.length ≠ 0
    · have h' : decide (p.callbacks.length ≠ 0) = true := by simpa using h
      rw [if_pos h', all_callbacks_cons, all_callbacks_cons, ih]
    · have h' : ¬ (decide (p.callbacks.length ≠ 0) = true) := by simpa using h
      have h0 : p.callbacks = [] := by simpa using h
      rw [if_neg h', all_callbacks_cons, ih, h0, List.nil_append]

/-- The copy loop in full: it takes `k` packets off the ready fifo, stores their bytes in
order, puts those with callbacks on `prev_packets`; only when a store faults is
anything else stored (a part of the next packet). -/
theorem get_messages_copy_out (accessible : Nat) (packets : List Packet) :
    ∀ (f : Fusionee) (written buf_size : Int) (out : List Nat),
    ∃ k tail,
      (get_messages_copy accessible packets f written buf_size out).2.1.packets
        = packets.drop k ∧
      (get_messages_copy accessible packets f written buf_size out).2.1.prev_packets
        = f.prev_packets ++ (packets.take k).filter (fun p => p.callbacks.length ≠ 0) ∧
      (get_messages_copy accessible packets f written buf_size out).2.2
        = out ++ all_bytes (packets.take k) ++ tail ∧
      ((get_messages_copy accessible packets f written buf_size out).1 ≠ -EFAULT →
        0 ≤ written → tail = []) := by
  induction packets with
  | nil =>
    intro f written buf_size out
    refine ⟨0, [], rfl, by simp [get_messages_copy], by simp [get_messages_copy, all_bytes],
      fun _ _ => rfl⟩
  | cons p ps ih =>
    intro f written buf_size out
    by_cases hgo : copy_goes_on accessible p buf_size out
    · rw [get_messages_copy_step _ _ _ _ _ _ _ hgo]
      obtain ⟨k, tail, h1, h2, h3, h4⟩ :=
        ih (after_copy f p) (written + p.size) (buf_size - p.size) (out ++ p.bytes)
      obtain ⟨_, g2, _⟩ := after_copy_fields f p
      refine ⟨k + 1, tail, h1, ?_, ?_, fun hne hw => h4 hne (by omega)⟩
      · rw [h2, g2, List.take_succ_cons, List.append_assoc, ← List.filter_append]
        rfl
      · rw [h3, List.take_succ_cons, all_bytes_cons]
        simp only [List.append_assoc]
    · rw [get_messages_copy]
      by_cases hfl : p.flush = true
      · rw [if_pos hfl]
        simp only []
        by_cases hbig : (p.size : Int) > buf_size
        · rw [if_pos hbig]
          by_cases hw0 : written = 0
          · rw [if_pos hw0]
            exact ⟨0, [], rfl, by simp, by simp [all_bytes], fun _ _ => rfl⟩
          · rw [if_neg hw0]
            exact ⟨0, [], rfl, by simp, by simp [all_bytes], fun _ _ => rfl⟩
        · rw [if_neg hbig]
          have hfault : out.length + p.size > accessible := by
            by_contra hc
            exact hgo ⟨hfl, by omega, by omega⟩
          rw [if_pos hfault]
          exact ⟨0, p.bytes.take (accessible - out.length), rfl, by simp, by simp [all_bytes],
            fun hne _ => absurd rfl hne⟩
      · rw [if_neg hfl]
        exact ⟨0, [], rfl, by simp, by simp [all_bytes], fun _ _ => rfl⟩

/-- From the copy loop to the return of `fusionee_get_messages`, in full. -/
theorem get_messages_finish_effect (buf_size : Int) (accessible : Nat)
    (snapshot : List Packet) (w : World) :
    ∃ k tail,
      (get_messages_outcome (get_messages_finish buf_size accessible snapshot w)).2.out
        = all_bytes (w.fusionee.packets.take k) ++ tail ∧
      ((∀ out, (get_messages_outcome (get_messages_finish buf_size accessible snapshot w)).2
          ≠ Event.get_messages_returned (-EFAULT) out) → tail = []) ∧
      (get_messages_outcome (get_messages_finish buf_size accessible snapshot w)).1.fusionee.packets
        = w.fusionee.packets.drop k ∧
      (get_messages_outcome
          (get_messages_finish buf_size accessible snapshot w)).1.fusionee.prev_packets
        = w.fusionee.prev_packets
            ++ (w.fusionee.packets.take k).filter (fun p => p.callbacks.length ≠ 0) ∧
      (get_messages_outcome (get_messages_finish buf_size accessible snapshot w)).1.log
        = w.log ++ callbacks_to_run snapshot := by
  obtain ⟨k, tail, h1, h2, h3, h4⟩ :=
    get_messages_copy_out accessible w.fusionee.packets w.fusionee 0 buf_size []
  obtain ⟨f1, f2, _, _, _, _, _, f8, _⟩ := flush_packets_fields snapshot
    (get_messages_copy accessible w.fusionee.packets w.fusionee 0 buf_size []).2.1 w.log
  refine ⟨k, tail, ?_, ?_, ?_, ?_, ?_⟩
  · simp only [get_messages_finish, get_messages_outcome, Event.out]
    rw [h3]; simp
  · intro hne
    apply h4 _ (le_refl _)
    intro hc
    apply hne (get_messages_copy accessible w.fusionee.packets w.fusionee 0 buf_size []).2.2
    simp only [get_messages_finish, get_messages_outcome]
    rw [hc]
  · simp only [get_messages_finish, get_messages_outcome]
    rw [f1, h1]
  · simp only [get_messages_finish, get_messages_outcome]
    rw [f2, h2]
  · simp only [get_messages_finish, get_messages_outcome]
    exact f8

/-- A call of `fusionee_get_messages` woken in its first loop, or entering it with an
empty snapshot, in full. -/
theorem get_messages_wait_effect (buf_size : Int) (accessible : Nat) (block : Bool)
    (w : World) :
    ∃ k tail,
      (get_messages_outcome (get_messages_wait buf_size accessible block w [])).2.out
        = all_bytes (w.fusionee.packets.take k) ++ tail ∧
      ((∀ out, (get_messages_outcome (get_messages_wait buf_size accessible block w [])).2
          ≠ Event.get_messages_returned (-EFAULT) out) → tail = []) ∧
      (get_messages_outcome (get_messages_wait buf_size accessible block w [])).1.fusionee.packets
        = w.fusionee.packets.drop k ∧
      (get_messages_outcome
          (get_messages_wait buf_size accessible block w [])).1.fusionee.prev_packets
        = w.fusionee.prev_packets
            ++ (w.fusionee.packets.take k).filter (fun p => p.callbacks.length ≠ 0) ∧
      (get_messages_outcome (get_messages_wait buf_size accessible block w [])).1.log
        = w.log := by
  unfold get_messages_wait
  split
  · obtain ⟨k, tail, h1, h2, h3, h4, h5⟩ := get_messages_finish_effect buf_size accessible [] w
    exact ⟨k, tail, h1, h2, h3, h4, by rw [h5]; simp [callbacks_to_run]⟩
  · split
    · exact ⟨0, [], rfl, fun _ => rfl, rfl, by simp [get_messages_outcome], rfl⟩
    · exact ⟨0, [], rfl, fun _ => rfl, rfl, by simp [get_messages_outcome], rfl⟩

/-- A call of `fusionee_get_messages` up to its return or its sleep, in full. -/
theorem fusionee_get_messages_effect (pid : Nat) (buf_size : Int) (accessible : Nat)
    (block : Bool) (w : World) :
    ∃ k tail,
      (get_messages_outcome (fusionee_get_messages pid buf_size accessible block w [])).2.out
        = all_bytes (w.fusionee.packets.take k) ++ tail ∧
      ((∀ out, (get_messages_outcome (fusionee_get_messages pid buf_size accessible block w [])).2
          ≠ Event.get_messages_returned (-EFAULT) out) → tail = []) ∧
      (get_messages_outcome
          (fusionee_get_messages pid buf_size accessible block w [])).1.fusionee.packets
        = w.fusionee.packets.drop k ∧
      (get_messages_outcome
          (fusionee_get_messages pid buf_size accessible block w [])).1.fusionee.prev_packets
        = (w.fusionee.packets.take k).filter (fun p => p.callbacks.length ≠ 0) ∧
      (get_messages_outcome (fusionee_get_messages pid buf_size accessible block w [])).1.log
        = w.log ++ callbacks_to_run w.fusionee.prev_packets := by
  have hp0 : (detach_prev w.fusionee pid).packets = w.fusionee.packets := rfl
  have hp1 : (detach_prev w.fusionee pid).prev_packets = [] := rfl
  obtain ⟨f1, f2, _, _, _, _, _, f8, _⟩ := flush_packets_fields w.fusionee.prev_packets
    (detach_prev w.fusionee pid) w.log
  rw [hp0] at f1
  rw [hp1] at f2
  unfold fusionee_get_messages
  simp only []
  split
  · obtain ⟨k, tail, h1, h2, h3, h4, h5⟩ := get_messages_finish_effect buf_size accessible
      w.fusionee.prev_packets ⟨detach_prev w.fusionee pid, w.log⟩
    exact ⟨k, tail, h1, h2, h3, by rw [h4]; simp [hp1]; rfl, h5⟩
  · split
    · exact ⟨0, [], rfl, fun _ => rfl, by simp [get_messages_outcome, f1],
        by simp [get_messages_outcome, f2], by simp [get_messages_outcome, f8]⟩
    · split
      · obtain ⟨k, tail, h1, h2, h3, h4, h5⟩ := get_messages_wait_effect buf_size accessible
          block
          ⟨(flush_packets (detach_prev w.fusionee pid) w.log w.fusionee.prev_packets).1,
            (flush_packets (detach_prev w.fusionee pid) w.log w.fusionee.prev_packets).2⟩
        simp only [f1, f2] at h1 h3 h4
        exact ⟨k, tail, h1, h2, h3, by rw [h4]; simp, by rw [h5, f8]⟩
      · rename_i hprev
        have hz : w.fusionee.prev_packets = [] := by simpa using hprev
        obtain ⟨k, tail, h1, h2, h3, h4, h5⟩ := get_messages_wait_effect buf_size accessible
          block ⟨detach_prev w.fusionee pid, w.log⟩
        exact ⟨k, tail, h1, h2, h3, by rw [h4]; simp [hp1]; rfl,
          by rw [h5, hz]; simp [callbacks_to_run]⟩

/-- What a send operation does, for either send function: `r` is the result of the call. -/
theorem send_outcome_effect (w : World) (hinv : w.fusionee.invariant) (sender : Sender)
    (m : Message) (a : Alloc) :
    (send_outcome w (fusionee_send_message2 sender m a w.fusionee [])).2.out = [] ∧
    (m.args.extra_ok →
      all_bytes (send_outcome w (fusionee_send_message2 sender m a w.fusionee [])).1.fusionee.packets
        = all_bytes w.fusionee.packets ++
          (if (send_outcome w (fusionee_send_message2 sender m a w.fusionee [])).2
              = Event.send_returned 0 then m.args.frame_bytes else [])) ∧
    all_callbacks (send_outcome w (fusionee_send_message2 sender m a w.fusionee [])).1.fusionee.packets
      = all_callbacks w.fusionee.packets ++
        (if (send_outcome w (fusionee_send_message2 sender m a w.fusionee [])).2
            = Event.send_returned 0 ∧ m.callback ≠ 0 then [m.entry] else []) ∧
    (send_outcome w (fusionee_send_message2 sender m a w.fusionee [])).1.fusionee.prev_packets
      = w.fusionee.prev_packets ∧
    (send_outcome w (fusionee_send_message2 sender m a w.fusionee [])).1.log = w.log := by
  cases hres : fusionee_send_message2 sender m a w.fusionee [] with
  | returned ret f s =>
    have hl : send_locked sender w.fusionee m a = .returned ret f s := by
      unfold fusionee_send_message2 at hres
      split at hres
      · simp at hres
      · exact hres
    obtain ⟨c1, c2, c3⟩ := send_locked_content hinv hl
    have hev : (Event.send_returned ret = Event.send_returned 0) ↔ ret = 0 := by
      constructor
      · intro h; injection h
      · intro h; rw [h]
    by_cases h0 : ret = 0
    · obtain ⟨d1, d2⟩ := c2 h0
      refine ⟨rfl, fun hx => ?_, ?_, c1, rfl⟩
      · show all_bytes f.packets = _ ++
          (if Event.send_returned ret = Event.send_returned 0 then _ else _)
        rw [if_pos (hev.2 h0)]; exact d1 hx
      · show all_callbacks f.packets = _ ++
          (if Event.send_returned ret = Event.send_returned 0 ∧ m.callback ≠ 0 then _ else _)
        rw [d2]
        by_cases hcb : m.callback ≠ 0
        · rw [if_pos hcb, if_pos ⟨hev.2 h0, hcb⟩]
        · rw [if_neg hcb, if_neg (fun h => hcb h.2)]
    · obtain ⟨d1, d2⟩ := c3 h0
      refine ⟨rfl, fun _ => ?_, ?_, c1, rfl⟩
      · show all_bytes f.packets = _ ++
          (if Event.send_returned ret = Event.send_returned 0 then _ else _)
        rw [if_neg (fun h => h0 (hev.1 h)), d1]; simp
      · show all_callbacks f.packets = _ ++
          (if Event.send_returned ret = Event.send_returned 0 ∧ m.callback ≠ 0 then _ else _)
        rw [if_neg (fun h => h0 (hev.1 h.1)), d2]; simp
  | sleeping f s =>
    refine ⟨rfl, fun _ => ?_, ?_, rfl, rfl⟩
    · show all_bytes w.fusionee.packets = _ ++
        (if Event.send_sleeping = Event.send_returned 0 then _ else _)
      rw [if_neg (by simp)]; simp
    · show all_callbacks w.fusionee.packets = _ ++
        (if Event.send_sleeping = Event.send_returned 0 ∧ m.callback ≠ 0 then _ else _)
      rw [if_neg (by simp)]; simp
  | assert_failed =>
    refine ⟨rfl, fun _ => ?_, ?_, rfl, rfl⟩
    · show all_bytes w.fusionee.packets = _ ++
        (if Event.assert_failed = Event.send_returned 0 then _ else _)
      rw [if_neg (by simp)]; simp
    · show all_callbacks w.fusionee.packets = _ ++
        (if Event.assert_failed = Event.send_returned 0 ∧ m.callback ≠ 0 then _ else _)
      rw [if_neg (by simp)]; simp

theorem step_poll_world (w : World) :
    (step w Op.poll).1.fusionee.packets = w.fusionee.packets ∧
    (step w Op.poll).1.fusionee.prev_packets = [] ∧
    (step w Op.poll).1.log = w.log ++ callbacks_to_run w.fusionee.prev_packets ∧
    (step w Op.poll).2.out = [] := by
  obtain ⟨f1, f2, _, _, _, _, _, f8, _⟩ := flush_packets_fields w.fusionee.prev_packets
    { w.fusionee with prev_packets := [] } w.log
  simp only [step, fusionee_poll_eq]
  exact ⟨f1, f2, f8, rfl⟩

/-- Every operation on a world with the invariant has the effect described by
`step_effect`, for some number of packets taken off the ready fifo. -/
theorem step_has_effect (w : World) (hinv : w.fusionee.invariant) (op : Op) :
    ∃ k tail, step_effect w op k tail := by
  have hrun : callbacks_to_run w.fusionee.prev_packets = all_callbacks w.fusionee.prev_packets :=
    callbacks_to_run_eq_all _ (fun p hp => (hinv.2.1 p hp).2.2)
  cases op with
  | send sender m a =>
    obtain ⟨h1, h2, h3, h4, h5⟩ := send_outcome_effect w hinv sender m a
    refine ⟨0, [], ?_, fun _ => rfl, ?_, ?_, ?_, ?_⟩
    · simpa [step, all_bytes] using h1
    · intro hx
      simpa [step, sent_frame, Op.message] using h2 hx
    · simpa [step, registered_callback, Op.message] using h3
    · simp [step, Op.flushes_prev, h4, all_callbacks]
    · simp [step, Op.flushes_prev, h5]
  | send_by_id sender m a =>
    obtain ⟨h1, h2, h3, h4, h5⟩ := send_outcome_effect w hinv sender m a
    have e : step w (.send_by_id sender m a)
        = send_outcome w (fusionee_send_message2 sender m a w.fusionee []) := by
      simp only [step, fusionee_send_message, lookup_fusionee_head,
        fusionee_send_message_again_eq]
    refine ⟨0, [], ?_, fun _ => rfl, ?_, ?_, ?_, ?_⟩
    · rw [e]; simpa [all_bytes] using h1
    · intro hx
      rw [e]; simpa [sent_frame, Op.message] using h2 hx
    · rw [e]; simpa [registered_callback, Op.message] using h3
    · rw [e]; simp [Op.flushes_prev, h4, all_callbacks]
    · rw [e]; simp [Op.flushes_prev, h5]
  | get_messages pid buf_size accessible block =>
    obtain ⟨k, tail, h1, h2, h3, h4, h5⟩ :=
      fusionee_get_messages_effect pid buf_size accessible block w
    refine ⟨k, tail, h1, h2, ?_, ?_, ?_, ?_⟩
    · intro _
      simp only [step, h3, sent_frame, Op.message, List.append_nil]
    · simp only [step, h3, registered_callback, Op.message, List.append_nil]
    · simp only [step, h4, Op.flushes_prev, if_true, List.nil_append, all_callbacks_filter]
    · simp only [step, h5, Op.flushes_prev, if_true, hrun]
  | get_messages_wake buf_size accessible =>
    obtain ⟨k, tail, h1, h2, h3, h4, h5⟩ := get_messages_wait_effect buf_size accessible true w
    refine ⟨k, tail, h1, h2, ?_, ?_, ?_, ?_⟩
    · intro _
      simp only [step, h3, sent_frame, Op.message, List.append_nil]
    · simp only [step, h3, registered_callback, Op.message, List.append_nil]
    · simp only [step, h4, Op.flushes_prev, Bool.false_eq_true, if_false,
        all_callbacks_append, all_callbacks_filter]
    · simp only [step, h5, Op.flushes_prev, Bool.false_eq_true, if_false, List.append_nil]
  | poll =>
    obtain ⟨p1, p2, p3, p4⟩ := step_poll_world w
    refine ⟨0, [], ?_, fun _ => rfl, ?_, ?_, ?_, ?_⟩
    · rw [p4]; simp [all_bytes]
    · intro _
      rw [p1]; simp [sent_frame, Op.message]
    · rw [p1]; simp [registered_callback, Op.message]
    · rw [p2]; simp [Op.flushes_prev, all_callbacks]
    · rw [p3, hrun]; simp [Op.flushes_prev]
  | wait_processing t mid =>
    have e : (step w (.wait_processing t mid)).1 = w ∧
        (step w (.wait_processing t mid)).2.out = [] := by
      simp only [step, fusionee_wait_processing_eq]
      cases wait_processing_search w.fusionee t mid <;> simp [Event.out]
    refine ⟨0, [], ?_, fun _ => rfl, ?_, ?_, ?_, ?_⟩
    · rw [e.2]; simp [all_bytes]
    · intro _
      rw [e.1]; simp [sent_frame, Op.message]
    · rw [e.1]; simp [registered_callback, Op.message]
    · rw [e.1]; simp [Op.flushes_prev, all_callbacks]
    · rw [e.1]; simp [Op.flushes_prev]

theorem all_callbacks_take_drop (k : Nat) (ps : List Packet) :
    all_callbacks (ps.take k) ++ all_callbacks (ps.drop k) = all_callbacks ps := by
  rw [← all_callbacks_append, List.take_append_drop]

/-- The example run delivers forty bytes with its first receive and twenty with its
second, sixty in all, which are the three frames sent. -/
theorem example_run_delivers_all :
    (drained_bytes (run (initial_world 1 1) example_run).2).length = 60 ∧
    drained_bytes (run (initial_world 1 1) example_run).2
      = sent_bytes example_run (run (initial_world 1 1) example_run).2 := by
  decide

/-- Along a run, the callbacks invoked, those held by `prev_packets` and those held by
the ready fifo are, in this order, those that were there at the start followed by
those registered. -/
theorem run_callbacks (ops : List Op) : ∀ (w : World), w.fusionee.invariant →
    (run w ops).1.log ++ all_callbacks (run w ops).1.fusionee.prev_packets
        ++ all_callbacks (run w ops).1.fusionee.packets
      = w.log ++ all_callbacks w.fusionee.prev_packets ++ all_callbacks w.fusionee.packets
          ++ registered_callbacks ops (run w ops).2 := by
  induction ops with
  | nil => intro w _; simp [run, registered_callbacks]
  | cons op ops ih =>
    intro w hinv
    simp only [run]
    obtain ⟨k, tail, _, _, _, e4, e5, e6⟩ := step_has_effect w hinv op
    rw [ih (step w op).1 (step_invariant w op hinv), e4, e5, e6]
    simp only [registered_callbacks, List.append_assoc]
    cases op.flushes_prev
    · simp only [Bool.false_eq_true, if_false, List.append_nil, List.append_assoc]
      rw [← List.append_assoc (all_callbacks (List.take k w.fusionee.packets)),
        all_callbacks_take_drop]
      simp only [List.nil_append]
    · simp only [if_true, List.nil_append, List.append_assoc]
      rw [← List.append_assoc (all_callbacks (List.take k w.fusionee.packets)),
        all_callbacks_take_drop]

/-- C3: callbacks in a run of sends, receives, polls and waits on a fusionee just
created, and in any operation `op` that follows the run.

* The callbacks invoked so far, then those of the packets in `prev_packets`, then those
  of the packets in the ready fifo are exactly the callback entries registered by the
  sends that returned 0 with a non-null callback, in send order: every registered
  callback has one place in this sequence, so it is invoked at most once and not lost.
* The operation `op` invokes the callbacks that `prev_packets` held before it if it is a
  call of `fusionee_get_messages` or `fusionee_poll`, and none otherwise: callbacks of
  packets still in the ready fifo are not invoked, and a callback in `prev_packets` is
  invoked by the next receive or poll.
* Callbacks get into `prev_packets` only with the `k` packets that `op` takes off the
  head of the ready fifo, whose bytes it has stored to the receive buffer. -/
theorem callback_invoked_once_after_delivery (pid id : Nat) (ops : List Op) (op : Op) :
    ((run (initial_world pid id) ops).1.log
        ++ all_callbacks (run (initial_world pid id) ops).1.fusionee.prev_packets
        ++ all_callbacks (run (initial_world pid id) ops).1.fusionee.packets
      = registered_callbacks ops (run (initial_world pid id) ops).2) ∧
    ((step (run (initial_world pid id) ops).1 op).1.log
      = (run (initial_world pid id) ops).1.log ++
          (if op.flushes_prev
            then all_callbacks (run (initial_world pid id) ops).1.fusionee.prev_packets
            else [])) ∧
    ∃ k tail,
      (step (run (initial_world pid id) ops).1 op).2.out
        = all_bytes ((run (initial_world pid id) ops).1.fusionee.packets.take k) ++ tail ∧
      all_callbacks (step (run (initial_world pid id) ops).1 op).1.fusionee.prev_packets
        = (if op.flushes_prev then []
            else all_callbacks (run (initial_world pid id) ops).1.fusionee.prev_packets)
          ++ all_callbacks ((run (initial_world pid id) ops).1.fusionee.packets.take k) ∧
      all_callbacks (step (run (initial_world pid id) ops).1 op).1.fusionee.packets
        = all_callbacks ((run (initial_world pid id) ops).1.fusionee.packets.drop k)
          ++ registered_callback op (step (run (initial_world pid id) ops).1 op).2 := by
  have hinv0 : (initial_world pid id).fusionee.invariant := by
    refine ⟨?_, ?_, ?_, ?_⟩ <;> simp [initial_world, fusionee_new]
  have hinv := run_invariant ops (initial_world pid id) hinv0
  have h := run_callbacks ops (initial_world pid id) hinv0
  obtain ⟨k, tail, e1, _, _, e4, e5, e6⟩ :=
    step_has_effect (run (initial_world pid id) ops).1 hinv op
  refine ⟨?_, e6, k, tail, e1, e5, e4⟩
  rw [h]
  simp [initial_world, fusionee_new, all_callbacks]

/-- In the example run the callback of the second send is registered once; it has not
been invoked after the receive that delivers its packet, and has been invoked once
after the next receive, and still once after the poll that follows. -/
theorem example_run_callback :
    registered_callbacks example_run (run (initial_world 1 1) example_run).2
      = [callback_message.entry] ∧
    (run (initial_world 1 1) (example_run.take 3)).1.log = [] ∧
    all_callbacks (run (initial_world 1 1) (example_run.take 3)).1.fusionee.prev_packets
      = [callback_message.entry] ∧
    (run (initial_world 1 1) (example_run.take 5)).1.log = [callback_message.entry] ∧
    (run (initial_world 1 1) example_run).1.log = [callback_message.entry] := by
  decide

theorem fusionee_poll_sections (dev : List Fusionee) (id : Nat) (log : List MessageCallback) :
    fusionee_poll dev id log =
      match poll_detach dev id with
      | none => (POLLERR, dev, log)
      | some (dev1, prev_msgs) => poll_finish dev1 id log prev_msgs := by
  unfold fusionee_poll poll_detach
  cases lock_fusionee dev id with
  | none => rfl
  | some x => rfl

theorem tracked_append (l1 : List Packet) : ∀ (l2 : List Packet) (ms : List Message),
    tracked (l1 ++ l2) ms ↔ ∃ m1 m2, ms = m1 ++ m2 ∧ tracked l1 m1 ∧ tracked l2 m2 := by
  induction l1 with
  | nil =>
    intro l2 ms
    constructor
    · intro h; exact ⟨[], ms, rfl, rfl, h⟩
    · rintro ⟨m1, m2, rfl, h1, h2⟩
      have : m1 = [] := h1
      subst this
      exact h2
  | cons p ps ih =>
    intro l2 ms
    constructor
    · rintro ⟨m1, m2, rfl, hp, hrest⟩
      obtain ⟨a, b, rfl, ha, hb⟩ := (ih l2 m2).1 hrest
      exact ⟨m1 ++ a, b, by simp, ⟨m1, a, rfl, hp, ha⟩, hb⟩
    · rintro ⟨m1, m2, rfl, ⟨a, b, rfl, hp, hb⟩, h2⟩
      exact ⟨a, b ++ m2, by simp, hp, (ih l2 (b ++ m2)).2 ⟨b, m2, rfl, hb, h2⟩⟩

theorem tracked_singleton (p : Packet) (ms : List Message) : tracked [p] ms ↔ p.holds ms := by
  constructor
  · rintro ⟨m1, m2, rfl, hp, h2⟩
    have : m2 = [] := h2
    subst this
    simpa using hp
  · intro h
    exact ⟨ms, [], by simp, h, rfl⟩

theorem tracked_nil (ms : List Message) : tracked [] ms ↔ ms = [] := Iff.rfl

theorem Packet.holds.nil_of_no_callbacks {p : Packet} {ms : List Message}
    (h : p.holds ms) (h0 : p.callbacks = []) : ms = [] := by
  have := h.1
  rw [h0] at this
  cases ms with
  | nil => rfl
  | cons m ms => simp at this

theorem tracked_filter (ps : List Packet) : ∀ (ms : List Message), tracked ps ms →
    tracked (ps.filter (fun p => p.callbacks.length ≠ 0)) ms := by
  induction ps with
  | nil => intro ms h; exact h
  | cons p ps ih =>
    rintro ms ⟨m1, m2, rfl, hp, hrest⟩
    rw [List.filter_cons]
    by_cases h : p.callbacks.length ≠ 0
    · have h' : decide (p.callbacks.length ≠ 0) = true := by simpa using h
      rw [if_pos h']
      exact ⟨m1, m2, rfl, hp, ih m2 hrest⟩
    · have h' : ¬ (decide (p.callbacks.length ≠ 0) = true) := by simpa using h
      have h0 : p.callbacks = [] := by simpa using h
      rw [if_neg h', hp.nil_of_no_callbacks h0, List.nil_append]
      exact ih m2 hrest

theorem tracked_entries (ps : List Packet) : ∀ (ms : List Message), tracked ps ms →
    ms.map Message.entry = all_callbacks ps := by
  induction ps with
  | nil => intro ms h; rw [(h : ms = [])]; rfl
  | cons p ps ih =>
    rintro ms ⟨m1, m2, rfl, hp, hrest⟩
    rw [List.map_append, all_callbacks_cons, ih m2 hrest, hp.1]

theorem tracked_no_frame (ps : List Packet) (t i : Nat) : ∀ (ms : List Message),
    tracked ps ms → (∀ p ∈ ps, ¬ p.has_frame t i) →
    ∀ m ∈ ms, ¬ (m.msg_type % 4294967296 = t ∧ m.msg_id % 4294967296 = i) := by
  induction ps with
  | nil => intro ms h _ m hm; rw [(h : ms = [])] at hm; simp at hm
  | cons p ps ih =>
    rintro ms ⟨m1, m2, rfl, hp, hrest⟩ hno m hm
    rcases List.mem_append.1 hm with h1 | h2
    · rintro ⟨rfl, rfl⟩
      exact hno p (List.mem_cons_self _ _) (hp.2 m h1)
    · exact ih m2 hrest (fun q hq => hno q (List.mem_cons_of_mem _ hq)) m h2

theorem has_frame_congr {p q : Packet} {t i : Nat} (h : p.has_frame t i)
    (hs : q.size = p.size) (hb : ∀ j, j < p.size → q.buf j = p.buf j) : q.has_frame t i := by
  obtain ⟨hs0, hl, hsz, hex⟩ := h
  refine ⟨hs0, Layout_congr hs0 0 (fun j _ hj => ?_) hl, by rw [hs, hsz], hex⟩
  rw [Nat.zero_add, ← hsz] at hj
  exact (hb j hj).symm

theorem holds_congr {p q : Packet} {ms : List Message} (h : p.holds ms)
    (hc : q.callbacks = p.callbacks) (hs : q.size = p.size)
    (hb : ∀ j, j < p.size → q.buf j = p.buf j) : q.holds ms :=
  ⟨by rw [hc]; exact h.1, fun m hm => has_frame_congr (h.2 m hm) hs hb⟩

theorem Packet.is_reset.holds {p : Packet} (h : p.is_reset) : p.holds [] :=
  ⟨by rw [h.2.2]; rfl, fun m hm => by simp at hm⟩

theorem tracked_flush_last (l : List Packet) (ms : List Message) (h : tracked l ms) :
    tracked (flush_last l) ms := by
  rcases List.eq_nil_or_concat l with rfl | ⟨init, q, rfl⟩
  · exact h
  · rw [List.concat_eq_append] at h ⊢
    rw [flush_last_snoc]
    obtain ⟨m1, m2, rfl, h1, h2⟩ := (tracked_append init [q] ms).1 h
    refine (tracked_append init _ _).2 ⟨m1, m2, rfl, h1, ?_⟩
    exact (tracked_singleton _ _).2
      (holds_congr ((tracked_singleton _ _).1 h2) rfl rfl (fun _ _ => rfl))

theorem Fusionee_GetPacket_tracked {f f1 : Fusionee} {size : Nat} {alloc : Option Mem}
    {r : Option Packet} {ms : List Message} (hinv : f.invariant)
    (h : Fusionee_GetPacket f size alloc = some (f1, r)) (ht : tracked f.packets ms) :
    tracked f1.packets ms := by
  obtain ⟨_, h1 | h2⟩ := Fusionee_GetPacket_spec h
  · obtain ⟨_, _, _, _, hf, _⟩ := h1
    rw [hf]; exact ht
  · obtain ⟨_, hr, hf⟩ := h2
    rw [hf]
    show tracked (flush_last f.packets ++ r.toList) ms
    refine (tracked_append _ _ _).2 ⟨ms, [], by simp, tracked_flush_last _ _ ht, ?_⟩
    cases hr' : r with
    | none => exact rfl
    | some q =>
      rw [hr'] at hr
      have hreset : q.is_reset := by
        rcases acquire_packet_some hr.symm with hq | hq
        · exact hinv.2.2.2 q (by rw [hq]; exact List.mem_cons_self _ _)
        · exact hq.2.2
      exact (tracked_singleton _ _).2 hreset.holds

theorem Packet_Write_holds {packet p1 : Packet} {m : Message} {fu : Bool} {ms : List Message}
    (sender : Sender) (hwf : packet.well_formed)
    (hw : Packet_Write packet m.msg_type m.msg_id m.msg_channel m.msg_data m.msg_size
      m.extra_data m.extra_size fu = some (0, p1))
    (h : packet.holds ms) :
    (sent_packet sender m p1).holds (ms ++ (if m.callback ≠ 0 then [m] else [])) := by
  obtain ⟨_, hcbs, _⟩ := Packet_Write_frame hw
  have hold : ∀ t i, packet.has_frame t i → (sent_packet sender m p1).has_frame t i := by
    rintro t i ⟨hs, hl, hsz, x, hx, hxt⟩
    obtain ⟨l1, l2⟩ := Packet_Write_layout hs hw hl hsz
    exact ⟨_, l1, l2, x, List.mem_append_left _ hx, hxt⟩
  have hnew : (sent_packet sender m p1).has_frame (m.msg_type % 4294967296)
      (m.msg_id % 4294967296) := by
    obtain ⟨⟨hs, hl, hsz⟩, _⟩ := hwf
    obtain ⟨l1, l2⟩ := Packet_Write_layout hs hw hl hsz
    exact ⟨_, l1, l2, _, List.mem_append_right _ (List.mem_singleton_self _), rfl, rfl⟩
  constructor
  · show p1.callbacks ++ _ = _
    rw [hcbs, h.1, List.map_append]
    by_cases hcb : m.callback ≠ 0
    · rw [if_pos hcb, if_pos hcb]; rfl
    · rw [if_neg hcb, if_neg hcb]; rfl
  · intro x hx
    rcases List.mem_append.1 hx with h1 | h2
    · exact hold _ _ (h.2 x h1)
    · by_cases hcb : m.callback ≠ 0
      · rw [if_pos hcb] at h2
        rw [List.mem_singleton.1 h2]
        exact hnew
      · rw [if_neg hcb] at h2
        simp at h2

/-- A returning send keeps every pending callback on a packet that has the frame of its
message; when it returns 0 for a message with a callback, the entry is on the packet
that received the frame. -/
theorem send_locked_tracked {sender : Sender} {f : Fusionee} {m : Message} {a : Alloc}
    {ret : Int} {f' : Fusionee} {s' : Sender} {ms : List Message} (hinv : f.invariant)
    (h : send_locked sender f m a = .returned ret f' s') (ht : tracked f.packets ms) :
    tracked f'.packets (ms ++ (if ret = 0 ∧ m.callback ≠ 0 then [m] else [])) := by
  obtain ⟨f1, r, hg, hcase⟩ := send_locked_returned h
  have ht1 := Fusionee_GetPacket_tracked hinv hg ht
  have hinv1 := Fusionee_GetPacket_invariant hinv hg
  have hE : (-ENOMEM : Int) ≠ 0 := by simp [ENOMEM]
  rcases hcase with ⟨_, hret, hf, _⟩ | ⟨packet, ret1, p1, hr, hw, hcase⟩
  · rw [hf, hret, if_neg (fun h => hE h.1), List.append_nil]
    exact ht1
  · subst hr
    have htail := Fusionee_GetPacket_tail hg
    rw [htail] at ht1
    obtain ⟨m1, m2, rfl, t1, t2⟩ := (tracked_append _ _ _).1 ht1
    have hp := (tracked_singleton _ _).1 t2
    have hwf : packet.well_formed :=
      hinv1.1 packet (by rw [htail]; exact List.mem_append_right _ (List.mem_singleton_self _))
    obtain ⟨_, hcbs, _, _, hsame, _, _⟩ := Packet_Write_frame hw
    have hbelow := Packet_Write_below hw
    rcases hcase with ⟨hne, hret, _, hf⟩ | ⟨_, _, _, hret, _, hf⟩ | ⟨h0, _, hret, _, hf⟩
    · rw [hf, hret, if_neg (fun h => hne h.1), List.append_nil]
      exact (tracked_append _ _ _).2 ⟨m1, m2, rfl, t1,
        (tracked_singleton _ _).2 (holds_congr hp hcbs (hsame hne) hbelow)⟩
    · rw [hf, hret, if_neg (fun h => hE h.1), List.append_nil]
      exact (tracked_append _ _ _).2 ⟨m1, m2, rfl, t1,
        (tracked_singleton _ _).2 (holds_congr hp hcbs rfl hbelow)⟩
    · subst h0
      rw [hf, hret]
      have e : (if (0 : Int) = 0 ∧ m.callback ≠ 0 then [m] else [])
          = (if m.callback ≠ 0 then [m] else []) := by
        by_cases hcb : m.callback ≠ 0
        · rw [if_pos hcb, if_pos ⟨rfl, hcb⟩]
        · rw [if_neg hcb, if_neg (fun h => hcb h.2)]
      rw [e, List.append_assoc]
      exact (tracked_append _ _ _).2 ⟨m1, _, rfl, t1,
        (tracked_singleton _ _).2 (Packet_Write_holds sender hwf hw hp)⟩

theorem send_outcome_tracks (w : World) (hinv : w.fusionee.invariant) (sender : Sender)
    (m : Message) (a : Alloc) (ms : List Message) (ht : w.tracks ms) :
    (send_outcome w (fusionee_send_message2 sender m a w.fusionee [])).1.tracks
      (ms ++ (if (send_outcome w (fusionee_send_message2 sender m a w.fusionee [])).2
                = Event.send_returned 0 ∧ m.callback ≠ 0 then [m] else [])) := by
  obtain ⟨inv, pend, rfl, hlog, htr⟩ := ht
  cases hres : fusionee_send_message2 sender m a w.fusionee [] with
  | returned ret f s =>
    have hl : send_locked sender w.fusionee m a = .returned ret f s := by
      unfold fusionee_send_message2 at hres
      split at hres
      · simp at hres
      · exact hres
    obtain ⟨mp, mr, rfl, tp, tr⟩ := (tracked_append _ _ _).1 htr
    have hprev := (send_locked_content hinv hl).1
    have hnew := send_locked_tracked hinv hl tr
    have hev : (Event.send_returned ret = Event.send_returned 0 ∧ m.callback ≠ 0) ↔
        (ret = 0 ∧ m.callback ≠ 0) := by
      constructor
      · rintro ⟨h, h2⟩; injection h with h; exact ⟨h, h2⟩
      · rintro ⟨h, h2⟩; rw [h]; exact ⟨rfl, h2⟩
    show World.tracks ⟨f, w.log⟩ (_ ++ (if Event.send_returned ret = Event.send_returned 0 ∧
      m.callback ≠ 0 then [m] else []))
    rw [if_congr hev rfl rfl]
    refine ⟨inv, mp ++ (mr ++ (if ret = 0 ∧ m.callback ≠ 0 then [m] else [])), by simp, hlog, ?_⟩
    show tracked (f.prev_packets ++ f.packets) _
    rw [hprev]
    exact (tracked_append _ _ _).2 ⟨_, _, rfl, tp, hnew⟩
  | sleeping f s =>
    show World.tracks w (_ ++ (if Event.send_sleeping = Event.send_returned 0 ∧
      m.callback ≠ 0 then [m] else []))
    rw [if_neg (by simp), List.append_nil]
    exact ⟨inv, pend, rfl, hlog, htr⟩
  | assert_failed =>
    show World.tracks w (_ ++ (if Event.assert_failed = Event.send_returned 0 ∧
      m.callback ≠ 0 then [m] else []))
    rw [if_neg (by simp), List.append_nil]
    exact ⟨inv, pend, rfl, hlog, htr⟩

theorem tracked_take_drop (k : Nat) (ps : List Packet) (ms : List Message)
    (h : tracked ps ms) :
    ∃ m1 m2, ms = m1 ++ m2 ∧
      tracked ((ps.take k).filter (fun p => p.callbacks.length ≠ 0)) m1 ∧
      tracked (ps.drop k) m2 := by
  rw [← List.take_append_drop k ps] at h
  obtain ⟨m1, m2, e, h1, h2⟩ := (tracked_append _ _ _).1 h
  exact ⟨m1, m2, e, tracked_filter _ _ h1, h2⟩

/-- One operation keeps the account of the registered callbacks: those that the
operation invokes are the first pending ones, and a callback that stays pending
stays on a packet that has the frame of its message. -/
theorem step_tracks (w : World) (hinv : w.fusionee.invariant) (op : Op) (ms : List Message)
    (ht : w.tracks ms) :
    (step w op).1.tracks (ms ++ registered_message op (step w op).2) := by
  have hrun : callbacks_to_run w.fusionee.prev_packets = all_callbacks w.fusionee.prev_packets :=
    callbacks_to_run_eq_all _ (fun p hp => (hinv.2.1 p hp).2.2)
  cases op with
  | send sender m a =>
    simpa [step, registered_message, Op.message] using send_outcome_tracks w hinv sender m a ms ht
  | send_by_id sender m a =>
    have e : step w (.send_by_id sender m a)
        = send_outcome w (fusionee_send_message2 sender m a w.fusionee []) := by
      simp only [step, fusionee_send_message, lookup_fusionee_head,
        fusionee_send_message_again_eq]
    rw [e]
    simpa [registered_message, Op.message] using send_outcome_tracks w hinv sender m a ms ht
  | get_messages pid buf_size accessible block =>
    obtain ⟨inv, pend, rfl, hlog, htr⟩ := ht
    obtain ⟨mp, mr, rfl, tp, tr⟩ := (tracked_append _ _ _).1 htr
    obtain ⟨k, tail, _, _, h3, h4, h5⟩ :=
      fusionee_get_messages_effect pid buf_size accessible block w
    obtain ⟨m1, m2, rfl, t1, t2⟩ := tracked_take_drop k _ _ tr
    refine ⟨inv ++ mp, m1 ++ m2, by simp [registered_message, Op.message], ?_, ?_⟩
    · simp only [step, h5, hrun, List.map_append, hlog, tracked_entries _ _ tp]
    · simp only [step, h3, h4]
      exact (tracked_append _ _ _).2 ⟨_, _, rfl, t1, t2⟩
  | get_messages_wake buf_size accessible =>
    obtain ⟨inv, pend, rfl, hlog, htr⟩ := ht
    obtain ⟨mp, mr, rfl, tp, tr⟩ := (tracked_append _ _ _).1 htr
    obtain ⟨k, tail, _, _, h3, h4, h5⟩ := get_messages_wait_effect buf_size accessible true w
    obtain ⟨m1, m2, rfl, t1, t2⟩ := tracked_take_drop k _ _ tr
    refine ⟨inv, mp ++ (m1 ++ m2), by simp [registered_message, Op.message], ?_, ?_⟩
    · simp only [step, h5, hlog]
    · simp only [step, h3, h4]
      exact (tracked_append _ _ _).2 ⟨_, _, by simp,
        (tracked_append _ _ _).2 ⟨_, _, rfl, tp, t1⟩, t2⟩
  | poll =>
    obtain ⟨inv, pend, rfl, hlog, htr⟩ := ht
    obtain ⟨mp, mr, rfl, tp, tr⟩ := (tracked_append _ _ _).1 htr
    obtain ⟨p1, p2, p3, _⟩ := step_poll_world w
    refine ⟨inv ++ mp, mr, by simp [registered_message, Op.message], ?_, ?_⟩
    · rw [p3, hrun, List.map_append, hlog, tracked_entries _ _ tp]
    · rw [p1, p2]; exact tr
  | wait_processing t mid =>
    have e : (step w (.wait_processing t mid)).1 = w := by
      simp only [step, fusionee_wait_processing_eq]
      cases wait_processing_search w.fusionee t mid <;> simp
    rw [e]
    simpa [registered_message, Op.message] using ht

theorem run_tracks (ops : List Op) : ∀ (w : World) (ms : List Message),
    w.fusionee.invariant → w.tracks ms →
    (run w ops).1.tracks (ms ++ registered_messages ops (run w ops).2) := by
  induction ops with
  | nil => intro w ms _ h; simpa [run, registered_messages] using h
  | cons op ops ih =>
    intro w ms hinv h
    have h1 := ih (step w op).1 _ (step_invariant w op hinv) (step_tracks w hinv op ms h)
    simpa [run, registered_messages, List.append_assoc] using h1

/-- In a step that is a whole call, the packets of `prev_packets` stay there unless the
step invokes their callbacks. -/
theorem step_keeps_or_invokes (w : World) (hinv : w.fusionee.invariant) (op : Op) :
    (∃ added, (step w op).1.fusionee.prev_packets = w.fusionee.prev_packets ++ added ∧
        (step w op).1.log = w.log) ∨
    (step w op).1.log = w.log ++ all_callbacks w.fusionee.prev_packets := by
  have hrun : callbacks_to_run w.fusionee.prev_packets = all_callbacks w.fusionee.prev_packets :=
    callbacks_to_run_eq_all _ (fun p hp => (hinv.2.1 p hp).2.2)
  cases op with
  | send sender m a =>
    obtain ⟨_, _, _, h4, h5⟩ := send_outcome_effect w hinv sender m a
    exact Or.inl ⟨[], by simpa [step] using h4, by simpa [step] using h5⟩
  | send_by_id sender m a =>
    obtain ⟨_, _, _, h4, h5⟩ := send_outcome_effect w hinv sender m a
    have e : step w (.send_by_id sender m a)
        = send_outcome w (fusionee_send_message2 sender m a w.fusionee []) := by
      simp only [step, fusionee_send_message, lookup_fusionee_head,
        fusionee_send_message_again_eq]
    rw [e]
    exact Or.inl ⟨[], by simpa using h4, h5⟩
  | get_messages pid buf_size accessible block =>
    obtain ⟨k, tail, _, _, _, _, h5⟩ :=
      fusionee_get_messages_effect pid buf_size accessible block w
    exact Or.inr (by simp only [step, h5, hrun])
  | get_messages_wake buf_size accessible =>
    obtain ⟨k, tail, _, _, _, h4, h5⟩ := get_messages_wait_effect buf_size accessible true w
    exact Or.inl ⟨_, h4, h5⟩
  | poll =>
    obtain ⟨_, _, p3, _⟩ := step_poll_world w
    exact Or.inr (by rw [p3, hrun])
  | wait_processing t mid =>
    have e : (step w (.wait_processing t mid)).1 = w := by
      simp only [step, fusionee_wait_processing_eq]
      cases wait_processing_search w.fusionee t mid <;> simp
    rw [e]
    exact Or.inl ⟨[], by simp, rfl⟩

theorem step_wait_returned_zero {w : World} {t mid : Nat}
    (h : (step w (Op.wait_processing t mid)).2 = Event.wait_returned 0) :
    wait_processing_search w.fusionee t mid = none := by
  simp only [step, fusionee_wait_processing_eq] at h
  cases hs : wait_processing_search w.fusionee t mid with
  | none => rfl
  | some q => rw [hs] at h; simp at h

/-- C11 fails for the steps that are lock-held sections.  After the send of a message
of type 0 and id 9 with a callback and the receive that delivers it, the packet is in
`prev_packets` and the callback has not been invoked.  The first lock-held section of
`fusionee_poll` moves the packet to the local fifo `prev_msgs` and leaves the fusionee
with `prev_packets` and the ready fifo empty: there `fusionee_wait_processing` returns
0 for type 0 and id 9, though the callback, still on the packet in `prev_msgs`, is
invoked only by the `flush_packets` that follows without the lock. -/
theorem barrier_returns_before_callback :
    registered_callbacks callback_delivered (run (initial_world 1 1) callback_delivered).2
      = [callback_message.entry] ∧
    callback_message.msg_type = 0 ∧ callback_message.msg_id = 9 ∧
    (run (initial_world 1 1) callback_delivered).1.log = [] ∧
    all_callbacks (run (initial_world 1 1) callback_delivered).1.fusionee.prev_packets
      = [callback_message.entry] ∧
    ∃ f1 prev_msgs,
      poll_detach [(run (initial_world 1 1) callback_delivered).1.fusionee] 1
        = some ([f1], prev_msgs) ∧
      all_callbacks prev_msgs = [callback_message.entry] ∧
      f1.packets.length = 0 ∧ f1.prev_packets.length = 0 ∧
      fusionee_wait_processing 1 0 9 [f1] [] = .returned 0 [f1] := by
  refine ⟨by decide, rfl, rfl, by decide, by decide,
    { (run (initial_world 1 1) callback_delivered).1.fusionee with prev_packets := [] },
    (run (initial_world 1 1) callback_delivered).1.fusionee.prev_packets,
    rfl, by decide, by decide, rfl, ?_⟩
  refine fusionee_wait_processing_none [] rfl ?_
  rw [wait_processing_search_none]
  intro p hp
  have e : ({ (run (initial_world 1 1) callback_delivered).1.fusionee with
              prev_packets := [] } : Fusionee).packets = [] := rfl
  rw [e] at hp
  simp at hp

theorem registered_messages_entries : ∀ (ops : List Op) (evs : List Event),
    (registered_messages ops evs).map Message.entry = registered_callbacks ops evs
  | [], _ => rfl
  | _ :: _, [] => rfl
  | op :: ops, ev :: evs => by
    have e : (registered_message op ev).map Message.entry = registered_callback op ev := by
      unfold registered_message registered_callback
      cases op.message with
      | none => rfl
      | some m =>
        by_cases h : ev = Event.send_returned 0 ∧ m.callback ≠ 0
        · simp only [if_pos h]; rfl
        · simp only [if_neg h]; rfl
    simp only [registered_messages, registered_callbacks, List.map_append, e,
      registered_messages_entries ops evs]

/-- C11, amended: the steps are whole calls of the send functions, of
`fusionee_get_messages`, of `fusionee_poll` and of `fusionee_wait_processing`, each
taken to its return or to the point where it sleeps, so that the lock-held section in
which a receive or poll detaches `prev_packets` and the `flush_packets` that follows
it are one step.  In every world that such steps lead to from a fusionee just created:

* a step leaves the packets of `prev_packets` there, adding packets behind them
  and invoking nothing, or it invokes all callbacks of these packets;
* if `fusionee_wait_processing` returns 0 for a type and id, the messages for which a
  callback was registered (sends that returned 0 with a non-null callback, in send
  order) are first those whose callbacks have been invoked, once each and in this
  order, then those whose callbacks are pending on the packets of `prev_packets` and
  of the ready fifo, and none of the latter has this type and id (as 32-bit words). -/
theorem barrier_success_after_callbacks (pid id : Nat) (ops : List Op) (msg_type msg_id : Nat) :
    (∀ op,
      (∃ added, (step (run (initial_world pid id) ops).1 op).1.fusionee.prev_packets
            = (run (initial_world pid id) ops).1.fusionee.prev_packets ++ added ∧
          (step (run (initial_world pid id) ops).1 op).1.log
            = (run (initial_world pid id) ops).1.log) ∨
      (step (run (initial_world pid id) ops).1 op).1.log
        = (run (initial_world pid id) ops).1.log
            ++ all_callbacks (run (initial_world pid id) ops).1.fusionee.prev_packets) ∧
    ((step (run (initial_world pid id) ops).1 (Op.wait_processing msg_type msg_id)).2
        = Event.wait_returned 0 →
      ∃ invoked pending,
        registered_messages ops (run (initial_world pid id) ops).2 = invoked ++ pending ∧
        (registered_messages ops (run (initial_world pid id) ops).2).map Message.entry
          = registered_callbacks ops (run (initial_world pid id) ops).2 ∧
        invoked.map Message.entry = (run (initial_world pid id) ops).1.log ∧
        pending.map Message.entry
          = all_callbacks ((run (initial_world pid id) ops).1.fusionee.prev_packets
              ++ (run (initial_world pid id) ops).1.fusionee.packets) ∧
        ∀ m ∈ pending,
          ¬ (m.msg_type % 4294967296 = msg_type ∧ m.msg_id % 4294967296 = msg_id)) := by
  have hinv0 : (initial_world pid id).fusionee.invariant := by
    refine ⟨?_, ?_, ?_, ?_⟩ <;> simp [initial_world, fusionee_new]
  have hinv := run_invariant ops (initial_world pid id) hinv0
  refine ⟨fun op => step_keeps_or_invokes _ hinv op, fun h => ?_⟩
  have h0 : (initial_world pid id).tracks [] := ⟨[], [], rfl, rfl, rfl⟩
  obtain ⟨inv, pend, e, hlog, htr⟩ := run_tracks ops (initial_world pid id) [] hinv0 h0
  rw [List.nil_append] at e
  have hnone := (wait_processing_search_none _ _ _).1 (step_wait_returned_zero h)
  refine ⟨inv, pend, e, registered_messages_entries _ _, hlog, tracked_entries _ _ htr,
    tracked_no_frame _ _ _ _ htr (fun p hp hf => ?_)⟩
  have hp' : p ∈ (run (initial_world pid id) ops).1.fusionee.packets
      ++ (run (initial_world pid id) ops).1.fusionee.prev_packets := by
    rcases List.mem_append.1 hp with h1 | h2
    · exact List.mem_append_right _ h1
    · exact List.mem_append_left _ h2
  have hwf : p.well_formed := by
    rcases List.mem_append.1 hp with h1 | h2
    · exact hinv.2.1 p h1
    · exact hinv.1 p h2
  have hs := hnone p hp'
  rw [(Packet_Search_iff_has_frame p hwf msg_type msg_id).2 hf] at hs
  exact Bool.noConfusion hs

theorem barrier_success_after_callbacks_witness :
    (step (run (initial_world 1 1) (callback_delivered ++ [Op.poll])).1
        (Op.wait_processing 0 9)).2 = Event.wait_returned 0 ∧
    ∃ invoked pending,
      registered_messages (callback_delivered ++ [Op.poll])
        (run (initial_world 1 1) (callback_delivered ++ [Op.poll])).2 = invoked ++ pending ∧
      (registered_messages (callback_delivered ++ [Op.poll])
        (run (initial_world 1 1) (callback_delivered ++ [Op.poll])).2).map Message.entry
        = registered_callbacks (callback_delivered ++ [Op.poll])
            (run (initial_world 1 1) (callback_delivered ++ [Op.poll])).2 ∧
      invoked.map Message.entry
        = (run (initial_world 1 1) (callback_delivered ++ [Op.poll])).1.log ∧
      pending.map Message.entry
        = all_callbacks
            ((run (initial_world 1 1) (callback_delivered ++ [Op.poll])).1.fusionee.prev_packets
              ++ (run (initial_world 1 1) (callback_delivered ++ [Op.poll])).1.fusionee.packets) ∧
      ∀ m ∈ pending, ¬ (m.msg_type % 4294967296 = 0 ∧ m.msg_id % 4294967296 = 9) :=
  ⟨by decide,
    (barrier_success_after_callbacks 1 1 (callback_delivered ++ [Op.poll]) 0 9).2 (by decide)⟩

/-- In the example the poll as a whole call invokes the callback: after it the log holds
the entry, and the barrier for type 0 and id 9 returns 0; before the poll the barrier
sleeps. -/
theorem example_barrier_after_poll :
    (run (initial_world 1 1) (callback_delivered ++ [Op.poll])).1.log
      = [callback_message.entry] ∧
    (step (run (initial_world 1 1) callback_delivered).1 (Op.wait_processing 0 9)).2
      = Event.wait_sleeping ∧
    (step (run (initial_world 1 1) (callback_delivered ++ [Op.poll])).1
      (Op.wait_processing 0 9)).2 = Event.wait_returned 0 := by
  decide

theorem run_append (ops1 ops2 : List Op) : ∀ (w : World),
    (run w (ops1 ++ ops2)).1 = (run (run w ops1).1 ops2).1 := by
  induction ops1 with
  | nil => intro w; rfl
  | cons op ops ih => intro w; exact ih (step w op).1

/-- C13: in every world that sends, receives, polls and waits lead to from a fusionee
just created, every packet of the free fifo has used length 0, is not flush-marked and
has no callbacks.  So whenever `Fusionee_GetPacket` there returns having appended a
packet to the ready fifo, that packet is the one returned, it is behind the old
packets of the ready fifo (the old tail now flush-marked), it has used length 0, is
not flush-marked and has no callbacks, and it is the head of the free fifo if that was
not empty and else the packet that `Packet_New` made.  With a free fifo that is not
empty or an allocation that succeeds, `Fusionee_GetPacket` does return a packet. -/
theorem opened_packet_is_reset (w : World) (hr : Reachable w) (size : Nat)
    (alloc : Option Mem) :
    (∀ p ∈ w.fusionee.free_packets, p.size = 0 ∧ p.flush = false ∧ p.callbacks = []) ∧
    (∀ f1 packet, Fusionee_GetPacket w.fusionee size alloc = some (f1, some packet) →
      f1.packets.length = w.fusionee.packets.length + 1 →
      f1.packets = flush_last w.fusionee.packets ++ [packet] ∧
      packet.size = 0 ∧ packet.flush = false ∧ packet.callbacks = [] ∧
      (w.fusionee.free_packets = packet :: f1.free_packets ∨
        (w.fusionee.free_packets = [] ∧ f1.free_packets = [] ∧
          Packet_New alloc = some packet))) ∧
    (size ≤ FUSION_MAX_PACKET_SIZE → (w.fusionee.free_packets ≠ [] ∨ alloc ≠ none) →
      ∃ f1 packet, Fusionee_GetPacket w.fusionee size alloc = some (f1, some packet)) := by
  have hinv := hr.invariant
  refine ⟨hinv.2.2.2, ?_, ?_⟩
  · intro f1 packet h hlen
    obtain ⟨_, h1 | h2⟩ := Fusionee_GetPacket_spec h
    · obtain ⟨_, _, _, _, hf, _⟩ := h1
      rw [hf] at hlen
      omega
    · obtain ⟨_, hr', hf⟩ := h2
      have hp : f1.packets = flush_last w.fusionee.packets ++ [packet] := by rw [hf]; rfl
      have hfree : f1.free_packets = (acquire_packet w.fusionee.free_packets alloc).2 := by
        rw [hf]
      rcases acquire_packet_some hr'.symm with hq | hq
      · have hreset := hinv.2.2.2 packet (by rw [hq]; exact List.mem_cons_self _ _)
        exact ⟨hp, hreset.1, hreset.2.1, hreset.2.2, Or.inl (by rw [hfree]; exact hq)⟩
      · refine ⟨hp, hq.2.2.1, hq.2.2.2.1, hq.2.2.2.2, Or.inr ⟨hq.1, by rw [hfree]; exact hq.2.1, ?_⟩⟩
        have e := hr'.symm
        unfold acquire_packet at e
        rw [hq.1] at e
        exact e
  · intro hsize hsrc
    unfold Fusionee_GetPacket
    rw [if_pos hsize]
    simp only []
    split
    · have hgot : ∃ q, (acquire_packet w.fusionee.free_packets alloc).1 = some q := by
        unfold acquire_packet
        cases hfr : w.fusionee.free_packets with
        | nil =>
          rw [hfr] at hsrc
          cases halloc : alloc with
          | none => rw [halloc] at hsrc; simp at hsrc
          | some g => exact ⟨_, rfl⟩
        | cons q rest => exact ⟨q, rfl⟩
      obtain ⟨q, hq⟩ := hgot
      rw [hq]
      exact ⟨_, _, rfl⟩
    · rename_i hnn
      cases hl : w.fusionee.packets.getLast? with
      | none => rw [hl] at hnn; simp at hnn
      | some q => exact ⟨_, _, rfl⟩

theorem opened_packet_is_reset_witness :
    Reachable (initial_world 1 1) ∧
    ∃ f1 packet, Fusionee_GetPacket (initial_world 1 1).fusionee 20 (some (fun _ => 255))
        = some (f1, some packet) ∧
      f1.packets.length = 1 ∧ packet.size = 0 ∧ packet.flush = false ∧ packet.callbacks = [] :=
  ⟨⟨1, 1, [], rfl⟩,
    _, _, rfl, rfl,
    ((opened_packet_is_reset (initial_world 1 1) ⟨1, 1, [], rfl⟩ 20
      (some (fun _ => 255))).2.1 _ _ rfl rfl).2.1,
    ((opened_packet_is_reset (initial_world 1 1) ⟨1, 1, [], rfl⟩ 20
      (some (fun _ => 255))).2.1 _ _ rfl rfl).2.2.1,
    ((opened_packet_is_reset (initial_world 1 1) ⟨1, 1, [], rfl⟩ 20
      (some (fun _ => 255))).2.1 _ _ rfl rfl).2.2.2.1⟩

/-- After a send and a receive that delivers its packet, the packet is on the free fifo
with used length 0, not flush-marked and without callbacks, though its buffer still
holds the bytes of the frame. -/
theorem example_recycled_packet :
    ((run (initial_world 1 1)
        [Op.send Sender.null small_message alloc_ok,
         Op.get_messages 5 64 64 false]).1.fusionee.free_packets.map
      (fun p => (p.size, p.flush, p.callbacks, p.buf 16))) = [(0, false, [], 112)] := by
  decide

theorem fusionee_send_message2_locked (sender : Sender) (m : Message) (a : Alloc)
    (f : Fusionee) (wakes : List (Wake Fusionee)) (hlen : f.packets.length ≤ 10) :
    fusionee_send_message2 sender m a f wakes = send_locked sender f m a := by
  cases wakes with
  | nil => unfold fusionee_send_message2; rw [if_neg (by omega)]
  | cons k ks => unfold fusionee_send_message2; rw [if_neg (by omega)]

theorem fusionee_send_message_locked (dev : List Fusionee) (sender : Sender) (recipient : Nat)
    (m : Message) (a : Alloc) (f : Fusionee) (wakes : List (Wake Fusionee))
    (hreg : lookup_fusionee dev recipient = some f) (hlen : f.packets.length ≤ 10) :
    fusionee_send_message dev sender recipient m a wakes = some (send_locked sender f m a) := by
  simp only [fusionee_send_message, hreg, fusionee_send_message_again_eq,
    fusionee_send_message2_locked sender m a f wakes hlen]

theorem flush_last_view (l : List Packet) :
    (flush_last l).map (fun p => (p.size, p.callbacks, p.bytes))
      = l.map (fun p => (p.size, p.callbacks, p.bytes)) := by
  rcases List.eq_nil_or_concat l with rfl | ⟨init, q, rfl⟩
  · rfl
  · rw [List.concat_eq_append, flush_last_snoc]
    simp only [List.map_append, List.map_cons, List.map_nil]
    rfl

/-- C14 fails on the code.  A send whose `Packet_Write` faults, to a fusionee with an empty
ready fifo, returns `-EFAULT` and leaves on the ready fifo the packet that
`Fusionee_GetPacket` opened.  The same send of a frame for which the tail packet, not
flush-marked, has no room leaves the old tail flush-marked and a new packet behind
it. -/
theorem write_fault_alters_ready :
    (step (initial_world 1 1) (Op.send Sender.null faulting_message alloc_ok)).2
      = Event.send_returned (-EFAULT) ∧
    (initial_world 1 1).fusionee.packets.length = 0 ∧
    (step (initial_world 1 1)
      (Op.send Sender.null faulting_message alloc_ok)).1.fusionee.packets.length = 1 ∧
    one_call_world.fusionee.packets.map Packet.flush = [false] ∧
    (step one_call_world (Op.send Sender.null full_faulting_message alloc_ok)).2
      = Event.send_returned (-EFAULT) ∧
    (step one_call_world (Op.send Sender.null full_faulting_message
      alloc_ok)).1.fusionee.packets.map Packet.flush = [true, false] ∧
    (step one_call_world (Op.send_by_id Sender.null full_faulting_message
      alloc_ok)).1.fusionee.packets.map Packet.flush = [true, false] := by
  decide

theorem snoc_inj {α : Type} {l1 l2 : List α} {a b : α} (h : l1 ++ [a] = l2 ++ [b]) :
    l1 = l2 ∧ a = b := by
  have h1 := List.append_inj' h rfl
  exact ⟨h1.1, by simpa using h1.2⟩

theorem Packet_Write_fault_view {p p1 : Packet} {t mid ch n m : Nat} {d : UserPtr}
    {e : Option UserPtr} {fu : Bool} {ret : Int}
    (h : Packet_Write p t mid ch d n e m fu = some (ret, p1)) (hne : ret ≠ 0) :
    ret = -EFAULT ∧ p1.view = p.view := by
  obtain ⟨hfl, hcbs, _, hret, hsame, _, _⟩ := Packet_Write_frame h
  refine ⟨by rcases hret with h0 | h0; exact absurd h0 hne; exact h0, ?_⟩
  unfold Packet.view
  rw [hsame hne, hfl, hcbs, Packet_bytes_congr (hsame hne) (Packet_Write_below h)]

/-- C14, amended: a send to a fusionee in a reachable world, with at most ten packets on
the ready fifo so that it does not sleep, in which `Fusionee_GetPacket` returns a packet
and `Packet_Write` on it fails.  Either send function then returns `-EFAULT`, the
counters and `prev_packets` are as before, and every packet that was on the ready fifo
is still there, in the same order, with the used length, the callbacks and the bytes
it had.  If the tail packet had room for the frame, the ready fifo holds the same
packets with the same flush flags, and the free fifo is as before.  If the ready fifo
was empty or its tail had no room, what `Fusionee_GetPacket` did stays: the old tail is
flush-marked and a new packet, empty and not flush-marked, is behind it. -/
theorem write_fault_keeps_packets (w : World) (hr : Reachable w) (sender : Sender)
    (m : Message) (a : Alloc) (dev : List Fusionee) (recipient : Nat)
    (wakes : List (Wake Fusionee))
    (hreg : lookup_fusionee dev recipient = some w.fusionee)
    (hlen : w.fusionee.packets.length ≤ 10)
    (f1 : Fusionee) (packet p1 : Packet) (ret1 : Int)
    (hg : Fusionee_GetPacket w.fusionee (sizeof_FusionReadMessage + m.msg_size + m.extra_size)
        a.packet = some (f1, some packet))
    (hw : Packet_Write packet m.msg_type m.msg_id m.msg_channel m.msg_data m.msg_size
        m.extra_data m.extra_size (m.msg_type != FMT_CALL && m.msg_type != FMT_SHMPOOL)
        = some (ret1, p1))
    (hne : ret1 ≠ 0) :
    ∃ f', fusionee_send_message2 sender m a w.fusionee wakes = .returned (-EFAULT) f' sender ∧
      fusionee_send_message dev sender recipient m a wakes
        = some (.returned (-EFAULT) f' sender) ∧
      f'.rcv_total = w.fusionee.rcv_total ∧ f'.snd_total = w.fusionee.snd_total ∧
      f'.prev_packets = w.fusionee.prev_packets ∧
      (f'.packets.take w.fusionee.packets.length).map (fun p => (p.size, p.callbacks, p.bytes))
        = w.fusionee.packets.map (fun p => (p.size, p.callbacks, p.bytes)) ∧
      ((∃ init q, w.fusionee.packets = init ++ [q] ∧
          q.size + (sizeof_FusionReadMessage + m.msg_size + m.extra_size)
            ≤ FUSION_MAX_PACKET_SIZE) →
        f'.packets.map Packet.view = w.fusionee.packets.map Packet.view ∧
        f'.free_packets = w.fusionee.free_packets) ∧
      ((w.fusionee.packets = [] ∨ ∃ init q, w.fusionee.packets = init ++ [q] ∧
          q.size + (sizeof_FusionReadMessage + m.msg_size + m.extra_size)
            > FUSION_MAX_PACKET_SIZE) →
        f'.packets.map Packet.view
          = (flush_last w.fusionee.packets).map Packet.view ++ [(0, false, [], [])]) := by
  have hinv := hr.invariant
  obtain ⟨hret, hview⟩ := Packet_Write_fault_view hw hne
  have hl : send_locked sender w.fusionee m a
      = .returned (-EFAULT) { f1 with packets := f1.packets.dropLast ++ [p1] } sender := by
    unfold send_locked
    rw [hg]
    simp only [hw, if_pos hne, hret]
    rfl
  have htail := Fusionee_GetPacket_tail hg
  have hmap : (f1.packets.dropLast ++ [p1]).map Packet.view = f1.packets.map Packet.view := by
    conv => rhs; rw [htail]
    simp only [List.map_append, List.map_cons, List.map_nil, hview]
  have hthree : ∀ l1 l2 : List Packet, l1.map Packet.view = l2.map Packet.view →
      l1.map (fun p => (p.size, p.callbacks, p.bytes))
        = l2.map (fun p => (p.size, p.callbacks, p.bytes)) := by
    intro l1 l2 h
    have := congrArg (List.map (fun v : Nat × Bool × List MessageCallback × List Nat =>
      (v.1, v.2.2.1, v.2.2.2))) h
    simpa [List.map_map, Function.comp_def, Packet.view] using this
  refine ⟨_, by rw [fusionee_send_message2_locked sender m a _ wakes hlen, hl],
    by rw [fusionee_send_message_locked dev sender recipient m a _ wakes hreg hlen, hl],
    ?_, ?_, ?_, ?_, ?_, ?_⟩
  all_goals obtain ⟨_, h1 | h2⟩ := Fusionee_GetPacket_spec hg
  · obtain ⟨_, _, _, _, hf, _⟩ := h1; rw [hf]
  · obtain ⟨_, _, hf⟩ := h2; rw [hf]
  · obtain ⟨_, _, _, _, hf, _⟩ := h1; rw [hf]
  · obtain ⟨_, _, hf⟩ := h2; rw [hf]
  · obtain ⟨_, _, _, _, hf, _⟩ := h1; rw [hf]
  · obtain ⟨_, _, hf⟩ := h2; rw [hf]
  · obtain ⟨_, _, _, _, hf, _⟩ := h1
    show (List.take _ (f1.packets.dropLast ++ [p1])).map _ = _
    have e : (f1.packets.dropLast ++ [p1]).length = w.fusionee.packets.length := by
      rw [← hf]; simp
      have := congrArg List.length htail
      simp at this
      omega
    rw [← e, List.take_length, hthree _ _ hmap, hf]
  · obtain ⟨_, _, hf⟩ := h2
    show (List.take _ (f1.packets.dropLast ++ [p1])).map _ = _
    have e1 : f1.packets = flush_last w.fusionee.packets ++ [packet] := by rw [hf]; rfl
    have e2 : f1.packets.dropLast = flush_last w.fusionee.packets := by
      rw [e1, List.dropLast_concat]
    rw [e2, ← flush_last_length w.fusionee.packets, List.take_left', flush_last_view]
    rfl
  · obtain ⟨_, _, _, _, hf, _⟩ := h1
    intro _
    exact ⟨by rw [← hf]; exact hmap, by rw [hf]⟩
  · obtain ⟨hcase, _, _⟩ := h2
    rintro ⟨init, q, hq, hroom⟩
    rcases hcase with h0 | ⟨init2, q2, hq2, hno⟩
    · rw [h0] at hq; simp at hq
    · rw [hq] at hq2
      obtain ⟨_, rfl⟩ := snoc_inj hq2
      omega
  · obtain ⟨init, q, hq, hroom, _, _⟩ := h1
    rintro (h0 | ⟨init2, q2, hq2, hno⟩)
    · rw [h0] at hq; simp at hq
    · rw [hq] at hq2
      obtain ⟨_, rfl⟩ := snoc_inj hq2
      omega
  · obtain ⟨_, hr', hf⟩ := h2
    intro _
    have e1 : f1.packets = flush_last w.fusionee.packets ++ [packet] := by rw [hf]; rfl
    have hreset : packet.is_reset := by
      rcases acquire_packet_some hr'.symm with hq | hq
      · exact hinv.2.2.2 packet (by rw [hq]; exact List.mem_cons_self _ _)
      · exact hq.2.2
    have hv : packet.view = (0, false, [], []) := by
      unfold Packet.view
      rw [hreset.1, hreset.2.1, hreset.2.2, hreset.bytes.1]
    show (f1.packets.dropLast ++ [p1]).map Packet.view = _
    rw [hmap, e1, List.map_append, List.map_cons, List.map_nil, hv]

theorem write_fault_keeps_packets_witness :
    Reachable (initial_world 1 1) ∧
    lookup_fusionee [(initial_world 1 1).fusionee] 1 = some (initial_world 1 1).fusionee ∧
    (initial_world 1 1).fusionee.packets.length ≤ 10 ∧
    ∃ f', fusionee_send_message2 Sender.null faulting_message alloc_ok
          (initial_world 1 1).fusionee [] = .returned (-EFAULT) f' Sender.null ∧
      fusionee_send_message [(initial_world 1 1).fusionee] Sender.null 1 faulting_message
          alloc_ok [] = some (.returned (-EFAULT) f' Sender.null) ∧
      f'.rcv_total = 0 ∧
      f'.packets.map Packet.view = [(0, false, [], [])] := by
  obtain ⟨f', h1, h2, h3, _, _, _, _, h8⟩ :=
    write_fault_keeps_packets (initial_world 1 1) ⟨1, 1, [], rfl⟩ Sender.null faulting_message
      alloc_ok [(initial_world 1 1).fusionee] 1 [] rfl (by decide) _ _ _ _ rfl rfl (by decide)
  exact ⟨⟨1, 1, [], rfl⟩, rfl, by decide, f', h1, h2, h3, h8 (Or.inl rfl)⟩

theorem Packet_Search_congr {p q : Packet} (hwf : p.well_formed) (hs : q.size = p.size)
    (hb : ∀ i, i < p.size → q.buf i = p.buf i) (t mid : Nat) :
    Packet_Search q t mid = Packet_Search p t mid := by
  obtain ⟨⟨hs0, hl, hsz⟩, hcap, _⟩ := hwf
  have hl2 : Layout q.buf 0 hs0 := by
    refine Layout_congr hs0 0 (fun j _ hj => ?_) hl
    rw [Nat.zero_add, ← hsz] at hj
    exact (hb j hj).symm
  rw [Packet_Search_of_layout p hs0 hl hsz hcap, Packet_Search_of_layout q hs0 hl2
    (by rw [hs, hsz]) (by rw [hs]; exact hcap)]

/-- C15: a send to a fusionee in a reachable world, with at most ten packets on the ready
fifo so that it does not sleep, in which `Fusionee_GetPacket` returns a packet,
`Packet_Write` on it returns 0, a callback is given and `Packet_AddCallback` fails.
Either send function then returns `-ENOMEM` with the sender as it was, the counters of
the receiver are unchanged, and the packet that `Fusionee_GetPacket` returned, which is
the tail of the ready fifo, has its used length, callbacks, flush flag and bytes as
before `Packet_Write`; `Packet_Search` on it finds what it found before. -/
theorem callback_failure_rolls_back (w : World) (hr : Reachable w) (sender : Sender)
    (m : Message) (a : Alloc) (dev : List Fusionee) (recipient : Nat)
    (wakes : List (Wake Fusionee))
    (hreg : lookup_fusionee dev recipient = some w.fusionee)
    (hlen : w.fusionee.packets.length ≤ 10)
    (f1 : Fusionee) (packet p1 : Packet)
    (hg : Fusionee_GetPacket w.fusionee (sizeof_FusionReadMessage + m.msg_size + m.extra_size)
        a.packet = some (f1, some packet))
    (hw : Packet_Write packet m.msg_type m.msg_id m.msg_channel m.msg_data m.msg_size
        m.extra_data m.extra_size (m.msg_type != FMT_CALL && m.msg_type != FMT_SHMPOOL)
        = some (0, p1))
    (hcb : m.callback ≠ 0) (halloc : a.callback = false) :
    ∃ f' target,
      fusionee_send_message2 sender m a w.fusionee wakes = .returned (-ENOMEM) f' sender ∧
      fusionee_send_message dev sender recipient m a wakes
        = some (.returned (-ENOMEM) f' sender) ∧
      f'.rcv_total = w.fusionee.rcv_total ∧ f'.snd_total = w.fusionee.snd_total ∧
      f'.prev_packets = w.fusionee.prev_packets ∧
      f1.packets = f1.packets.dropLast ++ [packet] ∧
      f'.packets = f1.packets.dropLast ++ [target] ∧
      target.size = packet.size ∧ target.callbacks = packet.callbacks ∧
      target.flush = packet.flush ∧ target.bytes = packet.bytes ∧
      ∀ msg_type msg_id,
        Packet_Search target msg_type msg_id = Packet_Search packet msg_type msg_id := by
  have hinv1 := Fusionee_GetPacket_invariant hr.invariant hg
  have htail := Fusionee_GetPacket_tail hg
  have hwf : packet.well_formed :=
    hinv1.1 packet (by rw [htail]; exact List.mem_append_right _ (List.mem_singleton_self _))
  obtain ⟨hfl, hcbs, _⟩ := Packet_Write_frame hw
  have hbelow := Packet_Write_below hw
  have hl : send_locked sender w.fusionee m a
      = .returned (-ENOMEM)
          { f1 with packets := f1.packets.dropLast ++ [{ p1 with size := packet.size }] }
          sender := by
    unfold send_locked
    rw [hg]
    simp only [hw, if_pos hcb, Packet_AddCallback, halloc]
    rfl
  have hcount : f1.rcv_total = w.fusionee.rcv_total ∧ f1.snd_total = w.fusionee.snd_total ∧
      f1.prev_packets = w.fusionee.prev_packets := by
    obtain ⟨_, h1 | h2⟩ := Fusionee_GetPacket_spec hg
    · obtain ⟨_, _, _, _, hf, _⟩ := h1; rw [hf]; exact ⟨rfl, rfl, rfl⟩
    · obtain ⟨_, _, hf⟩ := h2; rw [hf]; exact ⟨rfl, rfl, rfl⟩
  exact ⟨{ f1 with packets := f1.packets.dropLast ++ [{ p1 with size := packet.size }] },
    { p1 with size := packet.size },
    by rw [fusionee_send_message2_locked sender m a _ wakes hlen, hl],
    by rw [fusionee_send_message_locked dev sender recipient m a _ wakes hreg hlen, hl],
    hcount.1, hcount.2.1, hcount.2.2, htail, rfl, rfl, hcbs, hfl,
    Packet_bytes_congr rfl hbelow,
    fun t mid => Packet_Search_congr (q := { p1 with size := packet.size }) hwf rfl hbelow
      t mid⟩

theorem callback_failure_rolls_back_witness :
    Reachable (initial_world 1 1) ∧
    lookup_fusionee [(initial_world 1 1).fusionee] 1 = some (initial_world 1 1).fusionee ∧
    callback_message.callback ≠ 0 ∧ alloc_no_callback.callback = false ∧
    ∃ f' target,
      fusionee_send_message2 Sender.self callback_message alloc_no_callback
        (initial_world 1 1).fusionee [] = .returned (-ENOMEM) f' Sender.self ∧
      f'.rcv_total = 0 ∧ f'.snd_total = 0 ∧
      f'.packets = [target] ∧ target.size = 0 ∧ target.callbacks = [] ∧
      target.flush = false ∧
      Packet_Search target 0 9 = false := by
  obtain ⟨f', target, h1, _, h3, h4, _, _, h7, h8, h9, h10, _, h12⟩ :=
    callback_failure_rolls_back (initial_world 1 1) ⟨1, 1, [], rfl⟩ Sender.self
      callback_message alloc_no_callback [(initial_world 1 1).fusionee] 1 [] rfl (by decide)
      _ _ _ rfl rfl (by decide) rfl
  exact ⟨⟨1, 1, [], rfl⟩, rfl, by decide, rfl, f', target, h1, h3, h4, h7, h8, h9, h10,
    by rw [h12]; rfl⟩

/-- In the example the frame is in the buffer of the packet after the failed send, but
outside its used part: the packet has used length 0 and the search does not see the
frame, which a search over twenty bytes would. -/
theorem example_rolled_back_frame :
    ((step (initial_world 1 1)
        (Op.send Sender.self callback_message alloc_no_callback)).1.fusionee.packets.map
      (fun p => (p.size, p.callbacks, Packet_Search p 0 9,
        Packet_Search { p with size := 20 } 0 9))) = [(0, [], false, true)] ∧
    (step (initial_world 1 1) (Op.send Sender.self callback_message alloc_no_callback)).2
      = Event.send_returned (-ENOMEM) := by
  decide

/-- C17: the format of a frame.  For a call of `Packet_Write` with `n` payload bytes and
`m` extra bytes (extra bytes only with a pointer to them) on a packet with used length
`u = p.size`:

* if the call returns 0, the capacity assertion held, the bytes below `u` are
  unchanged, the bytes from `u` on are the four header words type, id, channel and
  `n + m`, least significant byte first, then the `n` payload bytes, then the `m`
  extra bytes, then zero bytes up to the next multiple of four, and the used length is
  `u + 16 + roundup4 (n + m)`; flush flag and callbacks are unchanged;
* the call does return 0 when the frame fits and the sources can be read. -/
theorem Packet_Write_format (p p1 : Packet) (type msg_id channel : Nat) (msg_data : UserPtr)
    (n : Nat) (extra_data : Option UserPtr) (m : Nat) (from_user : Bool)
    (hextra : extra_data = none → m = 0) :
    (Packet_Write p type msg_id channel msg_data n extra_data m from_user = some (0, p1) →
      p.size + (16 + n + m + 3) / 4 * 4 ≤ FUSION_MAX_PACKET_SIZE ∧
      (∀ i, i < p.size → p1.buf i = p.buf i) ∧
      p1.bytes = p.bytes ++ (le32 type ++ le32 msg_id ++ le32 channel ++ le32 (n + m)
          ++ (List.range n).map msg_data.mem ++ extra_bytes extra_data m
          ++ List.replicate ((n + m + 3) / 4 * 4 - (n + m)) 0) ∧
      p1.size = p.size + 16 + (n + m + 3) / 4 * 4 ∧
      p1.flush = p.flush ∧ p1.callbacks = p.callbacks) ∧
    (p.size + (16 + n + m + 3) / 4 * 4 ≤ FUSION_MAX_PACKET_SIZE →
      (from_user = true → n ≤ msg_data.accessible) →
      (∀ e, extra_data = some e → m ≤ e.accessible) →
      ∃ q, Packet_Write p type msg_id channel msg_data n extra_data m from_user
        = some (0, q)) := by
  constructor
  · intro h
    obtain ⟨hfl, hcbs, _, _, _, hsize, hcap⟩ := Packet_Write_frame h
    have hb := @Packet_write_appends p p1
      { type := type, msg_id := msg_id, channel := channel, msg_data := msg_data,
        msg_size := n, extra_data := extra_data, extra_size := m, from_user := from_user }
      h hextra
    have hpad : (sizeof_FusionReadMessage + n + m + 3) / 4 * 4
        - (sizeof_FusionReadMessage + n + m) = (n + m + 3) / 4 * 4 - (n + m) := by
      simp only [sizeof_FusionReadMessage]; omega
    refine ⟨by simpa [sizeof_FusionReadMessage] using hcap, Packet_Write_below h, ?_, ?_,
      hfl, hcbs⟩
    · rw [hb]
      simp only [WriteArgs.frame_bytes, hpad, List.append_assoc]
    · rw [hsize rfl]
      simp only [sizeof_FusionReadMessage]; omega
  · intro hcap h1 h2
    exact Packet_write_ok p
      { type := type, msg_id := msg_id, channel := channel, msg_data := msg_data,
        msg_size := n, extra_data := extra_data, extra_size := m, from_user := from_user }
      (by simp only [frame_stride, WriteArgs.header, sizeof_FusionReadMessage]; omega)
      ⟨h1, h2⟩

/-- The frame of the example: type 1, id 8, channel 3, five payload bytes 170, two extra
bytes 187, written to an empty packet whose buffer holds bytes 255. -/
theorem Packet_Write_format_witness :
    ((some { mem := fun _ => 187, accessible := 2 } : Option UserPtr) = none → 2 = 0) ∧
    ∃ q, Packet_Write example_packet 1 8 3 { mem := fun _ => 170, accessible := 0 } 5
          (some { mem := fun _ => 187, accessible := 2 }) 2 false = some (0, q) ∧
      q.size = 24 ∧
      q.bytes = [1, 0, 0, 0, 8, 0, 0, 0, 3, 0, 0, 0, 7, 0, 0, 0,
                 170, 170, 170, 170, 170, 187, 187, 0] := by
  have hx : (some { mem := fun _ => 187, accessible := 2 } : Option UserPtr) = none → 2 = 0 :=
    fun h => Option.noConfusion h
  obtain ⟨q, hq⟩ := (Packet_Write_format example_packet example_packet 1 8 3
    { mem := fun _ => 170, accessible := 0 } 5 (some { mem := fun _ => 187, accessible := 2 })
    2 false hx).2 (by decide) (by decide) (by intro e he; cases he; decide)
  obtain ⟨_, _, hb, hs, _, _⟩ := (Packet_Write_format example_packet q 1 8 3
    { mem := fun _ => 170, accessible := 0 } 5 (some { mem := fun _ => 187, accessible := 2 })
    2 false hx).1 hq
  refine ⟨hx, q, hq, by rw [hs]; rfl, ?_⟩
  rw [hb]
  decide

theorem head_flushed_iff (f : Fusionee) :
    head_flushed f = true ↔ ∃ p ps, f.packets = p :: ps ∧ p.flush = true := by
  unfold head_flushed
  cases h : f.packets with
  | nil => simp
  | cons p ps => simp

/-- C18: `fusionee_poll` for a fusionee that `lock_fusionee` finds in the list of the
device.  It returns `POLLIN | POLLRDNORM` if and only if the ready fifo is not empty and
its head packet is flush-marked, and 0 otherwise; the fusionee is afterwards at the
head of the list with the ready fifo and the counters it had. -/
theorem poll_reports_flushed_head (dev rest : List Fusionee) (id : Nat) (f : Fusionee)
    (log : List MessageCallback) (hlock : lock_fusionee dev id = some (f, rest)) :
    ((fusionee_poll dev id log).1 = POLLIN ||| POLLRDNORM ↔
      ∃ p ps, f.packets = p :: ps ∧ p.flush = true) ∧
    ((¬ ∃ p ps, f.packets = p :: ps ∧ p.flush = true) → (fusionee_poll dev id log).1 = 0) ∧
    ∃ f', (fusionee_poll dev id log).2.1 = f' :: rest ∧ f'.packets = f.packets ∧
      f'.rcv_total = f.rcv_total ∧ f'.snd_total = f.snd_total ∧ f'.id = f.id := by
  obtain ⟨f1, _, f3, f4, f5, _, _, _, _⟩ :=
    flush_packets_fields f.prev_packets { f with prev_packets := [] } log
  have hid : (flush_packets { f with prev_packets := [] } log f.prev_packets).1.id = id := by
    rw [f5]; exact lock_fusionee_id (f := f) hlock
  have hl2 : lock_fusionee
      ((flush_packets { f with prev_packets := [] } log f.prev_packets).1 :: rest) id
      = some ((flush_packets { f with prev_packets := [] } log f.prev_packets).1, rest) := by
    have := lock_fusionee_head
      (flush_packets { f with prev_packets := [] } log f.prev_packets).1 rest
    rw [hid] at this
    exact this
  have hhf : head_flushed (flush_packets { f with prev_packets := [] } log f.prev_packets).1
      = head_flushed f := head_flushed_congr f1
  have e : fusionee_poll dev id log =
      (if head_flushed f then POLLIN ||| POLLRDNORM else 0,
       (flush_packets { f with prev_packets := [] } log f.prev_packets).1 :: rest,
       (flush_packets { f with prev_packets := [] } log f.prev_packets).2) := by
    unfold fusionee_poll
    rw [hlock]
    simp only [hl2, hhf]
    split <;> rfl
  rw [e, ← head_flushed_iff]
  refine ⟨?_, ?_, _, rfl, f1, f3, f4, f5⟩
  · by_cases h : head_flushed f = true
    · simp [h]
    · simp [h, POLLIN, POLLRDNORM]
  · intro h
    simp [h]

theorem poll_reports_flushed_head_witness :
    lock_fusionee [one_sent_world.fusionee] 1 = some (one_sent_world.fusionee, []) ∧
    (fusionee_poll [one_sent_world.fusionee] 1 []).1 = POLLIN ||| POLLRDNORM ∧
    ∃ p ps, one_sent_world.fusionee.packets = p :: ps ∧ p.flush = true :=
  ⟨rfl, by decide,
    (poll_reports_flushed_head [one_sent_world.fusionee] [] 1 one_sent_world.fusionee [] rfl).1.1
      (by decide)⟩

/-- Poll reports 0 for a fusionee just created and for one whose only packet holds a
coalesced call, and `POLLERR` for an id that is not registered. -/
theorem example_poll_events :
    (fusionee_poll [(initial_world 1 1).fusionee] 1 []).1 = 0 ∧
    (fusionee_poll [one_call_world.fusionee] 1 []).1 = 0 ∧
    (fusionee_poll [one_sent_world.fusionee] 2 []).1 = POLLERR := by
  decide

theorem Fusionee_PutPacket_traced_eq (f : Fusionee) (p : Packet) :
    (Fusionee_PutPacket_traced f p).1 = Fusionee_PutPacket f p := by
  unfold Fusionee_PutPacket_traced Fusionee_PutPacket
  split <;> rfl

theorem flush_packets_traced_eq (fifo : List Packet) :
    ∀ (f : Fusionee) (log : List MessageCallback) (freed : List Packet),
    (flush_packets_traced f log freed fifo).1 = (flush_packets f log fifo).1 ∧
    (flush_packets_traced f log freed fifo).2.1 = (flush_packets f log fifo).2 := by
  induction fifo with
  | nil => intro f log freed; exact ⟨rfl, rfl⟩
  | cons p ps ih =>
    intro f log freed
    unfold flush_packets_traced flush_packets
    simp only [Fusionee_PutPacket_traced_eq]
    exact ih _ _ _

theorem free_packets_spec (fifo : List Packet) : ∀ (freed : List Packet),
    free_packets fifo freed = ([], freed ++ fifo) := by
  induction fifo with
  | nil => intro freed; simp [free_packets]
  | cons p ps ih => intro freed; simp [free_packets, ih]

theorem Fusionee_PutPacket_traced_bufs (f : Fusionee) (p : Packet) (freed : List Packet) :
    List.Perm
      ((freed ++ (Fusionee_PutPacket_traced f p).2
          ++ (Fusionee_PutPacket_traced f p).1.free_packets).map Packet.buf)
      ((freed ++ f.free_packets).map Packet.buf ++ [p.buf]) := by
  unfold Fusionee_PutPacket_traced
  split
  · simp only [List.map_append, List.map_cons, List.map_nil, List.append_assoc]
    exact List.Perm.append_left _ List.perm_append_comm
  · simp only [fusion_fifo_put, List.map_append, List.map_cons, List.map_nil,
      List.append_nil, List.append_assoc]
    exact List.Perm.refl _

theorem Fusionee_PutPacket_traced_callbacks (f : Fusionee) (p : Packet)
    (hp : p.callbacks = []) (hf : ∀ q ∈ f.free_packets, q.callbacks = []) :
    (∀ q ∈ (Fusionee_PutPacket_traced f p).2, q.callbacks = []) ∧
    (∀ q ∈ (Fusionee_PutPacket_traced f p).1.free_packets, q.callbacks = []) := by
  unfold Fusionee_PutPacket_traced
  split
  · exact ⟨fun q hq => by rw [List.mem_singleton.1 hq]; exact hp, hf⟩
  · refine ⟨fun q hq => by simp at hq, fun q hq => ?_⟩
    simp only [fusion_fifo_put, List.mem_append, List.mem_singleton] at hq
    rcases hq with h | h
    · exact hf q h
    · rw [h]

/-- The packets freed by `flush_packets` and those on the free fifo afterwards are, up to
order, the packets freed before, those on the free fifo before, and those of the fifo
that was flushed; none of them has a callback entry left. -/
theorem flush_packets_traced_freed (fifo : List Packet) :
    ∀ (f : Fusionee) (log : List MessageCallback) (freed : List Packet),
    List.Perm
      (((flush_packets_traced f log freed fifo).2.2
          ++ (flush_packets_traced f log freed fifo).1.free_packets).map Packet.buf)
      ((freed ++ f.free_packets).map Packet.buf ++ fifo.map Packet.buf) ∧
    ((∀ q ∈ freed, q.callbacks = []) → (∀ q ∈ f.free_packets, q.callbacks = []) →
      (∀ q ∈ (flush_packets_traced f log freed fifo).2.2, q.callbacks = []) ∧
      (∀ q ∈ (flush_packets_traced f log freed fifo).1.free_packets, q.callbacks = [])) := by
  induction fifo with
  | nil =>
    intro f log freed
    exact ⟨by simp [flush_packets_traced], fun h1 h2 => ⟨h1, h2⟩⟩
  | cons p ps ih =>
    intro f log freed
    unfold flush_packets_traced
    simp only []
    obtain ⟨i1, i2⟩ := ih (Fusionee_PutPacket_traced f (Packet_RunCallbacks log p).2).1
      (Packet_RunCallbacks log p).1
      (freed ++ (Fusionee_PutPacket_traced f (Packet_RunCallbacks log p).2).2)
    constructor
    · refine i1.trans ?_
      have hb := Fusionee_PutPacket_traced_bufs f (Packet_RunCallbacks log p).2 freed
      have e : (Packet_RunCallbacks log p).2.buf = p.buf := rfl
      rw [e] at hb
      rw [List.map_cons, ← List.singleton_append (l := List.map Packet.buf ps),
        ← List.append_assoc]
      exact List.Perm.append_right _ hb
    · intro h1 h2
      obtain ⟨c1, c2⟩ := Fusionee_PutPacket_traced_callbacks f (Packet_RunCallbacks log p).2
        rfl h2
      refine i2 (fun q hq => ?_) c2
      rcases List.mem_append.1 hq with h | h
      · exact h1 q h
      · exact c1 q h

/-- C19: `fusionee_destroy` of a fusionee in a reachable world, with a reference count
above zero.  The callbacks invoked are, after those invoked before, all callback
entries of the packets of `prev_packets`, then all of the packets of the ready fifo,
each fifo from its head on and each packet's entries in the order they were added:
every pending callback is invoked once.  The packets passed to `Packet_Free` are, up to
order, exactly the packets that were in `prev_packets`, in the ready fifo and in the
free fifo (told apart by their buffers); none of them has a callback entry left when it
is freed; the free fifo is empty, and the fusionee is no longer in the list of the
device. -/
theorem destroy_runs_callbacks_and_frees (w : World) (hr : Reachable w) (dev : List Fusionee)
    (refs : Nat) (hrefs : 0 < refs) :
    ∃ d, fusionee_destroy dev w.fusionee refs w.log = some d ∧
      d.log = w.log ++ (all_callbacks w.fusionee.prev_packets
                ++ all_callbacks w.fusionee.packets) ∧
      d.free_fifo = [] ∧
      List.Perm (d.freed.map Packet.buf)
        ((w.fusionee.prev_packets ++ w.fusionee.packets
            ++ w.fusionee.free_packets).map Packet.buf) ∧
      (∀ q ∈ d.freed, q.callbacks = []) ∧
      d.dev = dev.eraseP (fun g => g.id == w.fusionee.id) := by
  have hinv := hr.invariant
  have hrun1 : callbacks_to_run w.fusionee.prev_packets
      = all_callbacks w.fusionee.prev_packets :=
    callbacks_to_run_eq_all _ (fun p hp => (hinv.2.1 p hp).2.2)
  have hrun2 : callbacks_to_run w.fusionee.packets = all_callbacks w.fusionee.packets :=
    callbacks_to_run_eq_all _ (fun p hp => (hinv.1 p hp).2.2)
  have hfree0 : ∀ q ∈ w.fusionee.free_packets, q.callbacks = [] :=
    fun q hq => (hinv.2.2.2 q hq).2.2
  obtain ⟨a1, a2⟩ := flush_packets_traced_eq w.fusionee.prev_packets w.fusionee w.log []
  obtain ⟨b1, b2⟩ := flush_packets_traced_freed w.fusionee.prev_packets w.fusionee w.log []
  obtain ⟨c1, c2⟩ := flush_packets_traced_eq w.fusionee.packets
    (flush_packets_traced w.fusionee w.log [] w.fusionee.prev_packets).1
    (flush_packets_traced w.fusionee w.log [] w.fusionee.prev_packets).2.1
    (flush_packets_traced w.fusionee w.log [] w.fusionee.prev_packets).2.2
  obtain ⟨d1, d2⟩ := flush_packets_traced_freed w.fusionee.packets
    (flush_packets_traced w.fusionee w.log [] w.fusionee.prev_packets).1
    (flush_packets_traced w.fusionee w.log [] w.fusionee.prev_packets).2.1
    (flush_packets_traced w.fusionee w.log [] w.fusionee.prev_packets).2.2
  obtain ⟨e1, e2⟩ := b2 (fun q hq => by simp at hq) hfree0
  obtain ⟨g1, g2⟩ := d2 e1 e2
  refine ⟨_, by unfold fusionee_destroy; rw [if_pos hrefs], ?_, ?_, ?_, ?_, rfl⟩
  · show (flush_packets_traced _ _ _ w.fusionee.packets).2.1 = _
    rw [c2, (flush_packets_fields _ _ _).2.2.2.2.2.2.2.1, a2,
      (flush_packets_fields _ _ _).2.2.2.2.2.2.2.1, hrun1, hrun2, List.append_assoc]
  · simp only [free_packets_spec]
  · simp only [free_packets_spec]
    refine d1.trans ?_
    rw [List.map_append _ (w.fusionee.prev_packets ++ w.fusionee.packets),
      List.map_append _ w.fusionee.prev_packets]
    refine (List.Perm.append_right _ b1).trans ?_
    simp only [List.nil_append, List.append_assoc]
    refine List.perm_append_comm.trans ?_
    rw [List.append_assoc]
  · simp only [free_packets_spec]
    intro q hq
    rcases List.mem_append.1 hq with h | h
    · exact g1 q h
    · exact g2 q h

theorem destroy_runs_callbacks_and_frees_witness :
    Reachable callback_delivered_world ∧ 0 < 1 ∧
    ∃ d, fusionee_destroy [callback_delivered_world.fusionee] callback_delivered_world.fusionee
          1 callback_delivered_world.log = some d ∧
      d.log = callback_delivered_world.log
          ++ (all_callbacks callback_delivered_world.fusionee.prev_packets
                ++ all_callbacks callback_delivered_world.fusionee.packets) ∧
      d.free_fifo = [] := by
  obtain ⟨d, h1, h2, h3, _⟩ := destroy_runs_callbacks_and_frees callback_delivered_world
    ⟨1, 1, callback_delivered, rfl⟩ [callback_delivered_world.fusionee] 1 (by decide)
  exact ⟨⟨1, 1, callback_delivered, rfl⟩, by decide, d, h1, h2, h3⟩

/-- Destruction in the example world, where the packet with the callback is in
`prev_packets`: the callback is invoked, one packet is freed, the list of the device is
empty.  With a reference count of zero the assertion fails. -/
theorem example_destroy :
    ((fusionee_destroy [callback_delivered_world.fusionee] callback_delivered_world.fusionee
        1 callback_delivered_world.log).map
      (fun d => (d.log, d.freed.length, d.free_fifo.length, d.dev.length)))
      = some ([callback_message.entry], 1, 0, 0) ∧
    (fusionee_destroy [callback_delivered_world.fusionee] callback_delivered_world.fusionee
        0 callback_delivered_world.log).isNone = true := by
  decide

theorem Fusionee_GetPacket_some (f : Fusionee) (size : Nat) (alloc : Option Mem)
    (hsize : size ≤ FUSION_MAX_PACKET_SIZE) :
    ∃ f1 r, Fusionee_GetPacket f size alloc = some (f1, r) := by
  unfold Fusionee_GetPacket
  rw [if_pos hsize]
  simp only []
  split
  · split
    · exact ⟨_, _, rfl⟩
    · exact ⟨_, _, rfl⟩
  · exact ⟨_, _, rfl⟩

theorem Packet_Write_some (p : Packet) (t mid ch : Nat) (d : UserPtr) (n : Nat)
    (e : Option UserPtr) (m : Nat) (fu : Bool)
    (hcap : p.size + (sizeof_FusionReadMessage + n + m + 3) / 4 * 4 ≤ FUSION_MAX_PACKET_SIZE) :
    ∃ ret p1, Packet_Write p t mid ch d n e m fu = some (ret, p1) := by
  unfold Packet_Write
  simp only []
  rw [if_pos hcap]
  split
  · exact ⟨_, _, rfl⟩
  · split
    · exact ⟨_, _, rfl⟩
    · exact ⟨_, _, rfl⟩

theorem Fusionee_GetPacket_room {f f1 : Fusionee} {size : Nat} {alloc : Option Mem}
    {packet : Packet} (hinv : f.invariant)
    (h : Fusionee_GetPacket f size alloc = some (f1, some packet)) :
    packet.size + (size + 3) / 4 * 4 ≤ FUSION_MAX_PACKET_SIZE := by
  obtain ⟨hsize, h1 | h2⟩ := Fusionee_GetPacket_spec h
  · obtain ⟨init, q, hq, hroom, _, hr⟩ := h1
    have hqp : q = packet := (Option.some.inj hr).symm
    subst hqp
    have hwf : q.well_formed :=
      hinv.1 q (by rw [hq]; exact List.mem_append_right _ (List.mem_singleton_self _))
    have := hwf.size_mod4
    simp only [FUSION_MAX_PACKET_SIZE] at hroom ⊢
    omega
  · obtain ⟨_, hr, _⟩ := h2
    have hreset : packet.is_reset := by
      rcases acquire_packet_some hr.symm with hq | hq
      · exact hinv.2.2.2 packet (by rw [hq]; exact List.mem_cons_self _ _)
      · exact hq.2.2
    rw [hreset.1]
    simp only [FUSION_MAX_PACKET_SIZE] at hsize ⊢
    omega

theorem send_locked_no_assert (sender : Sender) {f : Fusionee} {m : Message} {a : Alloc}
    (hinv : f.invariant)
    (hsize : sizeof_FusionReadMessage + m.msg_size + m.extra_size ≤ FUSION_MAX_PACKET_SIZE) :
    send_locked sender f m a ≠ .assert_failed := by
  obtain ⟨f1, r, hg⟩ := Fusionee_GetPacket_some f _ a.packet hsize
  unfold send_locked
  rw [hg]
  cases r with
  | none => simp
  | some packet =>
    obtain ⟨ret, p1, hw⟩ := Packet_Write_some packet m.msg_type m.msg_id m.msg_channel
      m.msg_data m.msg_size m.extra_data m.extra_size
      (m.msg_type != FMT_CALL && m.msg_type != FMT_SHMPOOL) (Fusionee_GetPacket_room hinv hg)
    simp only [hw]
    split
    · simp
    · split
      · split <;> simp
      · simp

/-- C20: in every world that sends, receives, polls and waits lead to from a fusionee just
created, the used length of every packet of the ready fifo, of `prev_packets` and of the
free fifo is a multiple of four and at most 16384.  So for a message whose frame,
without padding, has at most 16384 bytes: the packet that `Fusionee_GetPacket` returns
has room for the padded frame, `Packet_Write` on it does not fail its capacity
assertion, and neither send function ends in a failed assertion. -/
theorem packet_sizes_aligned (w : World) (hr : Reachable w) (sender : Sender) (m : Message)
    (a : Alloc)
    (hsize : sizeof_FusionReadMessage + m.msg_size + m.extra_size ≤ FUSION_MAX_PACKET_SIZE) :
    (∀ p ∈ w.fusionee.packets ++ w.fusionee.prev_packets ++ w.fusionee.free_packets,
      p.size % 4 = 0 ∧ p.size ≤ FUSION_MAX_PACKET_SIZE) ∧
    (∃ f1 r, Fusionee_GetPacket w.fusionee
      (sizeof_FusionReadMessage + m.msg_size + m.extra_size) a.packet = some (f1, r)) ∧
    (∀ f1 packet, Fusionee_GetPacket w.fusionee
        (sizeof_FusionReadMessage + m.msg_size + m.extra_size) a.packet
          = some (f1, some packet) →
      packet.size + (sizeof_FusionReadMessage + m.msg_size + m.extra_size + 3) / 4 * 4
        ≤ FUSION_MAX_PACKET_SIZE ∧
      ∃ ret p1, Packet_Write packet m.msg_type m.msg_id m.msg_channel m.msg_data m.msg_size
        m.extra_data m.extra_size (m.msg_type != FMT_CALL && m.msg_type != FMT_SHMPOOL)
        = some (ret, p1)) ∧
    fusionee_send_message2 sender m a w.fusionee [] ≠ .assert_failed ∧
    fusionee_send_message [w.fusionee] sender w.fusionee.id m a [] ≠ some .assert_failed := by
  have hinv := hr.invariant
  have hna := send_locked_no_assert sender (a := a) hinv hsize
  have h2 : fusionee_send_message2 sender m a w.fusionee [] ≠ .assert_failed := by
    unfold fusionee_send_message2
    split
    · simp
    · exact hna
  refine ⟨fun p hp => ?_, Fusionee_GetPacket_some _ _ _ hsize, fun f1 packet hg => ?_, h2, ?_⟩
  · rcases List.mem_append.1 hp with h | h
    · rcases List.mem_append.1 h with h | h
      · exact ⟨(hinv.1 p h).size_mod4, (hinv.1 p h).2.1⟩
      · exact ⟨(hinv.2.1 p h).size_mod4, (hinv.2.1 p h).2.1⟩
    · have := (hinv.2.2.2 p h).1
      rw [this]
      exact ⟨rfl, Nat.zero_le _⟩
  · have hroom := Fusionee_GetPacket_room hinv hg
    exact ⟨hroom, Packet_Write_some _ _ _ _ _ _ _ _ _ hroom⟩
  · simp only [fusionee_send_message, lookup_fusionee_head, fusionee_send_message_again_eq]
    intro h
    injection h with h
    exact h2 h

theorem packet_sizes_aligned_witness :
    Reachable one_sent_world ∧
    sizeof_FusionReadMessage + full_message.msg_size + full_message.extra_size
      ≤ FUSION_MAX_PACKET_SIZE ∧
    (∀ p ∈ one_sent_world.fusionee.packets ++ one_sent_world.fusionee.prev_packets
        ++ one_sent_world.fusionee.free_packets,
      p.size % 4 = 0 ∧ p.size ≤ FUSION_MAX_PACKET_SIZE) ∧
    fusionee_send_message2 Sender.null full_message alloc_ok one_sent_world.fusionee []
      ≠ .assert_failed :=
  ⟨one_sent_world_reachable, by decide,
    (packet_sizes_aligned one_sent_world one_sent_world_reachable Sender.null full_message
      alloc_ok (by decide)).1,
    (packet_sizes_aligned one_sent_world one_sent_world_reachable Sender.null full_message
      alloc_ok (by decide)).2.2.2.1⟩

/-- A payload of 16382 bytes makes a frame of 16398 bytes without padding: that is more
than a packet holds and `Fusionee_GetPacket` fails its assertion on the size.  A payload
of 16366 bytes makes a frame of 16382 bytes, 16384 with padding: it does not fit behind
the twenty bytes of the packet on the ready fifo, a new packet is opened and the padded
frame fills it. -/
theorem example_oversized :
    (step one_sent_world (Op.send Sender.null
      { full_message with msg_size := 16382 } alloc_ok)).2 = Event.assert_failed ∧
    (step one_sent_world (Op.send Sender.null
      { full_message with msg_size := 16366 } alloc_ok)).2 = Event.send_returned 0 ∧
    ((step one_sent_world (Op.send Sender.null
      { full_message with msg_size := 16366 } alloc_ok)).1.fusionee.packets.map Packet.size)
      = [20, 16384] := by
  decide

theorem flushed_but_tail_nil : flushed_but_tail [] := by
  intro init q h
  simp at h

theorem flushed_but_tail_snoc {init : List Packet} (q : Packet)
    (h : ∀ p ∈ init, p.flush = true) : flushed_but_tail (init ++ [q]) := by
  intro init2 q2 he p hp
  obtain ⟨rfl, _⟩ := snoc_inj he
  exact h p hp

theorem flushed_but_tail_set_tail {init : List Packet} {q : Packet} (x : Packet)
    (h : flushed_but_tail (init ++ [q])) : flushed_but_tail (init ++ [x]) :=
  flushed_but_tail_snoc x (h init q rfl)

theorem flushed_but_tail_drop (k : Nat) {l : List Packet} (h : flushed_but_tail l) :
    flushed_but_tail (l.drop k) := by
  intro init q he p hp
  have e : l = (l.take k ++ init) ++ [q] := by
    rw [List.append_assoc, ← he, List.take_append_drop]
  exact h _ q e p (List.mem_append_right _ hp)

theorem flush_last_all_flushed {l : List Packet} (h : flushed_but_tail l) :
    ∀ p ∈ flush_last l, p.flush = true := by
  rcases List.eq_nil_or_concat l with rfl | ⟨init, q, rfl⟩
  · intro p hp; simp [flush_last] at hp
  · rw [List.concat_eq_append] at h ⊢
    rw [flush_last_snoc]
    intro p hp
    rcases List.mem_append.1 hp with h1 | h1
    · exact h init q rfl p h1
    · rw [List.mem_singleton.1 h1]

theorem Fusionee_GetPacket_flushed {f f1 : Fusionee} {size : Nat} {alloc : Option Mem}
    {r : Option Packet} (hf : flushed_but_tail f.packets)
    (h : Fusionee_GetPacket f size alloc = some (f1, r)) : flushed_but_tail f1.packets := by
  obtain ⟨_, h1 | h2⟩ := Fusionee_GetPacket_spec h
  · obtain ⟨_, _, _, _, he, _⟩ := h1
    rw [he]; exact hf
  · obtain ⟨_, _, he⟩ := h2
    rw [he]
    show flushed_but_tail (flush_last f.packets ++ r.toList)
    cases r with
    | none =>
      intro init q hq p hp
      refine flush_last_all_flushed hf p ?_
      simp only [Option.toList, List.append_nil] at hq
      rw [hq]
      exact List.mem_append_left _ hp
    | some x => exact flushed_but_tail_snoc x (flush_last_all_flushed hf)

theorem send_locked_flushed {sender : Sender} {f : Fusionee} {m : Message} {a : Alloc}
    {ret : Int} {f' : Fusionee} {s' : Sender} (hf : flushed_but_tail f.packets)
    (h : send_locked sender f m a = .returned ret f' s') : flushed_but_tail f'.packets := by
  obtain ⟨f1, r, hg, hcase⟩ := send_locked_returned h
  have h1 := Fusionee_GetPacket_flushed hf hg
  rcases hcase with ⟨_, _, he, _⟩ | ⟨packet, ret1, p1, hr, _, hcase⟩
  · rw [he]; exact h1
  · subst hr
    have htail := Fusionee_GetPacket_tail hg
    rw [htail] at h1
    rcases hcase with ⟨_, _, _, he⟩ | ⟨_, _, _, _, _, he⟩ | ⟨_, _, _, _, he⟩ <;>
      (rw [he]; exact flushed_but_tail_set_tail _ h1)

theorem step_flushed (w : World) (op : Op) (hf : flushed_but_tail w.fusionee.packets) :
    flushed_but_tail (step w op).1.fusionee.packets := by
  cases op with
  | send sender m a =>
    simp only [step]
    cases hres : fusionee_send_message2 sender m a w.fusionee [] with
    | returned ret f s =>
      simp only [send_outcome]
      unfold fusionee_send_message2 at hres
      split at hres
      · simp at hres
      · exact send_locked_flushed hf hres
    | sleeping f s => exact hf
    | assert_failed => exact hf
  | send_by_id sender m a =>
    simp only [step, fusionee_send_message, lookup_fusionee_head]
    rw [fusionee_send_message_again_eq]
    cases hres : fusionee_send_message2 sender m a w.fusionee [] with
    | returned ret f s =>
      simp only [send_outcome]
      unfold fusionee_send_message2 at hres
      split at hres
      · simp at hres
      · exact send_locked_flushed hf hres
    | sleeping f s => exact hf
    | assert_failed => exact hf
  | get_messages pid buf_size accessible block =>
    obtain ⟨k, _, _, _, h3, _, _⟩ := fusionee_get_messages_effect pid buf_size accessible block w
    simp only [step, h3]
    exact flushed_but_tail_drop k hf
  | get_messages_wake buf_size accessible =>
    obtain ⟨k, _, _, _, h3, _, _⟩ := get_messages_wait_effect buf_size accessible true w
    simp only [step, h3]
    exact flushed_but_tail_drop k hf
  | poll =>
    rw [(step_poll_world w).1]; exact hf
  | wait_processing t mid =>
    have e : (step w (.wait_processing t mid)).1 = w := by
      simp only [step, fusionee_wait_processing_eq]
      cases wait_processing_search w.fusionee t mid <;> simp
    rw [e]; exact hf

theorem run_flushed (ops : List Op) : ∀ (w : World), flushed_but_tail w.fusionee.packets →
    flushed_but_tail (run w ops).1.fusionee.packets := by
  induction ops with
  | nil => intro w h; exact h
  | cons op ops ih => intro w h; exact ih _ (step_flushed w op h)

/-- C21: in every world that sends, receives, polls and waits lead to from a fusionee just
created, every packet of the ready fifo other than its tail is flush-marked.  So when
the head of the ready fifo is not flush-marked, the ready fifo holds this one packet
only. -/
theorem ready_flushed_except_tail (w : World) (hr : Reachable w) :
    (∀ init q, w.fusionee.packets = init ++ [q] → ∀ p ∈ init, p.flush = true) ∧
    (∀ p rest, w.fusionee.packets = p :: rest → p.flush = false → rest = []) := by
  have hf : flushed_but_tail w.fusionee.packets := by
    obtain ⟨pid, id, ops, rfl⟩ := hr
    exact run_flushed ops (initial_world pid id) flushed_but_tail_nil
  refine ⟨hf, fun p rest hp hfl => ?_⟩
  rcases List.eq_nil_or_concat rest with hr0 | ⟨init, q, hq⟩
  · exact hr0
  · rw [List.concat_eq_append] at hq
    have e : w.fusionee.packets = (p :: init) ++ [q] := by rw [hp, hq]; rfl
    have := hf _ q e p (List.mem_cons_self _ _)
    rw [hfl] at this
    exact Bool.noConfusion this

theorem ready_flushed_except_tail_witness :
    Reachable two_packet_world ∧
    two_packet_world.fusionee.packets.map Packet.flush = [true, false] ∧
    (∀ init q, two_packet_world.fusionee.packets = init ++ [q] →
      ∀ p ∈ init, p.flush = true) ∧
    Reachable one_call_world ∧
    one_call_world.fusionee.packets.map Packet.flush = [false] ∧
    (∀ p rest, one_call_world.fusionee.packets = p :: rest → p.flush = false → rest = []) :=
  ⟨⟨1, 1, _, rfl⟩, by decide,
    (ready_flushed_except_tail two_packet_world ⟨1, 1, _, rfl⟩).1,
    ⟨1, 1, _, rfl⟩, by decide,
    (ready_flushed_except_tail one_call_world ⟨1, 1, _, rfl⟩).2⟩

theorem reachable_step {w : World} (hr : Reachable w) (op : Op) : Reachable (step w op).1 := by
  obtain ⟨pid, id, ops, rfl⟩ := hr
  exact ⟨pid, id, ops ++ [op], by rw [run_append]; rfl⟩

/-- The code that the copy loop returns, when the flush-marked packets it is given are not
empty and either something has been written or the head packet is flush-marked: a
positive byte count, `-EMSGSIZE` or `-EFAULT`. -/
theorem get_messages_copy_nonzero (accessible : Nat) (packets : List Packet) :
    ∀ (f : Fusionee) (written buf_size : Int) (out : List Nat),
    (∀ p ∈ packets, p.flush = true → 0 < p.size) →
    (0 < written ∨ (written = 0 ∧ ∃ p rest, packets = p :: rest ∧ p.flush = true)) →
    0 < (get_messages_copy accessible packets f written buf_size out).1 ∨
    (get_messages_copy accessible packets f written buf_size out).1 = -EMSGSIZE ∨
    (get_messages_copy accessible packets f written buf_size out).1 = -EFAULT := by
  induction packets with
  | nil =>
    intro f written buf_size out _ h
    rcases h with h | ⟨_, p, rest, h, _⟩
    · exact Or.inl h
    · simp at h
  | cons p ps ih =>
    intro f written buf_size out hpos h
    unfold get_messages_copy
    by_cases hfl : p.flush = true
    · rw [if_pos hfl]
      simp only []
      by_cases hbig : (p.size : Int) > buf_size
      · rw [if_pos hbig]
        by_cases hw : written = 0
        · rw [if_pos hw]; exact Or.inr (Or.inl rfl)
        · rw [if_neg hw]
          rcases h with h | ⟨h, _⟩
          · exact Or.inl h
          · exact absurd h hw
      · rw [if_neg hbig]
        by_cases hfault : out.length + p.size > accessible
        · rw [if_pos hfault]; exact Or.inr (Or.inr rfl)
        · rw [if_neg hfault]
          refine ih _ _ _ _ (fun q hq => hpos q (List.mem_cons_of_mem _ hq)) (Or.inl ?_)
          have hp := hpos p (List.mem_cons_self _ _) hfl
          rcases h with h | ⟨h, _⟩ <;> omega
    · rw [if_neg hfl]
      rcases h with h | ⟨_, q, rest, hq, hqf⟩
      · exact Or.inl h
      · injection hq with hq1 _
        rw [← hq1] at hqf
        exact absurd hqf hfl

theorem get_messages_finish_nonzero (buf_size : Int) (accessible : Nat)
    (prev_packets : List Packet) (w : World)
    (hpos : ∀ p ∈ w.fusionee.packets, p.flush = true → 0 < p.size)
    (hhead : head_flushed w.fusionee = true) {ret : Int} {out : List Nat} {w' : World}
    (h : get_messages_finish buf_size accessible prev_packets w = .returned ret out w') :
    0 < ret ∨ ret = -EMSGSIZE ∨ ret = -EFAULT := by
  unfold get_messages_finish at h
  simp only [] at h
  injection h with h1 _ _
  rw [← h1]
  refine get_messages_copy_nonzero accessible _ _ 0 buf_size [] hpos (Or.inr ⟨rfl, ?_⟩)
  unfold head_flushed at hhead
  cases hp : w.fusionee.packets with
  | nil => rw [hp] at hhead; simp at hhead
  | cons p rest => rw [hp] at hhead; exact ⟨p, rest, rfl, hhead⟩

theorem get_messages_wait_nonzero (buf_size : Int) (accessible : Nat) (block : Bool)
    (wakes : List (Wake World)) : ∀ (v : World), Reachable v →
    (∀ k ∈ wakes, ∀ u, Reachable u → Reachable (k.env u)) →
    ∀ {ret : Int} {out : List Nat} {w' : World},
    get_messages_wait buf_size accessible block v wakes = .returned ret out w' →
    0 < ret ∨ ret = -EAGAIN ∨ ret = -EINTR ∨ ret = -EMSGSIZE ∨ ret = -EFAULT := by
  induction wakes with
  | nil =>
    intro v hv _ ret out w' h
    unfold get_messages_wait at h
    by_cases hh : head_flushed v.fusionee = true
    · rw [if_pos hh] at h
      rcases get_messages_finish_nonzero _ _ _ _ hv.invariant.2.2.1 hh h with h1 | h1 | h1
      · exact Or.inl h1
      · exact Or.inr (Or.inr (Or.inr (Or.inl h1)))
      · exact Or.inr (Or.inr (Or.inr (Or.inr h1)))
    · rw [if_neg hh] at h
      split at h
      · injection h with h1 _ _
        exact Or.inr (Or.inl h1.symm)
      · simp at h
  | cons k ks ih =>
    intro v hv henv ret out w' h
    unfold get_messages_wait at h
    by_cases hh : head_flushed v.fusionee = true
    · rw [if_pos hh] at h
      rcases get_messages_finish_nonzero _ _ _ _ hv.invariant.2.2.1 hh h with h1 | h1 | h1
      · exact Or.inl h1
      · exact Or.inr (Or.inr (Or.inr (Or.inl h1)))
      · exact Or.inr (Or.inr (Or.inr (Or.inr h1)))
    · rw [if_neg hh] at h
      split at h
      · injection h with h1 _ _
        exact Or.inr (Or.inl h1.symm)
      · split at h
        · injection h with h1 _ _
          exact Or.inr (Or.inr (Or.inl h1.symm))
        · exact ih (k.env v) (henv k (List.mem_cons_self _ _) v hv)
            (fun k2 hk2 => henv k2 (List.mem_cons_of_mem _ hk2)) h

/-- A blocking call of `fusionee_get_messages` that does not find a flush-marked head goes
on as the wait loop does from the world in which the call sleeps. -/
theorem fusionee_get_messages_blocked (pid : Nat) (buf_size : Int) (accessible : Nat)
    (w : World) (wakes : List (Wake World)) (hhead : head_flushed w.fusionee = false) :
    fusionee_get_messages pid buf_size accessible true w wakes
      = get_messages_wait buf_size accessible true
          (step w (Op.get_messages pid buf_size accessible true)).1 wakes := by
  obtain ⟨f1, _⟩ :=
    flush_packets_fields w.fusionee.prev_packets (detach_prev w.fusionee pid) w.log
  have hh0 : head_flushed (detach_prev w.fusionee pid) = false := by
    rw [← hhead]; exact head_flushed_congr rfl
  have hh1 : head_flushed
      (flush_packets (detach_prev w.fusionee pid) w.log w.fusionee.prev_packets).1 = false := by
    rw [← hh0]; exact head_flushed_congr f1
  have hstep : (step w (Op.get_messages pid buf_size accessible true)).1
      = (if w.fusionee.prev_packets.length ≠ 0 then
          ⟨(flush_packets (detach_prev w.fusionee pid) w.log w.fusionee.prev_packets).1,
            (flush_packets (detach_prev w.fusionee pid) w.log w.fusionee.prev_packets).2⟩
         else { w with fusionee := detach_prev w.fusionee pid }) := by
    simp only [step]
    unfold fusionee_get_messages
    simp only [hh0, Bool.false_eq_true, if_false, Bool.not_true]
    by_cases hp : w.fusionee.prev_packets.length ≠ 0
    · rw [if_pos hp, if_pos hp]
      unfold get_messages_wait
      simp only [hh1, Bool.false_eq_true, if_false, Bool.not_true, get_messages_outcome]
    · rw [if_neg hp, if_neg hp]
      unfold get_messages_wait
      simp only [hh0, Bool.false_eq_true, if_false, Bool.not_true, get_messages_outcome]
  rw [hstep]
  unfold fusionee_get_messages
  simp only [hh0, Bool.false_eq_true, if_false, Bool.not_true]
  by_cases hp : w.fusionee.prev_packets.length ≠ 0
  · rw [if_pos hp, if_pos hp]
  · rw [if_neg hp, if_neg hp]

/-- C22: in every world that sends, receives, polls and waits lead to from a fusionee just
created, every flush-marked packet of the ready fifo has a used length above zero.
So a call of `fusionee_get_messages` there, non-blocking or blocking, with any
wake-ups that find the world reachable again, never returns 0: when it returns, the
code is a positive byte count or one of `-EAGAIN`, `-EINTR`, `-EMSGSIZE`, `-EFAULT`. -/
theorem drain_never_returns_zero (w : World) (hr : Reachable w) (pid : Nat) (c : Int)
    (accessible : Nat) (block : Bool) (wakes : List (Wake World))
    (henv : ∀ k ∈ wakes, ∀ u, Reachable u → Reachable (k.env u)) :
    (∀ p ∈ w.fusionee.packets, p.flush = true → 0 < p.size) ∧
    ∀ ret out w', fusionee_get_messages pid c accessible block w wakes
        = .returned ret out w' →
      ret ≠ 0 ∧ (0 ≤ ret → 0 < ret) ∧
      (0 < ret ∨ ret = -EAGAIN ∨ ret = -EINTR ∨ ret = -EMSGSIZE ∨ ret = -EFAULT) := by
  have hpos := hr.invariant.2.2.1
  refine ⟨hpos, fun ret out w' h => ?_⟩
  have key : 0 < ret ∨ ret = -EAGAIN ∨ ret = -EINTR ∨ ret = -EMSGSIZE ∨ ret = -EFAULT := by
    by_cases hh : head_flushed w.fusionee = true
    · rw [fusionee_get_messages_flushed pid c accessible block w wakes hh] at h
      have hh0 : head_flushed (detach_prev w.fusionee pid) = true := by
        rw [← hh]; exact head_flushed_congr rfl
      rcases get_messages_finish_nonzero c accessible _
        { w with fusionee := detach_prev w.fusionee pid } hpos hh0 h with h1 | h1 | h1
      · exact Or.inl h1
      · exact Or.inr (Or.inr (Or.inr (Or.inl h1)))
      · exact Or.inr (Or.inr (Or.inr (Or.inr h1)))
    · have hh' : head_flushed w.fusionee = false := by simpa using hh
      cases block with
      | false =>
        have hh0 : head_flushed (detach_prev w.fusionee pid) = false := by
          rw [← hh']; exact head_flushed_congr rfl
        unfold fusionee_get_messages at h
        simp only [hh0, Bool.false_eq_true, if_false, Bool.not_false, if_true] at h
        injection h with h1 _ _
        exact Or.inr (Or.inl h1.symm)
      | true =>
        rw [fusionee_get_messages_blocked pid c accessible w wakes hh'] at h
        exact get_messages_wait_nonzero c accessible true wakes _ (reachable_step hr _) henv h
  refine ⟨?_, ?_, key⟩
  · rcases key with h1 | h1 | h1 | h1 | h1
    · omega
    all_goals (rw [h1]; simp [EAGAIN, EINTR, EMSGSIZE, EFAULT])
  · intro h0
    rcases key with h1 | h1 | h1 | h1 | h1
    · exact h1
    all_goals (rw [h1] at h0; simp [EAGAIN, EINTR, EMSGSIZE, EFAULT] at h0)

theorem drain_never_returns_zero_witness :
    Reachable (initial_world 1 1) ∧
    (∀ k ∈ [wake_after_send], ∀ u, Reachable u → Reachable (k.env u)) ∧
    (get_messages_outcome
      (fusionee_get_messages 5 64 64 true (initial_world 1 1) [wake_after_send])).2
      = Event.get_messages_returned 20
          [0, 0, 0, 0, 7, 0, 0, 0, 0, 0, 0, 0, 4, 0, 0, 0, 112, 112, 112, 112] ∧
    ∀ ret out w', fusionee_get_messages 5 64 64 true (initial_world 1 1) [wake_after_send]
        = .returned ret out w' → ret ≠ 0 := by
  have henv : ∀ k ∈ [wake_after_send], ∀ u, Reachable u → Reachable (k.env u) := by
    intro k hk u _
    rw [List.mem_singleton.1 hk]
    exact one_sent_world_reachable
  exact ⟨⟨1, 1, [], rfl⟩, henv, by decide,
    fun ret out w' h =>
      ((drain_never_returns_zero (initial_world 1 1) ⟨1, 1, [], rfl⟩ 5 64 64 true
        [wake_after_send] henv).2 ret out w' h).1⟩

/-- After failed sends the ready fifo can hold an empty packet, but not a flush-marked
one: the send whose `Packet_Write` faults leaves its packet empty and not flush-marked,
and the receive that follows returns `-EAGAIN`, not 0. -/
theorem example_empty_packet_not_flushed :
    ((step (initial_world 1 1)
        (Op.send Sender.null faulting_message alloc_ok)).1.fusionee.packets.map
      (fun p => (p.size, p.flush))) = [(0, false)] ∧
    (step (step (initial_world 1 1) (Op.send Sender.null faulting_message alloc_ok)).1
      (Op.get_messages 5 64 64 false)).2 = Event.get_messages_returned (-EAGAIN) [] := by
  decide

theorem step_ready_bound (w : World) (op : Op) (h : w.fusionee.packets.length ≤ 11) :
    (step w op).1.fusionee.packets.length ≤ 11 := by
  cases op with
  | send sender m a =>
    simp only [step]
    cases hres : fusionee_send_message2 sender m a w.fusionee [] with
    | returned ret f s =>
      simp only [send_outcome]
      unfold fusionee_send_message2 at hres
      split at hres
      · simp at hres
      · have := (send_locked_length hres).2
        omega
    | sleeping f s => exact h
    | assert_failed => exact h
  | send_by_id sender m a =>
    simp only [step, fusionee_send_message, lookup_fusionee_head]
    rw [fusionee_send_message_again_eq]
    cases hres : fusionee_send_message2 sender m a w.fusionee [] with
    | returned ret f s =>
      simp only [send_outcome]
      unfold fusionee_send_message2 at hres
      split at hres
      · simp at hres
      · have := (send_locked_length hres).2
        omega
    | sleeping f s => exact h
    | assert_failed => exact h
  | get_messages pid buf_size accessible block =>
    obtain ⟨k, _, _, _, h3, _, _⟩ := fusionee_get_messages_effect pid buf_size accessible block w
    simp only [step, h3, List.length_drop]
    omega
  | get_messages_wake buf_size accessible =>
    obtain ⟨k, _, _, _, h3, _, _⟩ := get_messages_wait_effect buf_size accessible true w
    simp only [step, h3, List.length_drop]
    omega
  | poll =>
    rw [(step_poll_world w).1]; exact h
  | wait_processing t mid =>
    have e : (step w (.wait_processing t mid)).1 = w := by
      simp only [step, fusionee_wait_processing_eq]
      cases wait_processing_search w.fusionee t mid <;> simp
    rw [e]; exact h

theorem run_ready_bound (ops : List Op) : ∀ (w : World), w.fusionee.packets.length ≤ 11 →
    (run w ops).1.fusionee.packets.length ≤ 11 := by
  induction ops with
  | nil => intro w h; exact h
  | cons op ops ih => intro w h; exact ih _ (step_ready_bound w op h)

/-- C23: in every world that sends, receives, polls and waits lead to from a fusionee just
created, the ready fifo holds at most eleven packets.  A send there that returns has
added at most one packet to the ready fifo and removed none; with more than ten packets
on the ready fifo either send function sleeps at the backpressure check, the fusionee
unchanged; with ten or fewer it goes on to the part that takes a packet and writes. -/
theorem ready_at_most_eleven (w : World) (hr : Reachable w) (sender : Sender) (m : Message)
    (a : Alloc) :
    w.fusionee.packets.length ≤ 11 ∧
    (∀ ret f' s', fusionee_send_message2 sender m a w.fusionee [] = .returned ret f' s' →
      w.fusionee.packets.length ≤ 10 ∧
      w.fusionee.packets.length ≤ f'.packets.length ∧
      f'.packets.length ≤ w.fusionee.packets.length + 1) ∧
    (∀ ret f' s', fusionee_send_message [w.fusionee] sender w.fusionee.id m a []
        = some (.returned ret f' s') →
      w.fusionee.packets.length ≤ 10 ∧
      w.fusionee.packets.length ≤ f'.packets.length ∧
      f'.packets.length ≤ w.fusionee.packets.length + 1) ∧
    (w.fusionee.packets.length > 10 →
      fusionee_send_message2 sender m a w.fusionee [] = .sleeping w.fusionee sender ∧
      fusionee_send_message [w.fusionee] sender w.fusionee.id m a []
        = some (.sleeping w.fusionee sender)) ∧
    (w.fusionee.packets.length ≤ 10 → ∀ wakes,
      fusionee_send_message2 sender m a w.fusionee wakes = send_locked sender w.fusionee m a ∧
      fusionee_send_message [w.fusionee] sender w.fusionee.id m a wakes
        = some (send_locked sender w.fusionee m a)) := by
  have hb : w.fusionee.packets.length ≤ 11 := by
    obtain ⟨pid, id, ops, rfl⟩ := hr
    exact run_ready_bound ops (initial_world pid id) (by simp [initial_world, fusionee_new])
  have h2 : ∀ ret f' s', fusionee_send_message2 sender m a w.fusionee [] = .returned ret f' s' →
      w.fusionee.packets.length ≤ 10 ∧
      w.fusionee.packets.length ≤ f'.packets.length ∧
      f'.packets.length ≤ w.fusionee.packets.length + 1 := by
    intro ret f' s' h
    unfold fusionee_send_message2 at h
    split at h
    · simp at h
    · rename_i hle
      exact ⟨by omega, send_locked_length h⟩
  have e : fusionee_send_message [w.fusionee] sender w.fusionee.id m a []
      = some (fusionee_send_message2 sender m a w.fusionee []) := by
    simp only [fusionee_send_message, lookup_fusionee_head, fusionee_send_message_again_eq]
  have hsleep : w.fusionee.packets.length > 10 →
      fusionee_send_message2 sender m a w.fusionee [] = .sleeping w.fusionee sender := by
    intro h
    unfold fusionee_send_message2
    rw [if_pos h]
  refine ⟨hb, h2, fun ret f' s' h => ?_, fun h => ⟨hsleep h, by rw [e, hsleep h]⟩,
    fun h wakes => ⟨fusionee_send_message2_locked sender m a _ wakes h,
      fusionee_send_message_locked _ sender _ m a _ wakes (lookup_fusionee_head _ _) h⟩⟩
  rw [e] at h
  injection h with h
  exact h2 ret f' s' h

theorem ready_at_most_eleven_witness :
    Reachable (run (initial_world 1 1) eleven_full_sends).1 ∧
    (run (initial_world 1 1) eleven_full_sends).1.fusionee.packets.length = 11 ∧
    (run (initial_world 1 1) eleven_full_sends).1.fusionee.packets.length ≤ 11 ∧
    fusionee_send_message2 Sender.null small_message alloc_ok
        (run (initial_world 1 1) eleven_full_sends).1.fusionee []
      = .sleeping (run (initial_world 1 1) eleven_full_sends).1.fusionee Sender.null :=
  ⟨⟨1, 1, eleven_full_sends, rfl⟩, by decide,
    (ready_at_most_eleven (run (initial_world 1 1) eleven_full_sends).1
      ⟨1, 1, eleven_full_sends, rfl⟩ Sender.null small_message alloc_ok).1,
    ((ready_at_most_eleven (run (initial_world 1 1) eleven_full_sends).1
      ⟨1, 1, eleven_full_sends, rfl⟩ Sender.null small_message alloc_ok).2.2.2.1
        (by decide)).1⟩

/-- Twelve sends that each fill a packet: the twelfth sleeps and the ready fifo holds
eleven packets, not twelve. -/
theorem example_twelfth_send :
    (run (initial_world 1 1)
      (List.replicate 12 (Op.send Sender.null full_message alloc_ok))).2.getLast?
      = some Event.send_sleeping ∧
    (run (initial_world 1 1)
      (List.replicate 12 (Op.send Sender.null full_message alloc_ok))).1.fusionee.packets.length
      = 11 := by
  decide

end Fusion
